import Mathlib

/-!
# image-square-wizard: colour parsing, background resolution and square layout

A shallow embedding of `src/isw_color.c`, `src/isw_canvas.c` and `src/main.c`.

Conventions of the embedding.

* A C string is the list of the characters stored at the pointer, read up to
  (not including) the first NUL; reading at or past the end of the list yields
  NUL, the terminator.
* A `double` is a rational number in the first sections: the parser stores the
  value `strtod` returns, the sums of the detector are sums of bytes and exact,
  and its final division is taken in the rationals.  The section "Doubles with
  rounding, infinities and NaN" embeds the detector, `clamp_color` and the
  resolver on IEEE 754 doubles: a quotient is rounded to the nearest double and
  a component can be an infinity or a NaN.  The statements about the rounded
  mean and about clamping every component are made there.
* The C library function `strtod` and the libvips operations are external to
  the repository.  They are parameters of the functions that call them:
  `strtod` is constrained by `ReadsNumber` where a statement depends on the
  numbers it reads, and `strtod_decimal`, `strtod_fraction` and `vips_plain`
  are the instances on which concrete runs are evaluated.
-/

namespace ISW

/-! ## Data model (`src/isw_canvas.h`) -/

/-- The C struct `isw_color`: `double comps[4]; int bands;`. -/
structure isw_color where
  comps : Fin 4 → ℚ
  bands : Int

/-- The C enum `isw_background_mode`. -/
inductive isw_background_mode where
  | ISW_BG_AUTO
  | ISW_BG_MANUAL
  | ISW_BG_TRANSPARENT
  deriving DecidableEq, Repr

/-- The C struct `isw_options`. -/
structure isw_options where
  background_mode : isw_background_mode
  manual_color : isw_color

/-- The assignment `c->comps[i] = v` for an index inside the array. -/
def isw_color.setComp (c : isw_color) (i : Fin 4) (v : ℚ) : isw_color :=
  { c with comps := fun j => if j = i then v else c.comps j }

/-- The initialiser `{{0}, 0}` used for every local `struct isw_color`. -/
def isw_color.zero : isw_color := ⟨fun _ => 0, 0⟩

/-! ## C strings -/

/-- The terminating character of a C string. -/
def NUL : Char := Char.ofNat 0

/-- The read `s[i]`. -/
def charAt (s : List Char) (i : Nat) : Char := s.getD i NUL

/-- The C library `strlen`: the number of characters before the first NUL. -/
def strlen : List Char → Nat
  | [] => 0
  | c :: cs => if c = NUL then 0 else strlen cs + 1

/-- The C library `tolower` in the C locale, as an `unsigned char` value. -/
def tolower (c : Char) : Int :=
  if 'A' ≤ c ∧ c ≤ 'Z' then (c.toNat : Int) + 32 else (c.toNat : Int)

/-- The C library `strcasecmp` in the C locale: the difference of the first
pair of characters that differ after case folding, 0 when both strings end
together. -/
def strcasecmp : List Char → List Char → Int
  | [], [] => 0
  | [], b :: _ => tolower NUL - tolower b
  | a :: _, [] => tolower a - tolower NUL
  | a :: as, b :: bs =>
    if tolower a ≠ tolower b then tolower a - tolower b
    else if a = NUL then 0
    else strcasecmp as bs

/-! ## ColorSpec parser (`src/isw_color.c`) -/

/-- The diagnostics `isw_color_parse` can store in `*err_msg`, one constructor
per message string of the source. -/
inductive ParseError where
  /-- The message "missing color specification". -/
  | MissingSpec
  /-- The message "hex colors must be #rgb, #rrggbb, #rgba, or #rrggbbaa". -/
  | InvalidHexLength
  /-- The message "hex colors may only contain 0-9A-F". -/
  | InvalidHexDigit
  /-- The message "invalid numeric value in color". -/
  | InvalidNumber
  /-- The message "color components must be between 0 and 255". -/
  | OutOfRange
  /-- The message "too many components in color". -/
  | TooManyComponents
  /-- The message "color components must be comma separated". -/
  | MalformedSeparator
  /-- The message "color must have 3 or 4 components". -/
  | ComponentCount
  deriving DecidableEq, Repr

/-- The function `hex_to_int` (isw_color.c:10-15). -/
def hex_to_int (c : Char) : Int :=
  if '0' ≤ c ∧ c ≤ '9' then (c.toNat : Int) - ('0'.toNat : Int)
  else if 'a' ≤ c ∧ c ≤ 'f' then (c.toNat : Int) - ('a'.toNat : Int) + 10
  else if 'A' ≤ c ∧ c ≤ 'F' then (c.toNat : Int) - ('A'.toNat : Int) + 10
  else -1

/-- One iteration of the digit loop of `parse_hex_triplet` (isw_color.c:29-36):
`none` is the early `return false`, `some v` the value stored in `comps[i]`.
The shift and the bitwise or act on the non-negative `hi` and `lo`. -/
def parse_hex_component (spec : List Char) (digits_per : Nat) (i : Nat) : Option ℚ :=
  let hi := hex_to_int (charAt spec (1 + i * digits_per))
  let lo := if digits_per = 2 then hex_to_int (charAt spec (1 + i * digits_per + 1)) else hi
  if hi < 0 ∨ lo < 0 then none
  else
    let value : Nat :=
      if digits_per = 2 then (hi.toNat <<< 4) ||| lo.toNat else (hi.toNat <<< 4) ||| hi.toNat
    some (value : ℚ)

/-- The digit loop `for (int i = 0; i < bands; ++i)` of `parse_hex_triplet`
(isw_color.c:28-37), started at index `i` with `todo = bands - i` iterations
left.  The local array `comps` is returned as the list of the values stored. -/
def parse_hex_loop (spec : List Char) (digits_per : Nat) : Nat → Nat → Option (List ℚ)
  | _, 0 => some []
  | i, todo + 1 =>
    match parse_hex_component spec digits_per i with
    | none => none
    | some v =>
      match parse_hex_loop spec digits_per (i + 1) todo with
      | none => none
      | some vs => some (v :: vs)

/-- What `parse_hex_triplet` and `parse_csv` leave behind: the return value,
the caller's colour, and the message stored through `err_msg`. -/
structure Parsed where
  ret : Bool
  out : isw_color
  err_msg : Option ParseError

/-- The copy loop `out->bands = n; for (i < n) out->comps[i] = comps[i];`
(isw_color.c:39-42 and 82-85). -/
def store_color (out : isw_color) (comps : List ℚ) : isw_color :=
  { comps := fun j => if j.val < comps.length then comps.getD j.val 0 else out.comps j
    bands := (comps.length : Int) }

/-- The function `parse_hex_triplet` (isw_color.c:17-44). -/
def parse_hex_triplet (spec : List Char) (out : isw_color) : Parsed :=
  let len := strlen spec
  if len ≠ 4 ∧ len ≠ 5 ∧ len ≠ 7 ∧ len ≠ 9 then
    ⟨false, out, some .InvalidHexLength⟩
  else
    let bands : Nat := if len = 4 ∨ len = 7 then 3 else 4
    let digits_per : Nat := if len = 4 ∨ len = 5 then 1 else 2
    match parse_hex_loop spec digits_per 0 bands with
    | none => ⟨false, out, some .InvalidHexDigit⟩
    | some comps => ⟨true, store_color out comps, none⟩

/-- What a call `val = strtod(p, &end)` made with `errno = 0` yields: the
value, the number of characters `end - p` it consumed, and `errno` after the
call. -/
structure StrtodResult where
  val : ℚ
  consumed : Nat
  errno : Int

/-- The loop `while (*p != 0)` of `parse_csv` (isw_color.c:51-76).  The local
array `comps` and its fill count `count` are the list of the values stored so
far; `room` is `4 - count`, the number of free slots, so that the test
`count >= 4` is the test `room = 0`.  The result is the early `return false`
with its message, or the values stored when the loop is left. -/
def parse_csv_loop (strtod : List Char → StrtodResult) :
    Nat → List Char → List ℚ → Except ParseError (List ℚ)
  | room, p, comps =>
    if charAt p 0 = NUL then .ok comps
    else
      let r := strtod p
      let endp := p.drop r.consumed
      if r.errno ≠ 0 ∨ r.consumed = 0 then .error .InvalidNumber
      else if r.val < 0 ∨ r.val > 255 then .error .OutOfRange
      else
        match room with
        | 0 => .error .TooManyComponents
        | room + 1 =>
          if charAt endp 0 = ',' then parse_csv_loop strtod room (endp.drop 1) (comps ++ [r.val])
          else if charAt endp 0 = NUL then .ok (comps ++ [r.val])
          else .error .MalformedSeparator

/-- The function `parse_csv` (isw_color.c:46-87). -/
def parse_csv (strtod : List Char → StrtodResult) (spec : List Char) (out : isw_color) :
    Parsed :=
  match parse_csv_loop strtod 4 spec [] with
  | .error e => ⟨false, out, some e⟩
  | .ok comps =>
    if comps.length ≠ 3 ∧ comps.length ≠ 4 then ⟨false, out, some .ComponentCount⟩
    else ⟨true, store_color out comps, none⟩

/-- The state `isw_color_parse` leaves behind: its return value, the object
behind `out`, the flag behind `out_is_transparent` (`none` for a null
pointer), and the message stored through `err_msg`. -/
structure ParseResult where
  ret : Bool
  out : Option isw_color
  out_is_transparent : Option Bool
  err_msg : Option ParseError

/-- The function `isw_color_parse` (isw_color.c:89-112).  A null `spec`, `out`
or `out_is_transparent` is `none`. -/
def isw_color_parse (strtod : List Char → StrtodResult) (spec : Option (List Char))
    (out : Option isw_color) (out_is_transparent : Option Bool) : ParseResult :=
  match spec, out with
  | none, _ => ⟨false, out, out_is_transparent, some .MissingSpec⟩
  | some _, none => ⟨false, none, out_is_transparent, some .MissingSpec⟩
  | some spec, some out =>
    let flag := out_is_transparent.map fun _ => false
    if strcasecmp spec "transparent".toList = 0 then
      ⟨true, some out, flag.map fun _ => true, none⟩
    else if charAt spec 0 = '#' then
      let r := parse_hex_triplet spec out
      ⟨r.ret, some r.out, flag, r.err_msg⟩
    else
      let r := parse_csv strtod spec out
      ⟨r.ret, some r.out, flag, r.err_msg⟩

/-! ## The C library's `strtod` on decimal integer literals -/

/-- The number a string of decimal digits denotes. -/
def decimalValue (ds : List Char) : Nat :=
  ds.foldl (fun n c => 10 * n + (c.toNat - '0'.toNat)) 0

/-- The least number that `strtod` cannot return as a finite double under
round-to-nearest: `2^1024 - 2^970`, half an ulp above `DBL_MAX`.  From this
number on `strtod` reports overflow through `errno`. -/
def DBL_OVERFLOW : Nat :=
  179769313486231580793728971405303415079934132710037826936173778980444968292764750946649017977587207096330286416692887910946555547851940402630657488671505820681908902000708383676273854845817711531764475730270069855571366959622842914819860834936475292719074168444365510704342711559699508093042880177904174497792

/-- The value of the C macro `ERANGE`. -/
def ERANGE : Int := 34

/-- Whether a string starts with a minus sign. -/
def isNegative (t : List Char) : Bool := decide (t.head? = some '-')

/-- The digits of a decimal integer literal: the literal without its sign. -/
def digitsOf (t : List Char) : List Char := if isNegative t then t.drop 1 else t

/-- A decimal integer literal: an optional minus sign, then one or more digits. -/
def isNumeral (t : List Char) : Prop := digitsOf t ≠ [] ∧ ∀ c ∈ digitsOf t, c.isDigit = true

instance (t : List Char) : Decidable (isNumeral t) := by
  unfold isNumeral; infer_instance

/-- The integer a decimal integer literal denotes. -/
def numeralValue (t : List Char) : Int :=
  if isNegative t then -(decimalValue (digitsOf t) : Int) else (decimalValue (digitsOf t) : Int)

/-- The C library's `strtod`, in the C locale, on a string that starts with a
decimal integer literal followed by a character that cannot continue a number:
the optional minus sign and the longest run of digits after it are converted,
a magnitude from `DBL_OVERFLOW` on sets `errno` to `ERANGE`, and a string with
no digit in that place is not converted at all.  Other inputs (white space, a
plus sign, fractions, exponents, hexadecimal literals, infinities, NaNs) are
outside this model.  A magnitude above `2^53` is returned unrounded;
`parse_csv` only compares such a value with 0 and 255, and rounding to a double
preserves both comparisons. -/
def strtod_decimal (p : List Char) : StrtodResult :=
  let ds := (digitsOf p).takeWhile Char.isDigit
  let n := decimalValue ds
  if ds = [] then ⟨0, 0, 0⟩
  else
    ⟨((if isNegative p then -(n : Int) else (n : Int) : Int) : ℚ),
      (if isNegative p then 1 else 0) + ds.length,
      if DBL_OVERFLOW ≤ n then ERANGE else 0⟩

/-! ## Vocabulary of the claims about the parser -/

/-- A hexadecimal digit, upper or lower case. -/
def isHexDigit (c : Char) : Prop := c ∈ "0123456789abcdefABCDEF".toList

instance (c : Char) : Decidable (isHexDigit c) := by
  unfold isHexDigit; infer_instance

/-- The value of a hexadecimal digit: its position in the digit string, letters
read in lower case. -/
def hexDigitValue (c : Char) : Nat := "0123456789abcdef".toList.indexOf c.toLower

/-- The spec made of the given numbers joined by single commas. -/
def commaJoin : List (List Char) → List Char
  | [] => []
  | [t] => t
  | t :: ts => t ++ ',' :: commaJoin ts

/-- The string `t` is a number for `strtod`: it is not empty and holds no NUL,
and `strtod`, called on `t` followed by the end of the string or by a comma,
consumes exactly `t` and returns the value and the `errno` it does on `t`
alone.  By the C standard this holds of every decimal number, with or without
a sign, a fraction or an exponent. -/
def ReadsNumber (strtod : List Char → StrtodResult) (t : List Char) : Prop :=
  t ≠ [] ∧ (∀ c ∈ t, c ≠ NUL) ∧
  ∀ rest : List Char, (rest = [] ∨ ∃ u, rest = ',' :: u) →
    (strtod (t ++ rest)).consumed = t.length ∧
    (strtod (t ++ rest)).val = (strtod t).val ∧
    (strtod (t ++ rest)).errno = (strtod t).errno

/-- The number `t` is read by `strtod` without a range error and its value
lies in 0..255. -/
def ValueInRange (strtod : List Char → StrtodResult) (t : List Char) : Prop :=
  (strtod t).errno = 0 ∧ 0 ≤ (strtod t).val ∧ (strtod t).val ≤ 255

/-- What the loop of `parse_csv` makes of a spec, as a function of what
`strtod` returns for its numbers: it reads them in order, rejects the first
one read with a range error or with a value outside 0..255, and rejects a
fifth number it would have to store. -/
def csv_outcome : Nat → List StrtodResult → List ℚ → Except ParseError (List ℚ)
  | _, [], comps => .ok comps
  | room, r :: rs, comps =>
    if r.errno ≠ 0 then .error .InvalidNumber
    else if r.val < 0 ∨ r.val > 255 then .error .OutOfRange
    else
      match room with
      | 0 => .error .TooManyComponents
      | room + 1 => csv_outcome room rs (comps ++ [r.val])

/-- The characters of a C string: those before the first NUL. -/
def cstr (s : List Char) : List Char := s.takeWhile fun c => c ≠ NUL

/-- The C string equals "transparent" under ASCII case folding. -/
def isTransparentWord (spec : List Char) : Prop :=
  (cstr spec).map Char.toLower = "transparent".toList

instance (spec : List Char) : Decidable (isTransparentWord spec) := by
  unfold isTransparentWord; infer_instance

/-! ## libvips, the external image toolkit -/

/-- What the code reads of a `VipsImage`: its geometry, whether its format is
`VIPS_FORMAT_UCHAR`, what `vips_image_hasalpha` answers, and its samples, band
after band within a pixel, pixel after pixel within a row, row after row. -/
structure VipsImage where
  width : Int
  height : Int
  bands : Int
  format_uchar : Bool
  hasalpha : Bool
  data : List Nat

/-- The libvips operations the code calls.  An operation that can fail returns
`none` (a null image, or a non-zero status) on failure. -/
structure Vips where
  /-- The call `vips_image_new_from_file(path, NULL)`. -/
  image_new_from_file : List Char → Option VipsImage
  /-- The call `vips_colourspace(in, out, VIPS_INTERPRETATION_sRGB, NULL)`. -/
  colourspace_sRGB : VipsImage → Option VipsImage
  /-- The call `vips_cast(in, out, VIPS_FORMAT_UCHAR, NULL)`. -/
  cast_uchar : VipsImage → Option VipsImage
  /-- The call `vips_copy(in, out, "bands", 3, NULL)`. -/
  copy_bands3 : VipsImage → Option VipsImage
  /-- The call `vips_resize(in, out, scale, NULL)`. -/
  resize : VipsImage → ℚ → Option VipsImage
  /-- The call `vips_image_write_to_memory(in, &len)`: the bytes of the image. -/
  image_write_to_memory : VipsImage → Option (List Nat)
  /-- The call `vips_addalpha(in, out, NULL)`. -/
  addalpha : VipsImage → Option VipsImage
  /-- Whether `vips_array_double_new(comps, bands)` returns a non-null array. -/
  array_double_new : isw_color → Bool
  /-- The call `vips_embed(in, out, x, y, width, height, "extend",
  VIPS_EXTEND_BACKGROUND, "background", array, NULL)`. -/
  embed : VipsImage → Int → Int → Int → Int → isw_color → Option VipsImage
  /-- Whether `vips_image_write_to_file(in, path, NULL)` returns 0. -/
  image_write_to_file : VipsImage → List Char → Bool

/-! ## Dominant colour detector and canvas (`src/isw_canvas.c`) -/

/-- The diagnostics `isw_process` can store in `*err_msg`. -/
inductive ProcessError where
  /-- The message "invalid arguments". -/
  | InvalidArguments
  /-- The content of `vips_error_buffer()` after a failed libvips call. -/
  | VipsFailure
  /-- The message "failed to allocate background array". -/
  | BackgroundArray
  deriving DecidableEq, Repr

/-- The function `ensure_srgb` (isw_canvas.c:15-20); `none` is the status -1. -/
def ensure_srgb (vips : Vips) (input : VipsImage) : Option VipsImage :=
  vips.colourspace_sRGB input

/-- The function `ensure_u8` (isw_canvas.c:22-31); `none` is the status -1. -/
def ensure_u8 (vips : Vips) (input : VipsImage) : Option VipsImage :=
  if input.format_uchar then some input else vips.cast_uchar input

/-- The function `ensure_three_or_four_bands` (isw_canvas.c:33-54); `none` is
the status -1. -/
def ensure_three_or_four_bands (vips : Vips) (input : VipsImage) : Option VipsImage :=
  let bands := input.bands
  if bands = 3 ∨ bands = 4 then some input
  else if bands = 1 ∨ bands = 2 then vips.colourspace_sRGB input
  else vips.copy_bands3 input

/-- The C struct `bucket`: a `uint32_t` count and three `double` sums. -/
structure bucket where
  count : Nat
  r_sum : ℚ
  g_sum : ℚ
  b_sum : ℚ

/-- The state of the sampling loops of `detect_dominant_color`: the array
`buckets[4096]`, indexed by key, and the `uint64_t` counter `samples`. -/
structure Histogram where
  buckets : Nat → bucket
  samples : Nat

/-- The state after `memset(buckets, 0, sizeof buckets)` and `samples = 0`. -/
def Histogram.empty : Histogram := ⟨fun _ => ⟨0, 0, 0, 0⟩, 0⟩

/-- The read of a `uint8_t` at offset `i` of the pixel buffer. -/
def byteAt (bytes : List Nat) (i : Nat) : Nat := bytes.getD i 0 % 256

/-- The key `((r >> 4) << 8) | ((g >> 4) << 4) | (b >> 4)` (isw_canvas.c:141). -/
def bucket_key (r g b : Nat) : Nat := ((r >>> 4) <<< 8) ||| ((g >>> 4) <<< 4) ||| (b >>> 4)

/-- The body of the inner sampling loop of `detect_dominant_color`
(isw_canvas.c:133-147) for the pixel at column `x` of row `y`. -/
def sample_pixel (bytes : List Nat) (rbands width_r : Int) (h : Histogram) (y x : Nat) :
    Histogram :=
  let px := y * width_r.toNat * rbands.toNat + x * rbands.toNat
  let r := byteAt bytes px
  let g := if rbands > 1 then byteAt bytes (px + 1) else r
  let b := if rbands > 2 then byteAt bytes (px + 2) else r
  if rbands = 4 ∧ byteAt bytes (px + 3) < 8 then h
  else
    let key := bucket_key r g b
    let old := h.buckets key
    let new : bucket :=
      ⟨(old.count + 1) % 2 ^ 32, old.r_sum + (r : ℚ), old.g_sum + (g : ℚ), old.b_sum + (b : ℚ)⟩
    ⟨fun k => if k = key then new else h.buckets k, (h.samples + 1) % 2 ^ 64⟩

/-- The sampling loops `for y < height_r`, `for x < width_r` of
`detect_dominant_color` (isw_canvas.c:130-149). -/
def sample_pixels (bytes : List Nat) (rbands width_r height_r : Int) : Histogram :=
  (List.range height_r.toNat).foldl
    (fun h y => (List.range width_r.toNat).foldl (fun h x => sample_pixel bytes rbands width_r h y x) h)
    Histogram.empty

/-- The scan `for (int i = 0; i < 4096; ++i)` of `detect_dominant_color`
(isw_canvas.c:151-158): the pair `(best_index, best_count)`. -/
def best_bucket (buckets : Nat → bucket) : Int × Nat :=
  (List.range 4096).foldl
    (fun best i => if (buckets i).count > best.2 then ((i : Int), (buckets i).count) else best)
    (-1, 0)

/-- What `detect_dominant_color` leaves behind: its status, the colour behind
`out`, and the message stored through `err_msg`. -/
structure Detected where
  ret : Int
  out : isw_color
  err_msg : Option ProcessError

/-- The image `detect_dominant_color` samples (isw_canvas.c:69-110): the input
in sRGB, 8 bits and 3 or 4 bands, resized by `160 / max_dim` when its longer
side exceeds 160; `none` is a failed libvips call. -/
def sampled_image (vips : Vips) (input : VipsImage) : Option VipsImage :=
  match ensure_srgb vips input with
  | none => none
  | some work =>
    match ensure_u8 vips work with
    | none => none
    | some u8 =>
      match ensure_three_or_four_bands vips u8 with
      | none => none
      | some work =>
        let width := work.width
        let height := work.height
        let max_dim := if width > height then width else height
        let target : Int := 160
        let scale : ℚ :=
          if max_dim > target ∧ max_dim > 0 then (target : ℚ) / (max_dim : ℚ) else 1
        if scale < 1 then vips.resize work scale else some work

/-- The colour `detect_dominant_color` computes from the pixel buffer
(isw_canvas.c:121-172): mid-gray when nothing was counted, otherwise the sums
of the best bucket divided by its count.  The division of the sums by the
count is the division of rational numbers: this is the exact mean, and the
double the code stores is the one nearest to it, `dominant_rgb_ieee`. -/
def dominant_rgb (bytes : List Nat) (rbands width_r height_r : Int) : ℚ × ℚ × ℚ :=
  let h := sample_pixels bytes rbands width_r height_r
  let best := best_bucket h.buckets
  if best.1 < 0 ∨ best.2 = 0 ∨ h.samples = 0 then (128, 128, 128)
  else
    let b := h.buckets best.1.toNat
    (b.r_sum / (b.count : ℚ), b.g_sum / (b.count : ℚ), b.b_sum / (b.count : ℚ))

/-- The function `detect_dominant_color` (isw_canvas.c:63-177).  Both branches
of its final test store `bands = 3` and three components and fall through to
`return 0`; `dominant_rgb` is the triple they store. -/
def detect_dominant_color (vips : Vips) (input : VipsImage) (out : isw_color) : Detected :=
  match sampled_image vips input with
  | none => ⟨-1, out, some .VipsFailure⟩
  | some resized =>
    match vips.image_write_to_memory resized with
    | none => ⟨-1, out, some .VipsFailure⟩
    | some bytes =>
      let rgb := dominant_rgb bytes resized.bands resized.width resized.height
      ⟨0, ((({ out with bands := 3 }).setComp 0 rgb.1).setComp 1 rgb.2.1).setComp 2 rgb.2.2,
        none⟩

/-- One component through the two tests of `clamp_color` (isw_canvas.c:181-182),
for a component that is a number; `clamp_component_ieee` is the same on every
double, infinities and NaN included. -/
def clamp_component (x : ℚ) : ℚ :=
  let x1 := if x < 0 then 0 else x
  if x1 > 255 then 255 else x1

/-- The function `clamp_color` (isw_canvas.c:179-184). -/
def clamp_color (color : isw_color) : isw_color :=
  { color with
    comps := fun i => if (i.val : Int) < color.bands then clamp_component (color.comps i)
      else color.comps i }

/-- The choice of the background colour in `isw_process` (isw_canvas.c:234-248):
the status and message of a failed detection, or the local `background`. -/
def select_background (vips : Vips) (opts : isw_options) (prepared : VipsImage) :
    Except ProcessError isw_color :=
  let background : isw_color := isw_color.zero
  match opts.background_mode with
  | .ISW_BG_MANUAL => .ok opts.manual_color
  | .ISW_BG_TRANSPARENT =>
    .ok (((({ background with bands := 4 }).setComp 0 0).setComp 1 0).setComp 2 0 |>.setComp 3 0)
  | .ISW_BG_AUTO =>
    let d := detect_dominant_color vips prepared background
    if d.ret ≠ 0 then .error .VipsFailure else .ok d.out

/-- The resolver section of `isw_process` (isw_canvas.c:231-290): from the
prepared image and the options to the background colour and the image handed
on to the layout, or the message of the failed libvips call. -/
def resolve_background (vips : Vips) (opts : isw_options) (prepared : VipsImage) :
    Except ProcessError (isw_color × VipsImage) :=
  let has_alpha := prepared.hasalpha
  match select_background vips opts prepared with
  | .error e => .error e
  | .ok background =>
    -- isw_canvas.c:250-261
    match (if opts.background_mode = .ISW_BG_TRANSPARENT ∧ ¬ has_alpha
        then vips.addalpha prepared else some prepared) with
    | none => .error .VipsFailure
    | some prepared =>
      let bands := prepared.bands
      -- isw_canvas.c:265-288
      match opts.background_mode with
      | .ISW_BG_MANUAL =>
        if background.bands = 4 ∧ bands = 3 then
          match vips.addalpha prepared with
          | none => .error .VipsFailure
          | some with_alpha => .ok (clamp_color background, with_alpha)
        else if background.bands = 3 ∧ bands = 4 then
          .ok (clamp_color { background.setComp 3 255 with bands := 4 }, prepared)
        else .ok (clamp_color background, prepared)
      | .ISW_BG_AUTO =>
        if bands = 4 then
          .ok (clamp_color { background.setComp 3 255 with bands := 4 }, prepared)
        else .ok (clamp_color background, prepared)
      | .ISW_BG_TRANSPARENT =>
        .ok (clamp_color { background with bands := bands }, prepared)

/-- The arguments of the call of `vips_embed` in `isw_process`
(isw_canvas.c:306-310): the image, the offsets `left` and `top`, the canvas
size, and the colour whose first `bands` components are the background. -/
structure EmbedCall where
  image : VipsImage
  x : Int
  y : Int
  width : Int
  height : Int
  background : isw_color

/-- What `isw_process` leaves behind: its status, the message stored through
`err_msg`, and the call of `vips_embed` it made, if it got that far. -/
structure Processed where
  ret : Int
  err_msg : Option ProcessError
  embed_call : Option EmbedCall

/-- The layout and output section of `isw_process` (isw_canvas.c:292-328). -/
def embed_and_write (vips : Vips) (output_path : List Char) (background : isw_color)
    (prepared : VipsImage) : Processed :=
  let width := prepared.width
  let height := prepared.height
  let target := if width > height then width else height
  let left := (target - width).tdiv 2
  let top := (target - height).tdiv 2
  if ¬ vips.array_double_new background then ⟨-1, some .BackgroundArray, none⟩
  else
    let call : EmbedCall := ⟨prepared, left, top, target, target, background⟩
    match vips.embed prepared left top target target background with
    | none => ⟨-1, some .VipsFailure, some call⟩
    | some embedded =>
      if ¬ vips.image_write_to_file embedded output_path then ⟨-1, some .VipsFailure, some call⟩
      else ⟨0, none, some call⟩

/-- The function `isw_process` from the prepared image on (isw_canvas.c:231-328). -/
def isw_process_prepared (vips : Vips) (prepared : VipsImage) (output_path : List Char)
    (opts : isw_options) : Processed :=
  match resolve_background vips opts prepared with
  | .error e => ⟨-1, some e, none⟩
  | .ok (background, prepared) => embed_and_write vips output_path background prepared

/-- The function `isw_process` (isw_canvas.c:186-329).  A null `input_path`,
`output_path` or `opts` is `none`. -/
def isw_process (vips : Vips) (input_path output_path : Option (List Char))
    (opts : Option isw_options) : Processed :=
  match input_path, output_path, opts with
  | some input_path, some output_path, some opts =>
    match vips.image_new_from_file input_path with
    | none => ⟨-1, some .VipsFailure, none⟩
    | some raw =>
      match ensure_srgb vips raw with
      | none => ⟨-1, some .VipsFailure, none⟩
      | some work =>
        match ensure_u8 vips work with
        | none => ⟨-1, some .VipsFailure, none⟩
        | some casted =>
          match ensure_three_or_four_bands vips casted with
          | none => ⟨-1, some .VipsFailure, none⟩
          | some prepared => isw_process_prepared vips prepared output_path opts
  | _, _, _ => ⟨-1, some .InvalidArguments, none⟩

/-- A toolkit in which every operation the runs below need succeeds: the
colour space and format conversions return their input as an 8-bit image,
`vips_addalpha` appends an opaque fourth band, and the file is the image stored
under its path.  It has no resampler, so `resize` fails. -/
def vips_plain (file : VipsImage) : Vips where
  image_new_from_file := fun _ => some file
  colourspace_sRGB := fun img => some img
  cast_uchar := fun img => some { img with format_uchar := true }
  copy_bands3 := fun img => some { img with bands := 3 }
  resize := fun _ _ => none
  image_write_to_memory := fun img => some img.data
  addalpha := fun img => some { img with bands := img.bands + 1, hasalpha := true }
  array_double_new := fun _ => true
  embed := fun img _ _ w h _ => some { img with width := w, height := h }
  image_write_to_file := fun _ _ => true

/-- An 8-bit image of the given size and band count, with alpha exactly when
it has 4 bands, all of whose samples are 0. -/
def blank_image (width height bands : Int) : VipsImage :=
  ⟨width, height, bands, true, decide (bands = 4), []⟩

/-- The options `--rcb r,g,b` leaves in `main`: manual mode with a 3-band colour. -/
def opts_manual3 (r g b : ℚ) : isw_options :=
  ⟨.ISW_BG_MANUAL, ⟨fun i => if i = 0 then r else if i = 1 then g else if i = 2 then b else 0, 3⟩⟩

/-- The options `--rcb r,g,b,a` leaves in `main`: manual mode with a 4-band colour. -/
def opts_manual4 (r g b a : ℚ) : isw_options :=
  ⟨.ISW_BG_MANUAL, ⟨fun i => if i = 0 then r else if i = 1 then g else if i = 2 then b else a, 4⟩⟩

/-- The options `--rcb transparent` leaves in `main`. -/
def opts_transparent : isw_options := ⟨.ISW_BG_TRANSPARENT, isw_color.zero⟩

/-- The options of `main` without `--rcb`. -/
def opts_auto : isw_options := ⟨.ISW_BG_AUTO, isw_color.zero⟩

/-! ## Vocabulary of the claims about the detector -/

/-- The colour the detector reads at pixel `i`, in scan order, of a buffer
with `bands` samples per pixel: green and blue default to red when the band is
missing. -/
def pixel_rgb (bytes : List Nat) (bands : Int) (i : Nat) : Nat × Nat × Nat :=
  (byteAt bytes (i * bands.toNat),
    if bands > 1 then byteAt bytes (i * bands.toNat + 1) else byteAt bytes (i * bands.toNat),
    if bands > 2 then byteAt bytes (i * bands.toNat + 2) else byteAt bytes (i * bands.toNat))

/-- The alpha of pixel `i` of a 4-band buffer. -/
def pixel_alpha (bytes : List Nat) (i : Nat) : Nat := byteAt bytes (i * 4 + 3)

/-- Whether the detector counts pixel `i`: every pixel of a buffer without a
fourth band, and the pixels of a 4-band buffer whose alpha is at least 8. -/
def pixel_counted (bytes : List Nat) (bands : Int) (i : Nat) : Bool :=
  decide (¬ (bands = 4 ∧ byteAt bytes (i * bands.toNat + 3) < 8))

/-- The colours of the counted pixels among the first `n` pixels of the
buffer, in scan order. -/
def counted_pixels (bytes : List Nat) (bands : Int) (n : Nat) : List (Nat × Nat × Nat) :=
  ((List.range n).filter (pixel_counted bytes bands)).map (pixel_rgb bytes bands)

/-- The bucket a colour falls in. -/
def pixel_key (p : Nat × Nat × Nat) : Nat := bucket_key p.1 p.2.1 p.2.2

/-- The colours of a list that fall in bucket `k`. -/
def in_bucket (pixels : List (Nat × Nat × Nat)) (k : Nat) : List (Nat × Nat × Nat) :=
  pixels.filter fun p => pixel_key p = k

/-- The sum of the red values of a list of colours. -/
def sum_r (pixels : List (Nat × Nat × Nat)) : Nat := (pixels.map fun p => p.1).sum

/-- The sum of the green values of a list of colours. -/
def sum_g (pixels : List (Nat × Nat × Nat)) : Nat := (pixels.map fun p => p.2.1).sum

/-- The sum of the blue values of a list of colours. -/
def sum_b (pixels : List (Nat × Nat × Nat)) : Nat := (pixels.map fun p => p.2.2).sum

/-- The arithmetic mean of a list of colours, channel by channel. -/
def mean_rgb (pixels : List (Nat × Nat × Nat)) : ℚ × ℚ × ℚ :=
  ((sum_r pixels : ℚ) / (pixels.length : ℚ), (sum_g pixels : ℚ) / (pixels.length : ℚ),
    (sum_b pixels : ℚ) / (pixels.length : ℚ))

/-- The effect of the loop body of `detect_dominant_color` on the histogram
for a counted pixel of colour `p` (isw_canvas.c:141-147). -/
def add_sample (h : Histogram) (p : Nat × Nat × Nat) : Histogram :=
  ⟨fun k => if k = pixel_key p then
      ⟨((h.buckets (pixel_key p)).count + 1) % 2 ^ 32, (h.buckets (pixel_key p)).r_sum + (p.1 : ℚ),
        (h.buckets (pixel_key p)).g_sum + (p.2.1 : ℚ), (h.buckets (pixel_key p)).b_sum + (p.2.2 : ℚ)⟩
    else h.buckets k,
    (h.samples + 1) % 2 ^ 64⟩

/-- The 4-band buffer that holds the given pixels, each as red, green, blue,
alpha. -/
def buffer_of (pixels : List (Nat × Nat × Nat × Nat)) : List Nat :=
  match pixels with
  | [] => []
  | p :: ps => p.1 :: p.2.1 :: p.2.2.1 :: p.2.2.2 :: buffer_of ps

/-- The pixels of a 4-band buffer whose alpha is at least 8, among the first
`n`, in scan order. -/
def opaque_pixels (bytes : List Nat) (n : Nat) : List (Nat × Nat × Nat × Nat) :=
  ((List.range n).filter fun i => decide (8 ≤ pixel_alpha bytes i)).map fun i =>
    (byteAt bytes (i * 4), byteAt bytes (i * 4 + 1), byteAt bytes (i * 4 + 2),
      pixel_alpha bytes i)

/-- The colours of the counted pixels of the buffer of an image, in scan order. -/
def sampled_pixels (bytes : List Nat) (img : VipsImage) : List (Nat × Nat × Nat) :=
  counted_pixels bytes img.bands (img.height.toNat * img.width.toNat)

/-! ## Command line (`src/main.c`) -/

/-- The C library `strcmp`: the difference of the first pair of characters
that differ, 0 when both strings end together. -/
def strcmp : List Char → List Char → Int
  | [], [] => 0
  | [], b :: _ => (NUL.toNat : Int) - (b.toNat : Int)
  | a :: _, [] => (a.toNat : Int) - (NUL.toNat : Int)
  | a :: as, b :: bs =>
    if a ≠ b then (a.toNat : Int) - (b.toNat : Int)
    else if a = NUL then 0
    else strcmp as bs

/-- The C library `strrchr` for a character other than NUL: the offset of the
last occurrence of `c` before the first NUL, `none` for the null result. -/
def strrchr : List Char → Char → Option Nat
  | [], _ => none
  | a :: as, c =>
    if a = NUL then none
    else
      match strrchr as c with
      | some i => some (i + 1)
      | none => if a = c then some 0 else none

/-- The function `extract_extension` (main.c:66-78) called with a buffer of
`buf_len` bytes: `none` is the return value `false`, and `some ext` the return
value `true` with the C string `ext` left in the buffer.  A null `path` is
`none`. -/
def extract_extension (path : Option (List Char)) (buf_len : Nat) : Option (List Char) :=
  match path with
  | none => none
  | some path =>
    if buf_len = 0 then none
    else
      match strrchr path '.' with
      | none => none
      | some i =>
        if charAt path (i + 1) = NUL then none
        else
          let dot := path.drop (i + 1)
          let len := strlen dot
          if len + 1 > buf_len then none
          else
            some ((List.range len).map fun j =>
              if 'A' ≤ charAt dot j ∧ charAt dot j ≤ 'Z' then
                Char.ofNat ((charAt dot j).toNat - 'A'.toNat + 'a'.toNat)
              else charAt dot j)

/-- The array `supported` of `is_supported_extension` (main.c:82-84). -/
def supported : List (List Char) :=
  ["jpg".toList, "jpeg".toList, "png".toList, "webp".toList, "heic".toList, "heif".toList,
    "tif".toList, "tiff".toList, "avif".toList]

/-- The function `is_supported_extension` (main.c:80-91).  A null `ext` is
`none`. -/
def is_supported_extension (ext : Option (List Char)) : Bool :=
  match ext with
  | none => false
  | some ext => supported.any fun s => decide (strcmp ext s = 0)

/-- The array `alpha_exts` of `extension_supports_alpha` (main.c:95-97). -/
def alpha_exts : List (List Char) :=
  ["png".toList, "webp".toList, "heic".toList, "heif".toList, "tif".toList, "tiff".toList,
    "avif".toList]

/-- The function `extension_supports_alpha` (main.c:93-104).  A null `ext` is
`none`. -/
def extension_supports_alpha (ext : Option (List Char)) : Bool :=
  match ext with
  | none => false
  | some ext => alpha_exts.any fun s => decide (strcmp ext s = 0)

/-- The value of the C macro `EXIT_SUCCESS`. -/
def EXIT_SUCCESS : Int := 0

/-- The value of the C macro `EXIT_FAILURE`. -/
def EXIT_FAILURE : Int := 1

/-- The ways `main` fails after its option loop, one constructor per message
it prints. -/
inductive MainError where
  /-- The message of `isw_color_parse`, or "invalid background specification". -/
  | BackgroundSpec
  /-- The usage text, printed when the positional arguments are not two. -/
  | Usage
  /-- The message "unsupported input extension for '%s'". -/
  | InputExtension
  /-- The message "unsupported output extension for '%s'". -/
  | OutputExtension
  /-- The message "transparent background requires alpha-capable formats (...)". -/
  | TransparentNeedsAlpha
  /-- The message "4-component backgrounds require alpha-capable output formats". -/
  | FourComponentsNeedAlpha
  /-- The message "failed to initialise libvips (%s)". -/
  | VipsInit
  /-- The message of `isw_process`, or "processing failed". -/
  | Processing
  deriving DecidableEq, Repr

/-- What a run of `main` leaves behind: its exit status, the message it
printed on failure, and the arguments of its call of `isw_process`, if it made
one. -/
structure MainRun where
  status : Int
  error : Option MainError
  process_call : Option (List Char × List Char × isw_options)

/-- The options `main` has after reading the background specification
(main.c:107-110, 146-162): `none` when `isw_color_parse` fails and `main` dies. -/
def main_options (strtod : List Char → StrtodResult) (background_spec : Option (List Char)) :
    Option isw_options :=
  let opts : isw_options := ⟨.ISW_BG_AUTO, isw_color.zero⟩
  match background_spec with
  | none => some opts
  | some spec =>
    let r := isw_color_parse strtod (some spec) (some isw_color.zero) (some false)
    if ¬ r.ret then none
    else if r.out_is_transparent = some true then
      some { opts with background_mode := .ISW_BG_TRANSPARENT }
    else some ⟨.ISW_BG_MANUAL, r.out.getD isw_color.zero⟩

/-- The function `main` after its option loop (main.c:146-206), for a run in
which the loop ended without `--help`, `--version` or an option error:
`background_spec` is the argument of the last `--rcb`, null without one,
`args` are the arguments `argv[optind..argc-1]`, and `vips_init` is the value
of `VIPS_INIT`. -/
def main (strtod : List Char → StrtodResult) (vips : Vips) (vips_init : Int)
    (background_spec : Option (List Char)) (args : List (List Char)) : MainRun :=
  match main_options strtod background_spec with
  | none => ⟨EXIT_FAILURE, some .BackgroundSpec, none⟩
  | some opts =>
    match args with
    | [input_path, output_path] =>
      let input_ok : Bool :=
        match extract_extension (some input_path) 16 with
        | none => false
        | some input_ext => is_supported_extension (some input_ext)
      if ¬ input_ok then ⟨EXIT_FAILURE, some .InputExtension, none⟩
      else
        match extract_extension (some output_path) 16 with
        | none => ⟨EXIT_FAILURE, some .OutputExtension, none⟩
        | some output_ext =>
          if ¬ is_supported_extension (some output_ext) then
            ⟨EXIT_FAILURE, some .OutputExtension, none⟩
          else if opts.background_mode = .ISW_BG_TRANSPARENT ∧
              ¬ extension_supports_alpha (some output_ext) then
            ⟨EXIT_FAILURE, some .TransparentNeedsAlpha, none⟩
          else if opts.background_mode = .ISW_BG_MANUAL ∧ opts.manual_color.bands = 4 ∧
              ¬ extension_supports_alpha (some output_ext) then
            ⟨EXIT_FAILURE, some .FourComponentsNeedAlpha, none⟩
          else if vips_init ≠ 0 then ⟨EXIT_FAILURE, some .VipsInit, none⟩
          else
            let status := (isw_process vips (some input_path) (some output_path) (some opts)).ret
            if status ≠ 0 then
              ⟨EXIT_FAILURE, some .Processing, some (input_path, output_path, opts)⟩
            else ⟨EXIT_SUCCESS, none, some (input_path, output_path, opts)⟩
    | _ => ⟨EXIT_FAILURE, some .Usage, none⟩

/-! ## Doubles with rounding, infinities and NaN

The definitions above take a `double` for the rational number it holds.  The
definitions of this section embed the same arithmetic of `isw_canvas.c` on
IEEE 754 doubles: a quotient is rounded to the nearest double, and a component
can be an infinity or a NaN. -/

/-- The integer nearest to `y`; of the two nearest ones, the even one. -/
def round_half_even (y : ℚ) : Int :=
  if y - ⌊y⌋ < 1 / 2 then ⌊y⌋
  else if 1 / 2 < y - ⌊y⌋ then ⌊y⌋ + 1
  else if ⌊y⌋ % 2 = 0 then ⌊y⌋
  else ⌊y⌋ + 1

/-- The IEEE 754 binary64 number nearest to `x`, ties to even: the result of a
`double` operation whose exact result is `x`.  The spacing of the doubles
around `x` is `2 ^ (e - 52)` for the exponent `e` of `x`, at least -1022.  A
magnitude from `2^1024 - 2^970` on, which rounds to an infinity, is outside
this definition. -/
def to_double (x : ℚ) : ℚ :=
  if x = 0 then 0
  else
    let e : Int := max (Int.log 2 |x|) (-1022)
    (round_half_even (x / 2 ^ (e - 52)) : ℚ) * 2 ^ (e - 52)

/-- The C library's `strtod`, in the C locale, on a string that starts with a
decimal number followed by a character that cannot continue a number: an
optional minus sign, then digits, a point and digits, where the point with the
digits on one of its sides may be missing.  The value is the double nearest to
the number, a magnitude from `DBL_OVERFLOW` on sets `errno` to `ERANGE`, and a
string with no digit in that place is not converted at all.  Other inputs
(white space, a plus sign, exponents, hexadecimal literals, infinities, NaNs,
and magnitudes other than 0 below `2^(-1022)`) are outside this model, and so
is the value returned together with `ERANGE`, which `parse_csv` does not read. -/
def strtod_fraction (p : List Char) : StrtodResult :=
  let body := digitsOf p
  let ip := body.takeWhile Char.isDigit
  let tail := body.drop ip.length
  let point : Bool := decide (tail.head? = some '.')
  let fp := if point then (tail.drop 1).takeWhile Char.isDigit else []
  if ip = [] ∧ fp = [] then ⟨0, 0, 0⟩
  else
    let x : ℚ := (decimalValue ip : ℚ) + (decimalValue fp : ℚ) / 10 ^ fp.length
    ⟨to_double (if isNegative p then -x else x),
      (if isNegative p then 1 else 0) + ip.length + (if point then 1 + fp.length else 0),
      if (DBL_OVERFLOW : ℚ) ≤ x then ERANGE else 0⟩

/-- A decimal number: an optional minus sign `sign`, then the digits `ip`, and
after them nothing or a point and the digits `fp`, with a digit on at least one
side of the point. -/
def isDecimalNumber (t : List Char) : Prop :=
  ∃ (sign ip fp : List Char) (point : Bool),
    t = sign ++ ip ++ (if point then '.' :: fp else []) ∧
    (sign = [] ∨ sign = ['-']) ∧
    (∀ c ∈ ip, c.isDigit = true) ∧ (∀ c ∈ fp, c.isDigit = true) ∧
    (point = false → fp = []) ∧ (ip ≠ [] ∨ fp ≠ [])

/-- A value of the C type `double`: a finite number, an infinity or a NaN. -/
inductive double where
  /-- The finite double `q`. -/
  | finite (q : ℚ)
  /-- The infinity of the given sign. -/
  | inf (negative : Bool)
  /-- A NaN. -/
  | nan

/-- The C comparison `a < b` of two doubles, false when one of them is a NaN. -/
def double.lt : double → double → Bool
  | .finite a, .finite b => decide (a < b)
  | .finite _, .inf negative => !negative
  | .inf negative, .finite _ => negative
  | .inf na, .inf nb => na && !nb
  | .nan, _ => false
  | _, .nan => false

/-- The C struct `isw_color` with components that are doubles. -/
structure isw_color_ieee where
  comps : Fin 4 → double
  bands : Int

/-- The C struct `isw_options` with a colour of doubles. -/
structure isw_options_ieee where
  background_mode : isw_background_mode
  manual_color : isw_color_ieee

/-- The assignment `c->comps[i] = v` for an index inside the array. -/
def isw_color_ieee.setComp (c : isw_color_ieee) (i : Fin 4) (v : double) : isw_color_ieee :=
  { c with comps := fun j => if j = i then v else c.comps j }

/-- The initialiser `{{0}, 0}` used for every local `struct isw_color`. -/
def isw_color_ieee.zero : isw_color_ieee := ⟨fun _ => .finite 0, 0⟩

/-- The colour `detect_dominant_color` computes from the pixel buffer
(isw_canvas.c:121-172) in double arithmetic: mid-gray when nothing was
counted, otherwise the double nearest to the quotient of each sum of the best
bucket by its count.  The sums are sums of bytes and exact. -/
def dominant_rgb_ieee (bytes : List Nat) (rbands width_r height_r : Int) : ℚ × ℚ × ℚ :=
  let h := sample_pixels bytes rbands width_r height_r
  let best := best_bucket h.buckets
  if best.1 < 0 ∨ best.2 = 0 ∨ h.samples = 0 then (128, 128, 128)
  else
    let b := h.buckets best.1.toNat
    (to_double (b.r_sum / (b.count : ℚ)), to_double (b.g_sum / (b.count : ℚ)),
      to_double (b.b_sum / (b.count : ℚ)))

/-- What `detect_dominant_color` leaves behind, with a colour of doubles. -/
structure Detected_ieee where
  ret : Int
  out : isw_color_ieee
  err_msg : Option ProcessError

/-- The function `detect_dominant_color` (isw_canvas.c:63-177) in double
arithmetic. -/
def detect_dominant_color_ieee (vips : Vips) (input : VipsImage) (out : isw_color_ieee) :
    Detected_ieee :=
  match sampled_image vips input with
  | none => ⟨-1, out, some .VipsFailure⟩
  | some resized =>
    match vips.image_write_to_memory resized with
    | none => ⟨-1, out, some .VipsFailure⟩
    | some bytes =>
      let rgb := dominant_rgb_ieee bytes resized.bands resized.width resized.height
      ⟨0, ((({ out with bands := 3 }).setComp 0 (.finite rgb.1)).setComp 1
          (.finite rgb.2.1)).setComp 2 (.finite rgb.2.2), none⟩

/-- One component through the two tests of `clamp_color` (isw_canvas.c:181-182)
on a double: both tests are false for a NaN. -/
def clamp_component_ieee (x : double) : double :=
  let x1 := if double.lt x (.finite 0) then .finite 0 else x
  if double.lt (.finite 255) x1 then .finite 255 else x1

/-- The function `clamp_color` (isw_canvas.c:179-184) on a colour of doubles. -/
def clamp_color_ieee (color : isw_color_ieee) : isw_color_ieee :=
  { color with
    comps := fun i => if (i.val : Int) < color.bands then clamp_component_ieee (color.comps i)
      else color.comps i }

/-- The choice of the background colour in `isw_process` (isw_canvas.c:234-248)
with colours of doubles. -/
def select_background_ieee (vips : Vips) (opts : isw_options_ieee) (prepared : VipsImage) :
    Except ProcessError isw_color_ieee :=
  let background : isw_color_ieee := isw_color_ieee.zero
  match opts.background_mode with
  | .ISW_BG_MANUAL => .ok opts.manual_color
  | .ISW_BG_TRANSPARENT =>
    .ok (((({ background with bands := 4 }).setComp 0 (.finite 0)).setComp 1
      (.finite 0)).setComp 2 (.finite 0) |>.setComp 3 (.finite 0))
  | .ISW_BG_AUTO =>
    let d := detect_dominant_color_ieee vips prepared background
    if d.ret ≠ 0 then .error .VipsFailure else .ok d.out

/-- The resolver section of `isw_process` (isw_canvas.c:231-290) with colours
of doubles: the background colour and the image handed on to the layout, or
the message of the failed libvips call. -/
def resolve_background_ieee (vips : Vips) (opts : isw_options_ieee) (prepared : VipsImage) :
    Except ProcessError (isw_color_ieee × VipsImage) :=
  let has_alpha := prepared.hasalpha
  match select_background_ieee vips opts prepared with
  | .error e => .error e
  | .ok background =>
    match (if opts.background_mode = .ISW_BG_TRANSPARENT ∧ ¬ has_alpha
        then vips.addalpha prepared else some prepared) with
    | none => .error .VipsFailure
    | some prepared =>
      let bands := prepared.bands
      match opts.background_mode with
      | .ISW_BG_MANUAL =>
        if background.bands = 4 ∧ bands = 3 then
          match vips.addalpha prepared with
          | none => .error .VipsFailure
          | some with_alpha => .ok (clamp_color_ieee background, with_alpha)
        else if background.bands = 3 ∧ bands = 4 then
          .ok (clamp_color_ieee { background.setComp 3 (.finite 255) with bands := 4 }, prepared)
        else .ok (clamp_color_ieee background, prepared)
      | .ISW_BG_AUTO =>
        if bands = 4 then
          .ok (clamp_color_ieee { background.setComp 3 (.finite 255) with bands := 4 }, prepared)
        else .ok (clamp_color_ieee background, prepared)
      | .ISW_BG_TRANSPARENT =>
        .ok (clamp_color_ieee { background with bands := bands }, prepared)

/-- The options `--rcb nan,0,0` leaves in `main`: manual mode with a 3-band
colour whose first component is a NaN. -/
def opts_manual_nan : isw_options_ieee :=
  ⟨.ISW_BG_MANUAL, ⟨fun i => if i = 0 then .nan else .finite 0, 3⟩⟩

/-- The mean of `n - 1` values `c` and one value `s`. -/
def mean_with_speckle (n c s : Nat) : ℚ := (((n - 1) * c + s : Nat) : ℚ) / (n : ℚ)

/-! ## Lemmas about characters and C strings -/

theorem char_le_iff (a b : Char) : a ≤ b ↔ a.toNat ≤ b.toNat := Iff.rfl

theorem char_in_range (c : Char) (lo hi : Nat) (h1 : lo ≤ c.toNat) (h2 : c.toNat ≤ hi) :
    ∃ n, lo ≤ n ∧ n ≤ hi ∧ c = Char.ofNat n :=
  ⟨c.toNat, h1, h2, (Char.ofNat_toNat c).symm⟩

theorem transparent_chars :
    "transparent".toList = ['t', 'r', 'a', 'n', 's', 'p', 'a', 'r', 'e', 'n', 't'] := rfl

theorem strcasecmp_hash (s : List Char) : strcasecmp ('#' :: s) "transparent".toList ≠ 0 := by
  rw [transparent_chars]
  have ht : tolower '#' ≠ tolower 't' := by decide
  have h2 : tolower '#' - tolower 't' ≠ 0 := by decide
  simp only [strcasecmp, if_pos ht]
  exact h2

theorem strlen_le_length (s : List Char) : strlen s ≤ s.length := by
  induction s with
  | nil => simp [strlen]
  | cons c cs ih =>
    simp only [strlen, List.length_cons]
    split_ifs <;> omega

theorem charAt_ne_NUL_of_lt_strlen (s : List Char) (i : Nat) (h : i < strlen s) :
    charAt s i ≠ NUL := by
  induction s generalizing i with
  | nil => simp [strlen] at h
  | cons c cs ih =>
    simp only [strlen] at h
    split_ifs at h with hc
    · omega
    · cases i with
      | zero => simpa [charAt] using hc
      | succ j =>
        have := ih j (by omega)
        simpa [charAt] using this

theorem charAt_strlen (s : List Char) : charAt s (strlen s) = NUL := by
  induction s with
  | nil => simp [strlen, charAt]
  | cons c cs ih =>
    simp only [strlen]
    split_ifs with hc
    · simp [charAt, hc]
    · simpa [charAt] using ih

theorem strlen_of_no_NUL (s : List Char) (h : ∀ c ∈ s, c ≠ NUL) : strlen s = s.length := by
  induction s with
  | nil => simp [strlen]
  | cons c cs ih =>
    have hc : c ≠ NUL := h c (by simp)
    simp only [strlen, if_neg hc, List.length_cons]
    rw [ih (fun d hd => h d (by simp [hd]))]

/-! ## Lemmas about the hexadecimal parser -/

theorem hex_digit_cases (c : Char) (h : isHexDigit c) :
    hex_to_int c = (hexDigitValue c : Int) ∧ hexDigitValue c < 16 ∧ c ≠ NUL := by
  have key : ∀ d ∈ "0123456789abcdefABCDEF".toList,
      hex_to_int d = (hexDigitValue d : Int) ∧ hexDigitValue d < 16 ∧ d ≠ NUL := by
    decide
  exact key c h

theorem hex_to_int_of_not_hex (c : Char) (h : ¬ isHexDigit c) : hex_to_int c = -1 := by
  unfold hex_to_int
  split_ifs with h1 h2 h3
  · exfalso; apply h
    obtain ⟨n, a, b, rfl⟩ :=
      char_in_range c 48 57 ((char_le_iff _ _).mp h1.1) ((char_le_iff _ _).mp h1.2)
    interval_cases n <;> decide
  · exfalso; apply h
    obtain ⟨n, a, b, rfl⟩ :=
      char_in_range c 97 102 ((char_le_iff _ _).mp h2.1) ((char_le_iff _ _).mp h2.2)
    interval_cases n <;> decide
  · exfalso; apply h
    obtain ⟨n, a, b, rfl⟩ :=
      char_in_range c 65 70 ((char_le_iff _ _).mp h3.1) ((char_le_iff _ _).mp h3.2)
    interval_cases n <;> decide
  · rfl

theorem shift_or_16 (h l : Nat) (hh : h < 16) (hl : l < 16) : (h <<< 4) ||| l = 16 * h + l := by
  revert l; revert h; decide

theorem parse_hex_component_one (spec : List Char) (i : Nat)
    (h : isHexDigit (charAt spec (1 + i))) :
    parse_hex_component spec 1 i
      = some ((17 * hexDigitValue (charAt spec (1 + i)) : Nat) : ℚ) := by
  obtain ⟨h1, h2, _⟩ := hex_digit_cases _ h
  have e := shift_or_16 _ _ h2 h2
  simp only [parse_hex_component, Nat.mul_one, h1]
  simp [e]
  ring

theorem parse_hex_component_two (spec : List Char) (i : Nat)
    (hh : isHexDigit (charAt spec (1 + i * 2)))
    (hl : isHexDigit (charAt spec (1 + i * 2 + 1))) :
    parse_hex_component spec 2 i
      = some ((16 * hexDigitValue (charAt spec (1 + i * 2))
          + hexDigitValue (charAt spec (1 + i * 2 + 1)) : Nat) : ℚ) := by
  obtain ⟨h1, h2, _⟩ := hex_digit_cases _ hh
  obtain ⟨l1, l2, _⟩ := hex_digit_cases _ hl
  have e := shift_or_16 _ _ h2 l2
  simp only [parse_hex_component, h1, l1]
  simp [e]

theorem parse_hex_component_one_none (spec : List Char) (i : Nat)
    (h : ¬ isHexDigit (charAt spec (1 + i))) : parse_hex_component spec 1 i = none := by
  have h1 := hex_to_int_of_not_hex _ h
  simp [parse_hex_component, h1]

theorem parse_hex_component_two_none (spec : List Char) (i : Nat)
    (h : ¬ isHexDigit (charAt spec (1 + i * 2)) ∨ ¬ isHexDigit (charAt spec (1 + i * 2 + 1))) :
    parse_hex_component spec 2 i = none := by
  rcases h with h | h
  · have h1 := hex_to_int_of_not_hex _ h
    simp [parse_hex_component, h1]
  · have h1 := hex_to_int_of_not_hex _ h
    simp [parse_hex_component, h1]

/-- The digit loop fails exactly when one of its iterations does; otherwise it
returns the values of its iterations in order. -/
theorem parse_hex_loop_spec (spec : List Char) (dp : Nat) (todo i : Nat) :
    (parse_hex_loop spec dp i todo = none ∧
        ∃ k, k < todo ∧ parse_hex_component spec dp (i + k) = none) ∨
    (∃ vs, parse_hex_loop spec dp i todo = some vs ∧ vs.length = todo ∧
        ∀ k, k < todo → parse_hex_component spec dp (i + k) = some (vs.getD k 0)) := by
  induction todo generalizing i with
  | zero => right; exact ⟨[], rfl, rfl, fun k hk => absurd hk (Nat.not_lt_zero k)⟩
  | succ n ih =>
    cases hc : parse_hex_component spec dp i with
    | none =>
      left
      exact ⟨by simp [parse_hex_loop, hc], 0, Nat.succ_pos n, by simpa using hc⟩
    | some v =>
      rcases ih (i + 1) with ⟨hn, k, hk, hkn⟩ | ⟨vs, hs, hl, hv⟩
      · left
        refine ⟨by simp [parse_hex_loop, hc, hn], k + 1, by omega, ?_⟩
        rw [← hkn]; congr 1; omega
      · right
        refine ⟨v :: vs, by simp [parse_hex_loop, hc, hs], by simp [hl], ?_⟩
        intro k hk
        cases k with
        | zero => simpa using hc
        | succ j =>
          have := hv j (by omega)
          rw [List.getD_cons_succ, ← this]; congr 1; omega

theorem parse_hex_triplet_bad_len (spec : List Char) (out : isw_color)
    (h : strlen spec ≠ 4 ∧ strlen spec ≠ 5 ∧ strlen spec ≠ 7 ∧ strlen spec ≠ 9) :
    parse_hex_triplet spec out = ⟨false, out, some .InvalidHexLength⟩ := by
  simp only [parse_hex_triplet, if_pos h]

theorem parse_hex_triplet_ok (spec : List Char) (out : isw_color)
    (hlen : strlen spec = 4 ∨ strlen spec = 5 ∨ strlen spec = 7 ∨ strlen spec = 9)
    (hhex : ∀ i, 1 ≤ i → i < strlen spec → isHexDigit (charAt spec i)) :
    ∃ c : isw_color, parse_hex_triplet spec out = ⟨true, c, none⟩ ∧
      c.bands = (if strlen spec = 4 ∨ strlen spec = 7 then 3 else 4) ∧
      ∀ i : Fin 4, (i.val : Int) < c.bands →
        c.comps i =
          if strlen spec ≤ 5 then ((17 * hexDigitValue (charAt spec (1 + i.val)) : Nat) : ℚ)
          else ((16 * hexDigitValue (charAt spec (1 + i.val * 2))
            + hexDigitValue (charAt spec (1 + i.val * 2 + 1)) : Nat) : ℚ) := by
  have hnot : ¬ (strlen spec ≠ 4 ∧ strlen spec ≠ 5 ∧ strlen spec ≠ 7 ∧ strlen spec ≠ 9) := by
    omega
  simp only [parse_hex_triplet, if_neg hnot]
  generalize hb : (if strlen spec = 4 ∨ strlen spec = 7 then 3 else 4 : Nat) = bands
  generalize hd : (if strlen spec = 4 ∨ strlen spec = 5 then 1 else 2 : Nat) = dp
  have hcomp : ∀ k, k < bands → parse_hex_component spec dp (0 + k) =
      some (if strlen spec ≤ 5 then ((17 * hexDigitValue (charAt spec (1 + k)) : Nat) : ℚ)
          else ((16 * hexDigitValue (charAt spec (1 + k * 2))
            + hexDigitValue (charAt spec (1 + k * 2 + 1)) : Nat) : ℚ)) := by
    intro k hk
    rw [Nat.zero_add]
    by_cases h5 : strlen spec ≤ 5
    · have hdp : dp = 1 := by rw [← hd]; split_ifs <;> omega
      have hkk : 1 + k < strlen spec := by
        rw [← hb] at hk; split_ifs at hk <;> omega
      rw [hdp, if_pos h5]
      exact parse_hex_component_one spec k (hhex _ (by omega) hkk)
    · have hdp : dp = 2 := by rw [← hd]; split_ifs <;> omega
      have hkk : 1 + k * 2 + 1 < strlen spec := by
        rw [← hb] at hk; split_ifs at hk <;> omega
      rw [hdp, if_neg h5]
      exact parse_hex_component_two spec k (hhex _ (by omega) (by omega)) (hhex _ (by omega) hkk)
  rcases parse_hex_loop_spec spec dp bands 0 with ⟨_, k, hk, hkn⟩ | ⟨vs, hs, hl, hv⟩
  · rw [hcomp k hk] at hkn; cases hkn
  · refine ⟨store_color out vs, by rw [hs], ?_, ?_⟩
    · simp only [store_color, hl, ← hb]; split_ifs <;> rfl
    · intro i hi
      have hib : i.val < bands := by
        simp only [store_color, hl] at hi; exact_mod_cast hi
      have h1 := hv i.val hib
      rw [hcomp i.val hib] at h1
      simp only [store_color, hl, if_pos hib]
      exact (Option.some.inj h1).symm

theorem parse_hex_triplet_bad_digit (spec : List Char) (out : isw_color)
    (hlen : strlen spec = 4 ∨ strlen spec = 5 ∨ strlen spec = 7 ∨ strlen spec = 9)
    (hbad : ∃ i, 1 ≤ i ∧ i < strlen spec ∧ ¬ isHexDigit (charAt spec i)) :
    parse_hex_triplet spec out = ⟨false, out, some .InvalidHexDigit⟩ := by
  have hnot : ¬ (strlen spec ≠ 4 ∧ strlen spec ≠ 5 ∧ strlen spec ≠ 7 ∧ strlen spec ≠ 9) := by
    omega
  simp only [parse_hex_triplet, if_neg hnot]
  generalize hb : (if strlen spec = 4 ∨ strlen spec = 7 then 3 else 4 : Nat) = bands
  generalize hd : (if strlen spec = 4 ∨ strlen spec = 5 then 1 else 2 : Nat) = dp
  obtain ⟨i, hi1, hi2, hi3⟩ := hbad
  rcases parse_hex_loop_spec spec dp bands 0 with ⟨hn, _⟩ | ⟨vs, hs, hl, hv⟩
  · rw [hn]
  · exfalso
    by_cases h5 : strlen spec ≤ 5
    · have hdp : dp = 1 := by rw [← hd]; split_ifs <;> omega
      have hk : i - 1 < bands := by rw [← hb]; split_ifs <;> omega
      have h1 := hv (i - 1) hk
      rw [hdp, parse_hex_component_one_none spec _ (by
        have : 1 + (0 + (i - 1)) = i := by omega
        rw [this]; exact hi3)] at h1
      cases h1
    · have hdp : dp = 2 := by rw [← hd]; split_ifs <;> omega
      have hk : (i - 1) / 2 < bands := by rw [← hb]; split_ifs <;> omega
      have h1 := hv ((i - 1) / 2) hk
      rw [hdp, parse_hex_component_two_none spec _ (by
        rcases Nat.mod_two_eq_zero_or_one (i - 1) with hm | hm
        · left
          have : 1 + (0 + (i - 1) / 2) * 2 = i := by omega
          rw [this]; exact hi3
        · right
          have : 1 + (0 + (i - 1) / 2) * 2 + 1 = i := by omega
          rw [this]; exact hi3)] at h1
      cases h1

/-- A spec whose first character is `#` is handed to `parse_hex_triplet`. -/
theorem isw_color_parse_hash (strtod : List Char → StrtodResult) (spec : List Char)
    (out : isw_color) (flag : Option Bool) (h : charAt spec 0 = '#') :
    isw_color_parse strtod (some spec) (some out) flag =
      ⟨(parse_hex_triplet spec out).ret, some (parse_hex_triplet spec out).out,
        flag.map fun _ => false, (parse_hex_triplet spec out).err_msg⟩ := by
  cases spec with
  | nil => exact absurd h (by decide)
  | cons c cs =>
    have hc : c = '#' := by simpa [charAt] using h
    subst hc
    simp only [isw_color_parse, if_neg (strcasecmp_hash cs), if_pos h]

theorem char_toNat_inj (a b : Char) (h : a.toNat = b.toNat) : a = b := by
  rw [← Char.ofNat_toNat a, ← Char.ofNat_toNat b, h]

theorem tolower_eq_toLower (c : Char) : tolower c = (c.toLower.toNat : Int) := by
  unfold tolower Char.toLower
  by_cases h : 'A' ≤ c ∧ c ≤ 'Z'
  · have h1 : 65 ≤ c.toNat := (char_le_iff _ _).mp h.1
    have h2 : c.toNat ≤ 90 := (char_le_iff _ _).mp h.2
    simp only [if_pos h, ge_iff_le, h1, h2, and_self, if_true]
    obtain ⟨n, a, b, rfl⟩ := char_in_range c 65 90 h1 h2
    interval_cases n <;> decide
  · have h3 : ¬ (c.toNat ≥ 65 ∧ c.toNat ≤ 90) := fun hh =>
      h ⟨(char_le_iff _ _).mpr hh.1, (char_le_iff _ _).mpr hh.2⟩
    simp only [if_neg h, if_neg h3]

theorem tolower_eq_iff (a b : Char) : tolower a = tolower b ↔ a.toLower = b.toLower := by
  rw [tolower_eq_toLower, tolower_eq_toLower]
  constructor
  · intro h; exact char_toNat_inj _ _ (by exact_mod_cast h)
  · intro h; rw [h]

theorem tolower_NUL : tolower NUL = 0 := by decide

theorem tolower_eq_zero_iff (c : Char) : tolower c = 0 ↔ c = NUL := by
  constructor
  · intro h
    unfold tolower at h
    split_ifs at h with h1
    · omega
    · exact char_toNat_inj _ _ (by have : NUL.toNat = 0 := by decide
                                   omega)
  · rintro rfl; exact tolower_NUL

theorem cstr_nil : cstr [] = [] := rfl

theorem cstr_cons (a : Char) (as : List Char) :
    cstr (a :: as) = if a = NUL then [] else a :: cstr as := by
  unfold cstr
  by_cases h : a = NUL <;> simp [List.takeWhile, h]

/-- The model of `strcasecmp` returns 0 exactly when the two C strings are
equal after case folding. -/
theorem strcasecmp_eq_zero_iff (s t : List Char) :
    strcasecmp s t = 0 ↔ (cstr s).map Char.toLower = (cstr t).map Char.toLower := by
  induction s generalizing t with
  | nil =>
    cases t with
    | nil => simp [strcasecmp]
    | cons b bs =>
      simp only [strcasecmp, tolower_NUL, cstr_nil, cstr_cons, List.map_nil]
      by_cases hb : b = NUL
      · simp [hb, tolower_NUL]
      · have : tolower b ≠ 0 := fun h => hb ((tolower_eq_zero_iff b).mp h)
        simp only [if_neg hb, List.map_cons]
        constructor
        · intro h; omega
        · intro h; cases h
  | cons a as ih =>
    cases t with
    | nil =>
      simp only [strcasecmp, tolower_NUL, cstr_nil, cstr_cons, List.map_nil]
      by_cases ha : a = NUL
      · simp [ha, tolower_NUL]
      · have : tolower a ≠ 0 := fun h => ha ((tolower_eq_zero_iff a).mp h)
        simp only [if_neg ha, List.map_cons]
        constructor
        · intro h; omega
        · intro h; cases h
    | cons b bs =>
      simp only [strcasecmp, cstr_cons]
      by_cases hab : tolower a = tolower b
      · have hl : a.toLower = b.toLower := (tolower_eq_iff a b).mp hab
        by_cases ha : a = NUL
        · have hb : b = NUL := by
            apply (tolower_eq_zero_iff b).mp
            rw [← hab, ha, tolower_NUL]
          simp [hab, ha, hb]
        · have hb : b ≠ NUL := by
            intro hb
            apply ha
            apply (tolower_eq_zero_iff a).mp
            rw [hab, hb, tolower_NUL]
          simp only [ne_eq, hab, not_true_eq_false, if_false, if_neg ha, if_neg hb,
            List.map_cons, List.cons.injEq, hl, true_and]
          exact ih bs
      · have hl : a.toLower ≠ b.toLower := fun h => hab ((tolower_eq_iff a b).mpr h)
        simp only [ne_eq, hab, not_false_eq_true, if_true]
        constructor
        · intro h; omega
        · intro h
          exfalso
          by_cases ha : a = NUL
          · by_cases hb : b = NUL
            · exact hab (by rw [ha, hb])
            · simp [ha, hb] at h
          · by_cases hb : b = NUL
            · simp [ha, hb] at h
            · simp [ha, hb] at h
              exact hl h.1

theorem cstr_transparent : cstr "transparent".toList = "transparent".toList := by decide

theorem strcasecmp_transparent_iff (spec : List Char) :
    strcasecmp spec "transparent".toList = 0 ↔ isTransparentWord spec := by
  rw [strcasecmp_eq_zero_iff, cstr_transparent]
  exact Iff.rfl

/-! ## Lemmas about the comma-separated parser -/

theorem isDigit_iff (c : Char) : c.isDigit = true ↔ 48 ≤ c.toNat ∧ c.toNat ≤ 57 := by
  unfold Char.isDigit
  rw [Bool.and_eq_true, decide_eq_true_iff, decide_eq_true_iff]
  exact Iff.rfl

theorem isDigit_ne_comma : Char.isDigit ',' = false := by decide

theorem DBL_OVERFLOW_gt : 255 < DBL_OVERFLOW := by decide

theorem DBL_OVERFLOW_eq : DBL_OVERFLOW = 2 ^ 1024 - 2 ^ 970 := by
  norm_num [DBL_OVERFLOW]

/-- A decimal integer literal is a minus sign followed by its digits, or its
digits alone. -/
theorem numeral_cases (t : List Char) (h : isNumeral t) :
    (isNegative t = true ∧ t = '-' :: digitsOf t) ∨
    (isNegative t = false ∧ t = digitsOf t) := by
  cases hn : isNegative t with
  | true =>
    left
    refine ⟨rfl, ?_⟩
    cases t with
    | nil => simp [isNegative] at hn
    | cons d ds =>
      have hd : d = '-' := by simpa [isNegative] using hn
      subst hd
      have hds : digitsOf ('-' :: ds) = ds := by simp [digitsOf, isNegative]
      rw [hds]
  | false =>
    right
    exact ⟨rfl, by simp [digitsOf, hn]⟩

/-- The first character of a decimal integer literal is a minus sign or a digit. -/
theorem numeral_head (t : List Char) (h : isNumeral t) :
    ∃ d rest, t = d :: rest ∧ (d = '-' ∨ d.isDigit = true) := by
  rcases numeral_cases t h with ⟨_, ht⟩ | ⟨_, ht⟩
  · exact ⟨'-', digitsOf t, ht, Or.inl rfl⟩
  · obtain ⟨hne, hd⟩ := h
    cases hds : digitsOf t with
    | nil => exact absurd hds hne
    | cons d ds =>
      refine ⟨d, ds, by rw [ht, hds], Or.inr (hd d (by simp [hds]))⟩

theorem numeral_head_facts (d : Char) (h : d = '-' ∨ d.isDigit = true) :
    d ≠ NUL ∧ d ≠ '#' ∧ tolower d ≠ tolower 't' := by
  rcases h with rfl | h
  · decide
  · have hb := (isDigit_iff d).mp h
    refine ⟨?_, ?_, ?_⟩
    · rintro rfl; exact absurd h (by decide)
    · rintro rfl; exact absurd h (by decide)
    · have hA : ¬ ('A' ≤ d ∧ d ≤ 'Z') := by
        rintro ⟨hA, _⟩
        have := (char_le_iff _ _).mp hA
        have h65 : 'A'.toNat = 65 := by decide
        omega
      have h116 : tolower 't' = 116 := by decide
      rw [h116]
      simp only [tolower, if_neg hA]
      omega

theorem numeralValue_natAbs (t : List Char) :
    (numeralValue t).natAbs = decimalValue (digitsOf t) := by
  unfold numeralValue
  split_ifs <;> simp

/-- The model `strtod_decimal` reads every decimal integer literal as a number:
its value is the integer, and it reports a range error exactly from
`DBL_OVERFLOW` on. -/
theorem strtod_decimal_reads (t : List Char) (ht : isNumeral t) :
    ReadsNumber strtod_decimal t ∧
    (strtod_decimal t).val = (numeralValue t : ℚ) ∧
    ((strtod_decimal t).errno ≠ 0 ↔ DBL_OVERFLOW ≤ decimalValue (digitsOf t)) := by
  have hform : ∀ rest : List Char, (rest = [] ∨ ∃ u, rest = ',' :: u) →
      strtod_decimal (t ++ rest) = ⟨(numeralValue t : ℚ), t.length,
        if DBL_OVERFLOW ≤ decimalValue (digitsOf t) then ERANGE else 0⟩ := by
    intro rest hrest
    have hrest_tw : rest.takeWhile Char.isDigit = [] := by
      rcases hrest with rfl | ⟨u, rfl⟩
      · rfl
      · exact List.takeWhile_cons_of_neg (by simp [isDigit_ne_comma])
    have htw : (digitsOf t ++ rest).takeWhile Char.isDigit = digitsOf t := by
      rw [List.takeWhile_append_of_pos ht.2, hrest_tw, List.append_nil]
    have hneg : isNegative (t ++ rest) = isNegative t := by
      obtain ⟨d, r, hd, _⟩ := numeral_head t ht
      rw [hd]; rfl
    have hdig : digitsOf (t ++ rest) = digitsOf t ++ rest := by
      obtain ⟨d, r, hd, _⟩ := numeral_head t ht
      unfold digitsOf
      rw [hneg]
      cases isNegative t with
      | true => rw [hd]; rfl
      | false => rfl
    have hval : ((if isNegative t then -(decimalValue (digitsOf t) : Int)
        else (decimalValue (digitsOf t) : Int) : Int) : ℚ) = (numeralValue t : ℚ) := rfl
    have hlen : (if isNegative t = true then 1 else 0) + (digitsOf t).length = t.length := by
      rcases numeral_cases t ht with ⟨hn, htt⟩ | ⟨hn, htt⟩
      · rw [hn]; conv_rhs => rw [htt]
        simp [Nat.add_comm]
      · rw [hn]; conv_rhs => rw [htt]
        simp
    simp only [strtod_decimal, hdig, htw, hneg, if_neg ht.1, hval, hlen]
  have h0 := hform [] (Or.inl rfl)
  rw [List.append_nil] at h0
  refine ⟨⟨?_, ?_, ?_⟩, ?_, ?_⟩
  · obtain ⟨d, r, hd, _⟩ := numeral_head t ht
    rw [hd]; simp
  · intro c hc
    rcases numeral_cases t ht with ⟨_, htt⟩ | ⟨_, htt⟩
    · rw [htt] at hc
      rcases List.mem_cons.mp hc with rfl | hc
      · decide
      · intro hn
        have := ht.2 c hc
        rw [hn] at this
        exact absurd this (by decide)
    · rw [htt] at hc
      intro hn
      have := ht.2 c hc
      rw [hn] at this
      exact absurd this (by decide)
  · intro rest hrest
    rw [hform rest hrest, h0]
    exact ⟨rfl, rfl, rfl⟩
  · rw [h0]
  · rw [h0]
    by_cases h : DBL_OVERFLOW ≤ decimalValue (digitsOf t)
    · simp [h, ERANGE]
    · simp [h]

/-- One iteration of the loop of `parse_csv` on a number followed by the end
of the spec or a comma. -/
theorem parse_csv_loop_number (strtod : List Char → StrtodResult)
    (t rest : List Char) (ht : ReadsNumber strtod t)
    (hrest : rest = [] ∨ ∃ u, rest = ',' :: u) (room : Nat) (comps : List ℚ) :
    parse_csv_loop strtod room (t ++ rest) comps =
      if (strtod t).errno ≠ 0 then .error .InvalidNumber
      else if (strtod t).val < 0 ∨ (strtod t).val > 255 then .error .OutOfRange
      else
        match room with
        | 0 => .error .TooManyComponents
        | room + 1 =>
          if rest = [] then .ok (comps ++ [(strtod t).val])
          else parse_csv_loop strtod room (rest.drop 1) (comps ++ [(strtod t).val]) := by
  obtain ⟨hne, hnul, hread⟩ := ht
  obtain ⟨hc, hv, he⟩ := hread rest hrest
  obtain ⟨d, r, htd⟩ : ∃ d r, t = d :: r := by
    cases t with
    | nil => exact absurd rfl hne
    | cons d r => exact ⟨d, r, rfl⟩
  have hd : charAt (t ++ rest) 0 ≠ NUL := by
    rw [htd]
    exact hnul d (by rw [htd]; simp)
  have hcons : (strtod (t ++ rest)).consumed ≠ 0 := by
    rw [hc, htd]; simp
  have hdrop : List.drop (strtod (t ++ rest)).consumed (t ++ rest) = rest := by
    rw [hc]; exact List.drop_left _ _
  conv_lhs => unfold parse_csv_loop
  simp only [if_neg hd, hdrop, hv, he]
  by_cases herr : (strtod t).errno ≠ 0
  · have hyes : (strtod t).errno ≠ 0 ∨ (strtod (t ++ rest)).consumed = 0 := Or.inl herr
    simp only [if_pos hyes, if_pos herr]
  · have hno : ¬ ((strtod t).errno ≠ 0 ∨ (strtod (t ++ rest)).consumed = 0) := by
      rintro (h | h)
      · exact herr h
      · exact hcons h
    simp only [if_neg hno, if_neg herr]
    by_cases hout : (strtod t).val < 0 ∨ (strtod t).val > 255
    · simp only [if_pos hout]
    · simp only [if_neg hout]
      cases room with
      | zero => rfl
      | succ n =>
        rcases hrest with rfl | ⟨u, rfl⟩
        · have h1 : charAt ([] : List Char) 0 ≠ ',' := by decide
          have h2 : charAt ([] : List Char) 0 = NUL := rfl
          simp only [if_neg h1, if_pos h2, if_true]
        · have h1 : charAt (',' :: u) 0 = ',' := rfl
          have h3 : ¬ (',' :: u) = [] := by simp
          simp only [if_pos h1, if_neg h3]

theorem csv_outcome_cons (room : Nat) (r : StrtodResult) (rs : List StrtodResult)
    (comps : List ℚ) :
    csv_outcome room (r :: rs) comps =
      if r.errno ≠ 0 then .error .InvalidNumber
      else if r.val < 0 ∨ r.val > 255 then .error .OutOfRange
      else
        match room with
        | 0 => .error .TooManyComponents
        | room + 1 => csv_outcome room rs (comps ++ [r.val]) := by
  cases room <;> simp [csv_outcome]

/-- The loop of `parse_csv` on a spec made of numbers and commas. -/
theorem parse_csv_loop_commaJoin (strtod : List Char → StrtodResult)
    (toks : List (List Char)) (htok : ∀ t ∈ toks, ReadsNumber strtod t)
    (room : Nat) (comps : List ℚ) :
    parse_csv_loop strtod room (commaJoin toks) comps
      = csv_outcome room (toks.map strtod) comps := by
  induction toks generalizing room comps with
  | nil =>
    unfold parse_csv_loop
    simp [commaJoin, csv_outcome, charAt]
  | cons t ts ih =>
    cases ts with
    | nil =>
      have h := parse_csv_loop_number strtod t [] (htok t (by simp)) (Or.inl rfl) room comps
      rw [List.append_nil] at h
      show parse_csv_loop strtod room t comps = csv_outcome room [strtod t] comps
      rw [h, csv_outcome_cons]
      by_cases h1 : (strtod t).errno ≠ 0
      · simp only [if_pos h1]
      · by_cases h2 : (strtod t).val < 0 ∨ (strtod t).val > 255
        · simp only [if_neg h1, if_pos h2]
        · simp only [if_neg h1, if_neg h2]
          cases room <;> simp [csv_outcome]
    | cons t2 ts2 =>
      have h := parse_csv_loop_number strtod t (',' :: commaJoin (t2 :: ts2))
        (htok t (by simp)) (Or.inr ⟨_, rfl⟩) room comps
      have hih := fun room comps => ih (fun u hu => htok u (by simp [hu])) room comps
      have h3 : ¬ (',' :: commaJoin (t2 :: ts2)) = [] := by simp
      simp only [if_neg h3, List.drop_succ_cons, List.drop_zero] at h
      show parse_csv_loop strtod room (t ++ ',' :: commaJoin (t2 :: ts2)) comps
        = csv_outcome room (strtod t :: (t2 :: ts2).map strtod) comps
      rw [h, csv_outcome_cons]
      by_cases h1 : (strtod t).errno ≠ 0
      · simp only [if_pos h1]
      · by_cases h2 : (strtod t).val < 0 ∨ (strtod t).val > 255
        · simp only [if_neg h1, if_pos h2]
        · simp only [if_neg h1, if_neg h2]
          cases room with
          | zero => rfl
          | succ n => exact hih n _

theorem csv_outcome_ok_iff (room : Nat) (rs : List StrtodResult) (comps cs : List ℚ) :
    csv_outcome room rs comps = .ok cs ↔
      (∀ r ∈ rs, r.errno = 0 ∧ 0 ≤ r.val ∧ r.val ≤ 255) ∧ rs.length ≤ room ∧
        cs = comps ++ rs.map fun r => r.val := by
  induction rs generalizing room comps with
  | nil =>
    simp only [csv_outcome, List.not_mem_nil, false_implies, implies_true, List.length_nil,
      Nat.zero_le, List.map_nil, List.append_nil, true_and]
    constructor
    · intro h; cases h; rfl
    · intro h; rw [h]
  | cons r rs ih =>
    rw [csv_outcome_cons]
    by_cases h1 : r.errno ≠ 0
    · simp only [if_pos h1]
      constructor
      · intro h; cases h
      · rintro ⟨h, _⟩
        exact absurd (h r (by simp)).1 h1
    · by_cases h2 : r.val < 0 ∨ r.val > 255
      · simp only [if_neg h1, if_pos h2]
        constructor
        · intro h; cases h
        · rintro ⟨h, _⟩
          have := h r (by simp)
          rcases h2 with h2 | h2 <;> linarith [this.2.1, this.2.2]
      · simp only [if_neg h1, if_neg h2]
        have hr : r.errno = 0 ∧ 0 ≤ r.val ∧ r.val ≤ 255 :=
          ⟨not_not.mp h1, not_lt.mp (fun h => h2 (Or.inl h)),
            not_lt.mp (fun h => h2 (Or.inr h))⟩
        cases room with
        | zero =>
          constructor
          · intro h; cases h
          · rintro ⟨_, h, _⟩; simp at h
        | succ n =>
          simp only [ih, List.mem_cons, forall_eq_or_imp, List.length_cons, List.map_cons,
            List.append_assoc, List.singleton_append, Nat.add_le_add_iff_right]
          constructor
          · rintro ⟨a, b, c⟩; exact ⟨⟨hr, a⟩, b, c⟩
          · rintro ⟨⟨_, a⟩, b, c⟩; exact ⟨a, b, c⟩

theorem csv_outcome_too_many (room : Nat) (rs : List StrtodResult) (comps : List ℚ)
    (hall : ∀ r ∈ rs, r.errno = 0 ∧ 0 ≤ r.val ∧ r.val ≤ 255) (hlen : room < rs.length) :
    csv_outcome room rs comps = .error .TooManyComponents := by
  induction rs generalizing room comps with
  | nil => simp at hlen
  | cons r rs ih =>
    have hv := hall r (by simp)
    have h1 : ¬ r.errno ≠ 0 := fun h => h hv.1
    have h2 : ¬ (r.val < 0 ∨ r.val > 255) := by
      rintro (h | h) <;> linarith [hv.2.1, hv.2.2]
    rw [csv_outcome_cons]
    simp only [if_neg h1, if_neg h2]
    cases room with
    | zero => rfl
    | succ n =>
      exact ih n _ (fun w hw => hall w (by simp [hw])) (by simpa using hlen)

/-- The outcome of the loop when the number at position `k` is the first one
read with a range error or with a value outside 0..255. -/
theorem csv_outcome_first_bad (room : Nat) (rs : List StrtodResult) (comps : List ℚ) (k : Nat)
    (d : StrtodResult) (hk : k < rs.length)
    (hpre : ∀ j, j < k →
      (rs.getD j d).errno = 0 ∧ 0 ≤ (rs.getD j d).val ∧ (rs.getD j d).val ≤ 255)
    (hbad : ¬ ((rs.getD k d).errno = 0 ∧ 0 ≤ (rs.getD k d).val ∧ (rs.getD k d).val ≤ 255)) :
    csv_outcome room rs comps = .error
      (if room < k then .TooManyComponents
        else if (rs.getD k d).errno ≠ 0 then .InvalidNumber else .OutOfRange) := by
  induction rs generalizing room comps k with
  | nil => simp at hk
  | cons r rs ih =>
    rw [csv_outcome_cons]
    cases k with
    | zero =>
      simp only [List.getD_cons_zero] at hbad ⊢
      simp only [Nat.not_lt_zero, if_false]
      by_cases h1 : r.errno ≠ 0
      · simp only [if_pos h1]
      · have h2 : r.val < 0 ∨ r.val > 255 := by
          by_contra h2
          exact hbad ⟨not_not.mp h1, not_lt.mp (fun h => h2 (Or.inl h)),
            not_lt.mp (fun h => h2 (Or.inr h))⟩
        simp only [if_neg h1, if_pos h2]
    | succ k =>
      have hv : r.errno = 0 ∧ 0 ≤ r.val ∧ r.val ≤ 255 := by simpa using hpre 0 (by omega)
      have h1 : ¬ r.errno ≠ 0 := fun h => h hv.1
      have h2 : ¬ (r.val < 0 ∨ r.val > 255) := by
        rintro (h | h) <;> linarith [hv.2.1, hv.2.2]
      simp only [if_neg h1, if_neg h2, List.getD_cons_succ]
      cases room with
      | zero => simp
      | succ n =>
        have := ih n (comps ++ [r.val]) k (by simpa using hk)
          (fun j hj => by simpa using hpre (j + 1) (by omega)) (by simpa using hbad)
        simp only [this, Nat.add_lt_add_iff_right]

/-- A spec that does not start with '#' and is not the word "transparent" is
handed to `parse_csv`. -/
theorem isw_color_parse_csv (strtod : List Char → StrtodResult) (spec : List Char)
    (hhash : charAt spec 0 ≠ '#') (hword : ¬ isTransparentWord spec) (out : isw_color)
    (flag : Option Bool) :
    isw_color_parse strtod (some spec) (some out) flag =
      ⟨(parse_csv strtod spec out).ret, some (parse_csv strtod spec out).out,
        flag.map fun _ => false, (parse_csv strtod spec out).err_msg⟩ := by
  have h0 : ¬ strcasecmp spec "transparent".toList = 0 := fun h =>
    hword ((strcasecmp_transparent_iff spec).mp h)
  simp only [isw_color_parse, if_neg h0, if_neg hhash]

/-- The function `parse_csv` on a spec made of numbers and commas, in terms of
the outcome of its loop on what `strtod` returns for the numbers. -/
theorem parse_csv_commaJoin (strtod : List Char → StrtodResult)
    (toks : List (List Char)) (htok : ∀ t ∈ toks, ReadsNumber strtod t) (out : isw_color) :
    parse_csv strtod (commaJoin toks) out =
      match csv_outcome 4 (toks.map strtod) [] with
      | .error e => ⟨false, out, some e⟩
      | .ok comps =>
        if comps.length ≠ 3 ∧ comps.length ≠ 4 then ⟨false, out, some .ComponentCount⟩
        else ⟨true, store_color out comps, none⟩ := by
  simp only [parse_csv, parse_csv_loop_commaJoin strtod toks htok]

theorem csv_outcome_in_range (strtod : List Char → StrtodResult) (toks : List (List Char))
    (hall : ∀ t ∈ toks, ValueInRange strtod t) (hlen : toks.length ≤ 4) :
    csv_outcome 4 (toks.map strtod) []
      = .ok ((toks.map strtod).map fun r => r.val) := by
  rw [csv_outcome_ok_iff]
  refine ⟨?_, by simpa using hlen, by simp⟩
  intro r hr
  obtain ⟨t, ht, rfl⟩ := List.mem_map.mp hr
  exact hall t ht

/-! ## Lemmas about the resolver and the layout -/

theorem clamp_color_bands (c : isw_color) : (clamp_color c).bands = c.bands := rfl

/-- A successful detection stores a 3-band colour. -/
theorem detect_dominant_color_bands (vips : Vips) (input : VipsImage) (out : isw_color)
    (h : (detect_dominant_color vips input out).ret = 0) :
    (detect_dominant_color vips input out).out.bands = 3 := by
  unfold detect_dominant_color at h ⊢
  cases h1 : sampled_image vips input with
  | none => simp [h1] at h
  | some resized =>
    simp only [h1] at h ⊢
    cases h2 : vips.image_write_to_memory resized with
    | none => simp [h2] at h
    | some bytes => rfl

/-- The colour the selection step of `isw_process` yields in each mode. -/
theorem select_background_bands (vips : Vips) (opts : isw_options) (prepared : VipsImage)
    (bg : isw_color) (h : select_background vips opts prepared = .ok bg) :
    (opts.background_mode = .ISW_BG_MANUAL → bg = opts.manual_color) ∧
    (opts.background_mode = .ISW_BG_TRANSPARENT → bg.bands = 4) ∧
    (opts.background_mode = .ISW_BG_AUTO → bg.bands = 3) := by
  unfold select_background at h
  cases hm : opts.background_mode with
  | ISW_BG_MANUAL =>
    simp only [hm, Except.ok.injEq] at h
    refine ⟨fun _ => h.symm, ?_, ?_⟩ <;> intro h2 <;> cases h2
  | ISW_BG_TRANSPARENT =>
    simp only [hm, Except.ok.injEq] at h
    refine ⟨?_, fun _ => by rw [← h]; rfl, ?_⟩ <;> intro h2 <;> cases h2
  | ISW_BG_AUTO =>
    simp only [hm] at h
    split_ifs at h with hd
    simp only [Except.ok.injEq] at h
    refine ⟨?_, ?_, fun _ => ?_⟩
    · intro h2; cases h2
    · intro h2; cases h2
    · rw [← h]
      exact detect_dominant_color_bands vips prepared isw_color.zero (by simpa using hd)

/-- What the resolver section of `isw_process` returns: the image is the
prepared image or the prepared image with an alpha band added, and the colour
is the selected colour, widened when it has 3 bands and the image 4, with its
band count set to the image's in transparent mode, then clamped. -/
theorem resolve_background_ok (vips : Vips) (opts : isw_options) (prepared img : VipsImage)
    (bg : isw_color) (h : resolve_background vips opts prepared = .ok (bg, img)) :
    ∃ bg0, select_background vips opts prepared = .ok bg0 ∧
      ((opts.background_mode = .ISW_BG_TRANSPARENT ∧ prepared.hasalpha = false ∧
          vips.addalpha prepared = some img ∧ bg.bands = img.bands) ∨
       (opts.background_mode = .ISW_BG_TRANSPARENT ∧ prepared.hasalpha = true ∧
          img = prepared ∧ bg.bands = img.bands) ∨
       (opts.background_mode = .ISW_BG_MANUAL ∧ bg0.bands = 4 ∧ prepared.bands = 3 ∧
          vips.addalpha prepared = some img ∧ bg.bands = 4) ∨
       (opts.background_mode = .ISW_BG_MANUAL ∧ bg0.bands = 3 ∧ prepared.bands = 4 ∧
          img = prepared ∧ bg.bands = 4) ∨
       (opts.background_mode = .ISW_BG_MANUAL ∧ ¬ (bg0.bands = 4 ∧ prepared.bands = 3) ∧
          ¬ (bg0.bands = 3 ∧ prepared.bands = 4) ∧ img = prepared ∧ bg.bands = bg0.bands) ∨
       (opts.background_mode = .ISW_BG_AUTO ∧ prepared.bands = 4 ∧ img = prepared ∧
          bg.bands = 4) ∨
       (opts.background_mode = .ISW_BG_AUTO ∧ prepared.bands ≠ 4 ∧ img = prepared ∧
          bg.bands = bg0.bands)) := by
  unfold resolve_background at h
  cases hs : select_background vips opts prepared with
  | error e => rw [hs] at h; cases h
  | ok bg0 =>
    rw [hs] at h
    refine ⟨bg0, rfl, ?_⟩
    cases hm : opts.background_mode with
    | ISW_BG_TRANSPARENT =>
      rw [hm] at h
      cases ha : prepared.hasalpha with
      | false =>
        simp only [ha, true_and, Bool.false_eq_true, not_false_eq_true, if_true] at h
        cases hadd : vips.addalpha prepared with
        | none => rw [hadd] at h; cases h
        | some wa =>
          rw [hadd] at h
          simp only [Except.ok.injEq, Prod.mk.injEq] at h
          left
          exact ⟨rfl, rfl, by rw [← h.2], by rw [← h.1, ← h.2]; rfl⟩
      | true =>
        simp only [ha, not_true_eq_false, and_false, if_false] at h
        simp only [Except.ok.injEq, Prod.mk.injEq] at h
        right; left
        exact ⟨rfl, rfl, h.2.symm, by rw [← h.1, ← h.2]; rfl⟩
    | ISW_BG_MANUAL =>
      rw [hm] at h
      have hne : ¬ (isw_background_mode.ISW_BG_MANUAL = .ISW_BG_TRANSPARENT ∧
          ¬ prepared.hasalpha = true) := fun h2 => by cases h2.1
      simp only [if_neg hne] at h
      by_cases h43 : bg0.bands = 4 ∧ prepared.bands = 3
      · simp only [if_pos h43] at h
        cases hadd : vips.addalpha prepared with
        | none => rw [hadd] at h; cases h
        | some wa =>
          rw [hadd] at h
          simp only [Except.ok.injEq, Prod.mk.injEq] at h
          right; right; left
          exact ⟨rfl, h43.1, h43.2, by rw [← h.2], by rw [← h.1]; exact h43.1⟩
      · simp only [if_neg h43] at h
        by_cases h34 : bg0.bands = 3 ∧ prepared.bands = 4
        · simp only [if_pos h34, Except.ok.injEq, Prod.mk.injEq] at h
          right; right; right; left
          exact ⟨rfl, h34.1, h34.2, h.2.symm, by rw [← h.1]; rfl⟩
        · simp only [if_neg h34, Except.ok.injEq, Prod.mk.injEq] at h
          right; right; right; right; left
          exact ⟨rfl, h43, h34, h.2.symm, by rw [← h.1]; rfl⟩
    | ISW_BG_AUTO =>
      rw [hm] at h
      have hne : ¬ (isw_background_mode.ISW_BG_AUTO = .ISW_BG_TRANSPARENT ∧
          ¬ prepared.hasalpha = true) := fun h2 => by cases h2.1
      simp only [if_neg hne] at h
      by_cases h4 : prepared.bands = 4
      · simp only [if_pos h4, Except.ok.injEq, Prod.mk.injEq] at h
        right; right; right; right; right; left
        exact ⟨rfl, h4, h.2.symm, by rw [← h.1]; rfl⟩
      · simp only [if_neg h4, Except.ok.injEq, Prod.mk.injEq] at h
        right; right; right; right; right; right
        exact ⟨rfl, h4, h.2.symm, by rw [← h.1]; rfl⟩

/-- The call of `vips_embed` made by the layout section, when it makes one. -/
theorem embed_and_write_call (vips : Vips) (output_path : List Char) (bg : isw_color)
    (img : VipsImage) (call : EmbedCall)
    (h : (embed_and_write vips output_path bg img).embed_call = some call) :
    call = ⟨img,
      ((if img.width > img.height then img.width else img.height) - img.width).tdiv 2,
      ((if img.width > img.height then img.width else img.height) - img.height).tdiv 2,
      (if img.width > img.height then img.width else img.height),
      (if img.width > img.height then img.width else img.height), bg⟩ := by
  unfold embed_and_write at h
  by_cases h1 : vips.array_double_new bg = true
  · have h1n : ¬ ¬ vips.array_double_new bg = true := fun hn => hn h1
    simp only [if_neg h1n] at h
    generalize vips.embed img _ _ _ _ bg = e at h
    cases e with
    | none =>
      simp only [Option.some.injEq] at h
      exact h.symm
    | some embedded =>
      simp only at h
      by_cases h3 : vips.image_write_to_file embedded output_path = true
      · have h3n : ¬ ¬ vips.image_write_to_file embedded output_path = true := fun hn => hn h3
        simp only [if_neg h3n, Option.some.injEq] at h
        exact h.symm
      · simp only [if_pos h3, Option.some.injEq] at h
        exact h.symm
  · simp only [if_pos h1] at h
    cases h

/-- The call of `vips_embed` that `isw_process` makes carries the image and
the colour of the resolver section and the layout computed from that image. -/
theorem embed_call_of_prepared (vips : Vips) (prepared : VipsImage) (output_path : List Char)
    (opts : isw_options) (call : EmbedCall)
    (h : (isw_process_prepared vips prepared output_path opts).embed_call = some call) :
    resolve_background vips opts prepared = .ok (call.background, call.image) ∧
    call.width = (if call.image.width > call.image.height then call.image.width
      else call.image.height) ∧
    call.height = call.width ∧
    call.x = (call.width - call.image.width).tdiv 2 ∧
    call.y = (call.width - call.image.height).tdiv 2 := by
  unfold isw_process_prepared at h
  cases hr : resolve_background vips opts prepared with
  | error e => rw [hr] at h; cases h
  | ok p =>
    obtain ⟨bg, img⟩ := p
    rw [hr] at h
    have hc := embed_and_write_call vips output_path bg img call h
    subst hc
    exact ⟨rfl, rfl, rfl, rfl, rfl⟩

/-! ## Lemmas about the bucket key -/

theorem bucket_key_eq (r g b : Nat) (hg : g < 256) (hb : b < 256) :
    bucket_key r g b = 256 * (r / 16) + 16 * (g / 16) + b / 16 := by
  unfold bucket_key
  simp only [Nat.shiftRight_eq_div_pow, Nat.shiftLeft_eq]
  have hb4 : b / 2 ^ 4 < 2 ^ 4 := by norm_num; omega
  have hg4 : g / 2 ^ 4 < 2 ^ 4 := by norm_num; omega
  have h1 : g / 2 ^ 4 * 2 ^ 4 ||| b / 2 ^ 4 = 2 ^ 4 * (g / 2 ^ 4) + b / 2 ^ 4 := by
    rw [Nat.mul_comm, Nat.mul_add_lt_is_or hb4]
  have h2 : 2 ^ 4 * (g / 2 ^ 4) + b / 2 ^ 4 < 2 ^ 8 := by norm_num at hb4 hg4 ⊢; omega
  rw [Nat.lor_assoc, h1, Nat.mul_comm (r / 2 ^ 4) (2 ^ 8), ← Nat.mul_add_lt_is_or h2]
  norm_num
  omega

theorem bucket_key_lt (r g b : Nat) (hr : r < 256) (hg : g < 256) (hb : b < 256) :
    bucket_key r g b < 4096 := by
  rw [bucket_key_eq r g b hg hb]; omega

theorem bucket_key_inj (r g b r2 g2 b2 : Nat) (hg : g < 256) (hb : b < 256)
    (hg2 : g2 < 256) (hb2 : b2 < 256) :
    bucket_key r g b = bucket_key r2 g2 b2 ↔
      r / 16 = r2 / 16 ∧ g / 16 = g2 / 16 ∧ b / 16 = b2 / 16 := by
  rw [bucket_key_eq r g b hg hb, bucket_key_eq r2 g2 b2 hg2 hb2]
  omega

/-! ## Lemmas about clamping -/

theorem clamp_component_of_neg (x : ℚ) (h : x < 0) : clamp_component x = 0 := by
  unfold clamp_component
  simp only [if_pos h]
  norm_num

theorem clamp_component_of_gt (x : ℚ) (h : 255 < x) : clamp_component x = 255 := by
  unfold clamp_component
  have h0 : ¬ x < 0 := by linarith
  simp only [if_neg h0, gt_iff_lt, if_pos h]

theorem clamp_component_of_mem (x : ℚ) (h0 : 0 ≤ x) (h1 : x ≤ 255) : clamp_component x = x := by
  unfold clamp_component
  have hn : ¬ x < 0 := not_lt.mpr h0
  have hg : ¬ x > 255 := not_lt.mpr h1
  simp only [if_neg hn, if_neg hg]

theorem clamp_component_mem (x : ℚ) : 0 ≤ clamp_component x ∧ clamp_component x ≤ 255 := by
  rcases lt_or_le x 0 with h | h
  · rw [clamp_component_of_neg x h]; norm_num
  · rcases lt_or_le 255 x with h2 | h2
    · rw [clamp_component_of_gt x h2]; norm_num
    · rw [clamp_component_of_mem x h h2]; exact ⟨h, h2⟩

theorem clamp_component_idem (x : ℚ) : clamp_component (clamp_component x) = clamp_component x :=
  clamp_component_of_mem _ (clamp_component_mem x).1 (clamp_component_mem x).2

theorem clamp_color_comps (c : isw_color) (i : Fin 4) :
    (clamp_color c).comps i =
      if (i.val : Int) < c.bands then clamp_component (c.comps i) else c.comps i := rfl

/-- Clamping leaves a colour alone when its first `bands` components lie in
0..255. -/
theorem clamp_color_of_mem (c : isw_color)
    (h : ∀ i : Fin 4, (i.val : Int) < c.bands → 0 ≤ c.comps i ∧ c.comps i ≤ 255) :
    clamp_color c = c := by
  cases c with
  | mk comps bands =>
    unfold clamp_color
    congr 1
    funext i
    by_cases hi : (i.val : Int) < bands
    · simp only [if_pos hi]
      exact clamp_component_of_mem _ (h i hi).1 (h i hi).2
    · simp only [if_neg hi]

theorem clamp_color_idem (c : isw_color) : clamp_color (clamp_color c) = clamp_color c := by
  apply clamp_color_of_mem
  intro i hi
  have hi2 : (i.val : Int) < c.bands := hi
  rw [clamp_color_comps, if_pos hi2]
  exact clamp_component_mem _

/-! ## Lemmas about the detector -/

theorem sample_pixel_eq (bytes : List Nat) (rbands width_r : Int) (h : Histogram) (y x : Nat) :
    sample_pixel bytes rbands width_r h y x =
      if pixel_counted bytes rbands (y * width_r.toNat + x) = true then
        add_sample h (pixel_rgb bytes rbands (y * width_r.toNat + x))
      else h := by
  have hpx : y * width_r.toNat * rbands.toNat + x * rbands.toNat
      = (y * width_r.toNat + x) * rbands.toNat := by ring
  unfold sample_pixel pixel_counted
  simp only [hpx, decide_eq_true_eq]
  by_cases hc : rbands = 4 ∧ byteAt bytes ((y * width_r.toNat + x) * rbands.toNat + 3) < 8
  · rw [if_pos hc, if_neg (not_not.mpr hc)]
  · rw [if_neg hc, if_pos hc]
    rfl

theorem foldl_rows {α : Type} (f : α → Nat → α) (width height : Nat) (init : α) :
    (List.range height).foldl
        (fun acc y => (List.range width).foldl (fun acc x => f acc (y * width + x)) acc) init
      = (List.range (height * width)).foldl f init := by
  induction height with
  | zero => simp
  | succ n ih =>
    rw [List.range_succ, List.foldl_append, ih, Nat.succ_mul, List.range_add,
      List.foldl_append, List.foldl_map]
    rfl

theorem foldl_filter_map {α β γ : Type} (c : β → Bool) (g : β → γ) (add : α → γ → α)
    (l : List β) (init : α) :
    l.foldl (fun acc i => if c i = true then add acc (g i) else acc) init
      = ((l.filter c).map g).foldl add init := by
  induction l generalizing init with
  | nil => rfl
  | cons a l ih =>
    by_cases h : c a = true
    · rw [List.foldl_cons, if_pos h, List.filter_cons_of_pos h, List.map_cons, List.foldl_cons,
        ih]
    · rw [List.foldl_cons, if_neg h, List.filter_cons_of_neg h, ih]

/-- The sampling loops fold `add_sample` over the counted pixels in scan order. -/
theorem sample_pixels_eq (bytes : List Nat) (rbands width_r height_r : Int) :
    sample_pixels bytes rbands width_r height_r =
      (counted_pixels bytes rbands (height_r.toNat * width_r.toNat)).foldl add_sample
        Histogram.empty := by
  unfold sample_pixels counted_pixels
  simp only [sample_pixel_eq]
  rw [foldl_rows (fun h i => if pixel_counted bytes rbands i = true then
      add_sample h (pixel_rgb bytes rbands i) else h)]
  exact foldl_filter_map _ _ _ _ _

theorem in_bucket_append (l : List (Nat × Nat × Nat)) (a : Nat × Nat × Nat) (k : Nat) :
    in_bucket (l ++ [a]) k = if pixel_key a = k then in_bucket l k ++ [a] else in_bucket l k := by
  unfold in_bucket
  rw [List.filter_append]
  by_cases h : pixel_key a = k
  · simp [h]
  · simp [h]

theorem sum_r_append (l : List (Nat × Nat × Nat)) (a : Nat × Nat × Nat) :
    sum_r (l ++ [a]) = sum_r l + a.1 := by simp [sum_r]

theorem sum_g_append (l : List (Nat × Nat × Nat)) (a : Nat × Nat × Nat) :
    sum_g (l ++ [a]) = sum_g l + a.2.1 := by simp [sum_g]

theorem sum_b_append (l : List (Nat × Nat × Nat)) (a : Nat × Nat × Nat) :
    sum_b (l ++ [a]) = sum_b l + a.2.2 := by simp [sum_b]

/-- The histogram after the sampling loops: each bucket holds the number of
counted pixels that fall in it, as a `uint32_t`, and the sums of their red,
green and blue values; `samples` is the number of counted pixels, as a
`uint64_t`. -/
theorem histogram_of_pixels (pixels : List (Nat × Nat × Nat)) (k : Nat) :
    ((pixels.foldl add_sample Histogram.empty).buckets k).count
        = (in_bucket pixels k).length % 2 ^ 32 ∧
    ((pixels.foldl add_sample Histogram.empty).buckets k).r_sum
        = (sum_r (in_bucket pixels k) : ℚ) ∧
    ((pixels.foldl add_sample Histogram.empty).buckets k).g_sum
        = (sum_g (in_bucket pixels k) : ℚ) ∧
    ((pixels.foldl add_sample Histogram.empty).buckets k).b_sum
        = (sum_b (in_bucket pixels k) : ℚ) ∧
    (pixels.foldl add_sample Histogram.empty).samples = pixels.length % 2 ^ 64 := by
  induction pixels using List.reverseRecOn generalizing k with
  | nil => simp [Histogram.empty, in_bucket, sum_r, sum_g, sum_b]
  | append_singleton l a ih =>
    rw [List.foldl_append, List.foldl_cons, List.foldl_nil, in_bucket_append]
    obtain ⟨hc, hr, hg, hb, hs⟩ := ih k
    obtain ⟨hc2, hr2, hg2, hb2, _⟩ := ih (pixel_key a)
    by_cases h : pixel_key a = k
    · subst h
      simp only [add_sample, if_true, hc, hr, hg, hb, hs, List.length_append,
        List.length_singleton, sum_r_append, sum_g_append, sum_b_append, Nat.cast_add]
      refine ⟨?_, trivial, trivial, trivial, ?_⟩
      · omega
      · omega
    · have hk : ¬ k = pixel_key a := fun e => h e.symm
      simp only [add_sample, if_neg hk, if_neg h, hc, hr, hg, hb, hs, List.length_append,
        List.length_singleton]
      refine ⟨trivial, trivial, trivial, trivial, ?_⟩
      omega

/-- The scan for the best bucket over the first `n` indices: nothing found when
all counts are 0, otherwise the least index whose count is maximal. -/
theorem best_scan (f : Nat → Nat) (n : Nat) :
    ((List.range n).foldl (fun (best : Int × Nat) i => if f i > best.2 then ((i : Int), f i)
        else best) ((-1 : Int), 0) = ((-1 : Int), 0) ∧ ∀ i, i < n → f i = 0) ∨
    (∃ j, j < n ∧
      (List.range n).foldl (fun (best : Int × Nat) i => if f i > best.2 then ((i : Int), f i)
        else best) ((-1 : Int), 0) = ((j : Int), f j) ∧
      0 < f j ∧ (∀ i, i < n → f i ≤ f j) ∧ ∀ i, i < j → f i < f j) := by
  induction n with
  | zero => left; exact ⟨rfl, fun i hi => absurd hi (Nat.not_lt_zero i)⟩
  | succ n ih =>
    rw [List.range_succ, List.foldl_append, List.foldl_cons, List.foldl_nil]
    rcases ih with ⟨hb, hz⟩ | ⟨j, hj, hb, hpos, hmax, hmin⟩
    · rw [hb]
      by_cases hn : f n > 0
      · right
        refine ⟨n, Nat.lt_succ_self n, by simp only [if_pos hn], hn, ?_, ?_⟩
        · intro i hi
          rcases Nat.lt_succ_iff_lt_or_eq.mp hi with h | h
          · rw [hz i h]; exact Nat.zero_le _
          · rw [h]
        · intro i hi; rw [hz i hi]; exact hn
      · left
        refine ⟨by simp only [if_neg hn], ?_⟩
        intro i hi
        rcases Nat.lt_succ_iff_lt_or_eq.mp hi with h | h
        · exact hz i h
        · rw [h]; omega
    · rw [hb]
      right
      by_cases hn : f n > f j
      · refine ⟨n, Nat.lt_succ_self n, by simp only [if_pos hn], by omega, ?_, ?_⟩
        · intro i hi
          rcases Nat.lt_succ_iff_lt_or_eq.mp hi with h | h
          · have := hmax i h; omega
          · rw [h]
        · intro i hi; have := hmax i hi; omega
      · refine ⟨j, Nat.lt_succ_of_lt hj, by simp only [if_neg hn], hpos, ?_, hmin⟩
        intro i hi
        rcases Nat.lt_succ_iff_lt_or_eq.mp hi with h | h
        · exact hmax i h
        · rw [h]; omega

theorem best_bucket_spec (buckets : Nat → bucket) :
    (best_bucket buckets = ((-1 : Int), 0) ∧ ∀ i, i < 4096 → (buckets i).count = 0) ∨
    (∃ j : Nat, j < 4096 ∧ best_bucket buckets = ((j : Int), (buckets j).count) ∧
      0 < (buckets j).count ∧ (∀ i, i < 4096 → (buckets i).count ≤ (buckets j).count) ∧
      ∀ i, i < j → (buckets i).count < (buckets j).count) :=
  best_scan (fun i => (buckets i).count) 4096

theorem byteAt_lt (bytes : List Nat) (i : Nat) : byteAt bytes i < 256 :=
  Nat.mod_lt _ (by decide)

theorem pixel_rgb_lt (bytes : List Nat) (bands : Int) (i : Nat) :
    (pixel_rgb bytes bands i).1 < 256 ∧ (pixel_rgb bytes bands i).2.1 < 256 ∧
      (pixel_rgb bytes bands i).2.2 < 256 := by
  unfold pixel_rgb
  refine ⟨byteAt_lt _ _, ?_, ?_⟩
  · show (if bands > 1 then _ else _) < 256
    split_ifs <;> exact byteAt_lt _ _
  · show (if bands > 2 then _ else _) < 256
    split_ifs <;> exact byteAt_lt _ _

theorem counted_pixels_lt (bytes : List Nat) (bands : Int) (n : Nat) (p : Nat × Nat × Nat)
    (hp : p ∈ counted_pixels bytes bands n) : p.1 < 256 ∧ p.2.1 < 256 ∧ p.2.2 < 256 := by
  unfold counted_pixels at hp
  obtain ⟨i, _, rfl⟩ := List.mem_map.mp hp
  exact pixel_rgb_lt bytes bands i

theorem pixel_key_lt (p : Nat × Nat × Nat) (h : p.1 < 256 ∧ p.2.1 < 256 ∧ p.2.2 < 256) :
    pixel_key p < 4096 := bucket_key_lt _ _ _ h.1 h.2.1 h.2.2

theorem in_bucket_length_le (pixels : List (Nat × Nat × Nat)) (k : Nat) :
    (in_bucket pixels k).length ≤ pixels.length := List.length_filter_le _ _

theorem in_bucket_eq_nil_of_ge (pixels : List (Nat × Nat × Nat))
    (hlt : ∀ p ∈ pixels, p.1 < 256 ∧ p.2.1 < 256 ∧ p.2.2 < 256) (k : Nat) (hk : 4096 ≤ k) :
    in_bucket pixels k = [] := by
  unfold in_bucket
  rw [List.filter_eq_nil_iff]
  intro p hp
  have := pixel_key_lt p (hlt p hp)
  simp only [decide_eq_true_eq]
  omega

/-- What the detector computes from a histogram (isw_canvas.c:151-172). -/
theorem dominant_rgb_eq (bytes : List Nat) (rbands width_r height_r : Int) :
    dominant_rgb bytes rbands width_r height_r =
      if (best_bucket (sample_pixels bytes rbands width_r height_r).buckets).1 < 0 ∨
          (best_bucket (sample_pixels bytes rbands width_r height_r).buckets).2 = 0 ∨
          (sample_pixels bytes rbands width_r height_r).samples = 0 then (128, 128, 128)
      else
        (((sample_pixels bytes rbands width_r height_r).buckets
            (best_bucket (sample_pixels bytes rbands width_r height_r).buckets).1.toNat).r_sum /
          (((sample_pixels bytes rbands width_r height_r).buckets
            (best_bucket (sample_pixels bytes rbands width_r height_r).buckets).1.toNat).count : ℚ),
         ((sample_pixels bytes rbands width_r height_r).buckets
            (best_bucket (sample_pixels bytes rbands width_r height_r).buckets).1.toNat).g_sum /
          (((sample_pixels bytes rbands width_r height_r).buckets
            (best_bucket (sample_pixels bytes rbands width_r height_r).buckets).1.toNat).count : ℚ),
         ((sample_pixels bytes rbands width_r height_r).buckets
            (best_bucket (sample_pixels bytes rbands width_r height_r).buckets).1.toNat).b_sum /
          (((sample_pixels bytes rbands width_r height_r).buckets
            (best_bucket (sample_pixels bytes rbands width_r height_r).buckets).1.toNat).count : ℚ)) :=
  rfl

/-- With no counted pixel the detector returns mid-gray. -/
theorem dominant_rgb_of_nil (bytes : List Nat) (rbands width_r height_r : Int)
    (hP : counted_pixels bytes rbands (height_r.toNat * width_r.toNat) = []) :
    dominant_rgb bytes rbands width_r height_r = (128, 128, 128) := by
  rw [dominant_rgb_eq, sample_pixels_eq, hP]
  have hs : (([] : List (Nat × Nat × Nat)).foldl add_sample Histogram.empty).samples = 0 := rfl
  rw [if_pos (Or.inr (Or.inr hs))]

/-- With at least one counted pixel, and fewer than `2^32` of them, the
detector returns the mean of the pixels of the least bucket of maximal count. -/
theorem dominant_rgb_of_pixels (bytes : List Nat) (rbands width_r height_r : Int)
    (hP : counted_pixels bytes rbands (height_r.toNat * width_r.toNat) ≠ [])
    (hlen : (counted_pixels bytes rbands (height_r.toNat * width_r.toNat)).length < 2 ^ 32) :
    ∃ bstar : Nat, bstar < 4096 ∧
      in_bucket (counted_pixels bytes rbands (height_r.toNat * width_r.toNat)) bstar ≠ [] ∧
      (∀ k, (in_bucket (counted_pixels bytes rbands (height_r.toNat * width_r.toNat)) k).length
        ≤ (in_bucket (counted_pixels bytes rbands
            (height_r.toNat * width_r.toNat)) bstar).length) ∧
      (∀ k, k < bstar →
        (in_bucket (counted_pixels bytes rbands (height_r.toNat * width_r.toNat)) k).length
        < (in_bucket (counted_pixels bytes rbands
            (height_r.toNat * width_r.toNat)) bstar).length) ∧
      dominant_rgb bytes rbands width_r height_r =
        mean_rgb (in_bucket (counted_pixels bytes rbands
          (height_r.toNat * width_r.toNat)) bstar) := by
  generalize hPd : counted_pixels bytes rbands (height_r.toNat * width_r.toNat) = P at hP hlen ⊢
  have hlt : ∀ p ∈ P, p.1 < 256 ∧ p.2.1 < 256 ∧ p.2.2 < 256 := by
    intro p hp; rw [← hPd] at hp; exact counted_pixels_lt _ _ _ p hp
  have hcount : ∀ k, ((P.foldl add_sample Histogram.empty).buckets k).count
      = (in_bucket P k).length := by
    intro k
    rw [(histogram_of_pixels P k).1]
    exact Nat.mod_eq_of_lt (lt_of_le_of_lt (in_bucket_length_le P k) hlen)
  have hsamples : (P.foldl add_sample Histogram.empty).samples ≠ 0 := by
    rw [(histogram_of_pixels P 0).2.2.2.2]
    have hpos : 0 < P.length := List.length_pos.mpr hP
    have h64 : (2 : Nat) ^ 32 < 2 ^ 64 := by norm_num
    rw [Nat.mod_eq_of_lt (by omega)]
    omega
  rw [dominant_rgb_eq, sample_pixels_eq, hPd]
  rcases best_bucket_spec (P.foldl add_sample Histogram.empty).buckets with
    ⟨_, hz⟩ | ⟨j, hj, hb, hpos, hmax, hmin⟩
  · exfalso
    obtain ⟨p, hp⟩ := List.exists_mem_of_ne_nil P hP
    have h0 := hz (pixel_key p) (pixel_key_lt p (hlt p hp))
    rw [hcount] at h0
    have hmem : p ∈ in_bucket P (pixel_key p) := by
      unfold in_bucket; exact List.mem_filter.mpr ⟨hp, by simp⟩
    rw [List.length_eq_zero.mp h0] at hmem
    exact absurd hmem (List.not_mem_nil p)
  · rw [hcount] at hpos
    refine ⟨j, hj, fun h => by rw [h] at hpos; exact absurd hpos (by decide), ?_, ?_, ?_⟩
    · intro k
      rcases Nat.lt_or_ge k 4096 with hk | hk
      · have := hmax k hk; rwa [hcount, hcount] at this
      · rw [in_bucket_eq_nil_of_ge P hlt k hk]; exact Nat.zero_le _
    · intro k hk
      have := hmin k hk; rwa [hcount, hcount] at this
    · have hcond : ¬ ((best_bucket (P.foldl add_sample Histogram.empty).buckets).1 < 0 ∨
          (best_bucket (P.foldl add_sample Histogram.empty).buckets).2 = 0 ∨
          (P.foldl add_sample Histogram.empty).samples = 0) := by
        rw [hb]
        rintro (h | h | h)
        · have : (0 : Int) ≤ (j : Int) := Int.ofNat_nonneg j
          exact absurd h (not_lt.mpr this)
        · rw [hcount] at h; omega
        · exact hsamples h
      rw [if_neg hcond, hb]
      simp only [Int.toNat_ofNat, hcount]
      obtain ⟨_, hr, hg, hbl, _⟩ := histogram_of_pixels P j
      rw [hr, hg, hbl]
      rfl

theorem counted_pixels_length_le (bytes : List Nat) (bands : Int) (n : Nat) :
    (counted_pixels bytes bands n).length ≤ n := by
  unfold counted_pixels
  rw [List.length_map]
  exact le_trans (List.length_filter_le _ _) (by rw [List.length_range])

theorem counted_pixels_eq_nil (bytes : List Nat) (bands : Int) (n : Nat)
    (h : ∀ i, i < n → pixel_counted bytes bands i = false) : counted_pixels bytes bands n = [] := by
  unfold counted_pixels
  rw [List.map_eq_nil_iff, List.filter_eq_nil_iff]
  intro i hi
  rw [h i (List.mem_range.mp hi)]
  decide

theorem pixel_counted_four (bytes : List Nat) (i : Nat) :
    pixel_counted bytes 4 i = decide (8 ≤ pixel_alpha bytes i) := by
  unfold pixel_counted pixel_alpha
  have h4 : (4 : Int).toNat = 4 := rfl
  rw [h4]
  by_cases h : byteAt bytes (i * 4 + 3) < 8
  · have h8 : ¬ 8 ≤ byteAt bytes (i * 4 + 3) := by omega
    simp [h, h8]
  · have h8 : 8 ≤ byteAt bytes (i * 4 + 3) := by omega
    simp [h, h8]

theorem pixel_counted_of_ne_four (bytes : List Nat) (bands : Int) (i : Nat) (h : bands ≠ 4) :
    pixel_counted bytes bands i = true := by
  unfold pixel_counted
  simp [h]

/-- A run of `detect_dominant_color` whose libvips calls succeed returns 0 and
stores 3 bands and the colour computed from the pixel buffer; the fourth
component of the caller's colour stays as it was. -/
theorem detect_dominant_color_of_buffer (vips : Vips) (input : VipsImage) (out : isw_color)
    (resized : VipsImage) (bytes : List Nat)
    (h1 : sampled_image vips input = some resized)
    (h2 : vips.image_write_to_memory resized = some bytes) :
    (detect_dominant_color vips input out).ret = 0 ∧
    (detect_dominant_color vips input out).err_msg = none ∧
    (detect_dominant_color vips input out).out.bands = 3 ∧
    (detect_dominant_color vips input out).out.comps 0
      = (dominant_rgb bytes resized.bands resized.width resized.height).1 ∧
    (detect_dominant_color vips input out).out.comps 1
      = (dominant_rgb bytes resized.bands resized.width resized.height).2.1 ∧
    (detect_dominant_color vips input out).out.comps 2
      = (dominant_rgb bytes resized.bands resized.width resized.height).2.2 ∧
    (detect_dominant_color vips input out).out.comps 3 = out.comps 3 := by
  have hd : detect_dominant_color vips input out =
      ⟨0, ((({ out with bands := 3 }).setComp 0
          (dominant_rgb bytes resized.bands resized.width resized.height).1).setComp 1
          (dominant_rgb bytes resized.bands resized.width resized.height).2.1).setComp 2
          (dominant_rgb bytes resized.bands resized.width resized.height).2.2, none⟩ := by
    unfold detect_dominant_color
    rw [h1]
    dsimp only
    rw [h2]
  rw [hd]
  generalize dominant_rgb bytes resized.bands resized.width resized.height = rgb
  refine ⟨rfl, rfl, rfl, ?_, ?_, ?_, ?_⟩ <;> simp [isw_color.setComp]

theorem map_sum_bounds {α : Type} (f : α → Nat) (l : List α) (lo hi : Nat)
    (h : ∀ a ∈ l, lo ≤ f a ∧ f a ≤ hi) :
    lo * l.length ≤ (l.map f).sum ∧ (l.map f).sum ≤ hi * l.length := by
  induction l with
  | nil => simp
  | cons a l ih =>
    have ha := h a (by simp)
    have := ih (fun b hb => h b (by simp [hb]))
    simp only [List.map_cons, List.sum_cons, List.length_cons, Nat.mul_succ]
    omega

theorem mean_bounds (s n lo hi : Nat) (hn : 0 < n) (h1 : lo * n ≤ s) (h2 : s ≤ hi * n) :
    (lo : ℚ) ≤ (s : ℚ) / (n : ℚ) ∧ (s : ℚ) / (n : ℚ) ≤ (hi : ℚ) := by
  have hq : (0 : ℚ) < (n : ℚ) := by exact_mod_cast hn
  constructor
  · rw [le_div_iff₀ hq]; exact_mod_cast h1
  · rw [div_le_iff₀ hq]; exact_mod_cast h2

/-- The colours of one bucket lie in its cell. -/
theorem in_bucket_cell (pixels : List (Nat × Nat × Nat)) (k : Nat)
    (hlt : ∀ p ∈ pixels, p.1 < 256 ∧ p.2.1 < 256 ∧ p.2.2 < 256)
    (p : Nat × Nat × Nat) (hp : p ∈ in_bucket pixels k) :
    (16 * (k / 256) ≤ p.1 ∧ p.1 ≤ 16 * (k / 256) + 15) ∧
    (16 * (k / 16 % 16) ≤ p.2.1 ∧ p.2.1 ≤ 16 * (k / 16 % 16) + 15) ∧
    (16 * (k % 16) ≤ p.2.2 ∧ p.2.2 ≤ 16 * (k % 16) + 15) := by
  unfold in_bucket at hp
  obtain ⟨hmem, hkey⟩ := List.mem_filter.mp hp
  obtain ⟨hr, hg, hb⟩ := hlt p hmem
  have hk : pixel_key p = k := by simpa using hkey
  unfold pixel_key at hk
  rw [bucket_key_eq _ _ _ hg hb] at hk
  omega

/-- The mean of a non-empty bucket lies in the bucket's cell. -/
theorem mean_rgb_cell (pixels : List (Nat × Nat × Nat)) (k : Nat)
    (hlt : ∀ p ∈ pixels, p.1 < 256 ∧ p.2.1 < 256 ∧ p.2.2 < 256)
    (hne : in_bucket pixels k ≠ []) :
    (((16 * (k / 256) : Nat) : ℚ) ≤ (mean_rgb (in_bucket pixels k)).1 ∧
      (mean_rgb (in_bucket pixels k)).1 ≤ ((16 * (k / 256) + 15 : Nat) : ℚ)) ∧
    (((16 * (k / 16 % 16) : Nat) : ℚ) ≤ (mean_rgb (in_bucket pixels k)).2.1 ∧
      (mean_rgb (in_bucket pixels k)).2.1 ≤ ((16 * (k / 16 % 16) + 15 : Nat) : ℚ)) ∧
    (((16 * (k % 16) : Nat) : ℚ) ≤ (mean_rgb (in_bucket pixels k)).2.2 ∧
      (mean_rgb (in_bucket pixels k)).2.2 ≤ ((16 * (k % 16) + 15 : Nat) : ℚ)) := by
  have hn : 0 < (in_bucket pixels k).length := List.length_pos.mpr hne
  have hr := map_sum_bounds (fun p : Nat × Nat × Nat => p.1) (in_bucket pixels k) _ _
    (fun p hp => (in_bucket_cell pixels k hlt p hp).1)
  have hg := map_sum_bounds (fun p : Nat × Nat × Nat => p.2.1) (in_bucket pixels k) _ _
    (fun p hp => (in_bucket_cell pixels k hlt p hp).2.1)
  have hb := map_sum_bounds (fun p : Nat × Nat × Nat => p.2.2) (in_bucket pixels k) _ _
    (fun p hp => (in_bucket_cell pixels k hlt p hp).2.2)
  exact ⟨mean_bounds _ _ _ _ hn hr.1 hr.2, mean_bounds _ _ _ _ hn hg.1 hg.2,
    mean_bounds _ _ _ _ hn hb.1 hb.2⟩

/-- The colour computed from a buffer of fewer than `2^32` pixels has its
components in 0..255. -/
theorem dominant_rgb_in_range (bytes : List Nat) (rbands width_r height_r : Int)
    (hsize : height_r.toNat * width_r.toNat < 2 ^ 32) :
    (0 ≤ (dominant_rgb bytes rbands width_r height_r).1 ∧
      (dominant_rgb bytes rbands width_r height_r).1 ≤ 255) ∧
    (0 ≤ (dominant_rgb bytes rbands width_r height_r).2.1 ∧
      (dominant_rgb bytes rbands width_r height_r).2.1 ≤ 255) ∧
    (0 ≤ (dominant_rgb bytes rbands width_r height_r).2.2 ∧
      (dominant_rgb bytes rbands width_r height_r).2.2 ≤ 255) := by
  by_cases hP : counted_pixels bytes rbands (height_r.toNat * width_r.toNat) = []
  · rw [dominant_rgb_of_nil bytes rbands width_r height_r hP]
    norm_num
  · obtain ⟨k, hk, hne, _, _, hm⟩ := dominant_rgb_of_pixels bytes rbands width_r height_r hP
      (lt_of_le_of_lt (counted_pixels_length_le _ _ _) hsize)
    rw [hm]
    obtain ⟨⟨r1, r2⟩, ⟨g1, g2⟩, ⟨b1, b2⟩⟩ := mean_rgb_cell _ k
      (fun p hp => counted_pixels_lt _ _ _ p hp) hne
    have e1 : (((16 * (k / 256) + 15 : Nat) : ℚ)) ≤ 255 := by
      have : 16 * (k / 256) + 15 ≤ 255 := by omega
      exact_mod_cast this
    have e2 : (((16 * (k / 16 % 16) + 15 : Nat) : ℚ)) ≤ 255 := by
      have : 16 * (k / 16 % 16) + 15 ≤ 255 := by omega
      exact_mod_cast this
    have e3 : (((16 * (k % 16) + 15 : Nat) : ℚ)) ≤ 255 := by
      have : 16 * (k % 16) + 15 ≤ 255 := by omega
      exact_mod_cast this
    have z1 : (0 : ℚ) ≤ ((16 * (k / 256) : Nat) : ℚ) := Nat.cast_nonneg _
    have z2 : (0 : ℚ) ≤ ((16 * (k / 16 % 16) : Nat) : ℚ) := Nat.cast_nonneg _
    have z3 : (0 : ℚ) ≤ ((16 * (k % 16) : Nat) : ℚ) := Nat.cast_nonneg _
    exact ⟨⟨le_trans z1 r1, le_trans r2 e1⟩, ⟨le_trans z2 g1, le_trans g2 e2⟩,
      ⟨le_trans z3 b1, le_trans b2 e3⟩⟩

theorem floor_toNat_div (x : ℚ) (k : Nat) (h1 : ((16 * k : Nat) : ℚ) ≤ x)
    (h2 : x ≤ ((16 * k + 15 : Nat) : ℚ)) : ⌊x⌋.toNat / 16 = k := by
  have hlo : ((16 * k : Nat) : Int) ≤ ⌊x⌋ := by
    rw [Int.le_floor]; exact_mod_cast h1
  have hhi : ⌊x⌋ ≤ ((16 * k + 15 : Nat) : Int) := by
    have : ⌊x⌋ ≤ ⌊((16 * k + 15 : Nat) : ℚ)⌋ := Int.floor_le_floor h2
    have e : ⌊((16 * k + 15 : Nat) : ℚ)⌋ = ((16 * k + 15 : Nat) : Int) := by
      exact_mod_cast Int.floor_natCast (16 * k + 15)
    rw [e] at this; exact this
  omega

/-! ## The resolver, mode by mode -/

/-- Clamping a colour whose components are all 0 changes nothing. -/
theorem clamp_color_zero_comps (n : Int) :
    clamp_color { (((({ isw_color.zero with bands := 4 }).setComp 0 0).setComp 1 0).setComp 2 0
      |>.setComp 3 0) with bands := n } = ⟨fun _ => 0, n⟩ := by
  unfold clamp_color
  congr 1
  funext i
  simp [isw_color.setComp, isw_color.zero, clamp_component]

/-- The resolver section in transparent mode. -/
theorem resolve_background_transparent (vips : Vips) (opts : isw_options)
    (prepared : VipsImage) (hm : opts.background_mode = .ISW_BG_TRANSPARENT) :
    resolve_background vips opts prepared =
      match (if prepared.hasalpha = true then some prepared else vips.addalpha prepared) with
      | none => .error .VipsFailure
      | some img => .ok (⟨fun _ => 0, img.bands⟩, img) := by
  unfold resolve_background select_background
  simp only [hm, true_and]
  cases ha : prepared.hasalpha with
  | false =>
    simp only [Bool.false_eq_true, not_false_eq_true, if_true, if_false]
    cases hadd : vips.addalpha prepared with
    | none => rfl
    | some img => simp only [clamp_color_zero_comps]
  | true =>
    simp only [not_true_eq_false, if_false, if_true, clamp_color_zero_comps]

/-- The resolver section in manual mode. -/
theorem resolve_background_manual (vips : Vips) (opts : isw_options)
    (prepared : VipsImage) (hm : opts.background_mode = .ISW_BG_MANUAL) :
    resolve_background vips opts prepared =
      if opts.manual_color.bands = 4 ∧ prepared.bands = 3 then
        match vips.addalpha prepared with
        | none => .error .VipsFailure
        | some with_alpha => .ok (clamp_color opts.manual_color, with_alpha)
      else if opts.manual_color.bands = 3 ∧ prepared.bands = 4 then
        .ok (clamp_color { opts.manual_color.setComp 3 255 with bands := 4 }, prepared)
      else .ok (clamp_color opts.manual_color, prepared) := by
  unfold resolve_background select_background
  simp only [hm]
  have hne : ¬ (isw_background_mode.ISW_BG_MANUAL = .ISW_BG_TRANSPARENT ∧
      ¬ prepared.hasalpha = true) := fun h2 => by cases h2.1
  simp only [if_neg hne]

/-- The resolver section in automatic mode, after a successful detection. -/
theorem resolve_background_auto (vips : Vips) (opts : isw_options)
    (prepared : VipsImage) (hm : opts.background_mode = .ISW_BG_AUTO)
    (hd : (detect_dominant_color vips prepared isw_color.zero).ret = 0) :
    resolve_background vips opts prepared =
      if prepared.bands = 4 then
        .ok (clamp_color { (detect_dominant_color vips prepared isw_color.zero).out.setComp 3 255
          with bands := 4 }, prepared)
      else .ok (clamp_color (detect_dominant_color vips prepared isw_color.zero).out, prepared) := by
  unfold resolve_background select_background
  simp only [hm]
  have hne : ¬ (isw_background_mode.ISW_BG_AUTO = .ISW_BG_TRANSPARENT ∧
      ¬ prepared.hasalpha = true) := fun h2 => by cases h2.1
  have hd2 : ¬ (detect_dominant_color vips prepared isw_color.zero).ret ≠ 0 := fun h => h hd
  simp only [if_neg hne, if_neg hd2]

/-- The resolver section in automatic mode, after a failed detection. -/
theorem resolve_background_auto_failed (vips : Vips) (opts : isw_options)
    (prepared : VipsImage) (hm : opts.background_mode = .ISW_BG_AUTO)
    (hd : (detect_dominant_color vips prepared isw_color.zero).ret ≠ 0) :
    resolve_background vips opts prepared = .error .VipsFailure := by
  unfold resolve_background select_background
  simp only [hm, if_pos hd]

/-- Every colour the resolver section returns has been through `clamp_color`. -/
theorem resolve_background_clamped (vips : Vips) (opts : isw_options) (prepared img : VipsImage)
    (bg : isw_color) (h : resolve_background vips opts prepared = .ok (bg, img)) :
    ∃ c, bg = clamp_color c := by
  cases hm : opts.background_mode with
  | ISW_BG_TRANSPARENT =>
    rw [resolve_background_transparent vips opts prepared hm] at h
    split at h
    · cases h
    · simp only [Except.ok.injEq, Prod.mk.injEq] at h
      refine ⟨⟨fun _ => 0, bg.bands⟩, ?_⟩
      rw [← h.1]
      unfold clamp_color
      congr 1
      funext i
      have h255 : ¬ ((255 : ℚ) < 0) := by norm_num
      simp [clamp_component, h255]
  | ISW_BG_MANUAL =>
    rw [resolve_background_manual vips opts prepared hm] at h
    split_ifs at h
    · split at h
      · cases h
      · simp only [Except.ok.injEq, Prod.mk.injEq] at h
        exact ⟨_, h.1.symm⟩
    · simp only [Except.ok.injEq, Prod.mk.injEq] at h
      exact ⟨_, h.1.symm⟩
    · simp only [Except.ok.injEq, Prod.mk.injEq] at h
      exact ⟨_, h.1.symm⟩
  | ISW_BG_AUTO =>
    by_cases hd : (detect_dominant_color vips prepared isw_color.zero).ret = 0
    · rw [resolve_background_auto vips opts prepared hm hd] at h
      split_ifs at h
      · simp only [Except.ok.injEq, Prod.mk.injEq] at h
        exact ⟨_, h.1.symm⟩
      · simp only [Except.ok.injEq, Prod.mk.injEq] at h
        exact ⟨_, h.1.symm⟩
    · rw [resolve_background_auto_failed vips opts prepared hm hd] at h
      cases h

/-- The first `bands` components of a clamped colour lie in [0,255]. -/
theorem clamp_color_mem (c : isw_color) (i : Fin 4) (hi : (i.val : Int) < (clamp_color c).bands) :
    0 ≤ (clamp_color c).comps i ∧ (clamp_color c).comps i ≤ 255 := by
  have hb : (i.val : Int) < c.bands := hi
  rw [clamp_color_comps, if_pos hb]
  exact clamp_component_mem _

/-- The three components of a detected colour lie in 0..255 when the sampled
buffer has fewer than `2^32` pixels. -/
theorem detected_in_range (vips : Vips) (input : VipsImage) (out : isw_color)
    (resized : VipsImage) (bytes : List Nat)
    (h1 : sampled_image vips input = some resized)
    (h2 : vips.image_write_to_memory resized = some bytes)
    (hsize : resized.height.toNat * resized.width.toNat < 2 ^ 32) (i : Fin 4) (hi : i.val < 3) :
    0 ≤ (detect_dominant_color vips input out).out.comps i ∧
      (detect_dominant_color vips input out).out.comps i ≤ 255 := by
  obtain ⟨_, _, _, c0, c1, c2, _⟩ :=
    detect_dominant_color_of_buffer vips input out resized bytes h1 h2
  obtain ⟨r, g, b⟩ := dominant_rgb_in_range bytes resized.bands resized.width resized.height hsize
  have hcases : i = 0 ∨ i = 1 ∨ i = 2 := by
    rcases i with ⟨v, hv⟩
    have hv3 : v < 3 := hi
    interval_cases v
    · left; rfl
    · right; left; rfl
    · right; right; rfl
  rcases hcases with h | h | h
  · subst h; rw [c0]; exact r
  · subst h; rw [c1]; exact g
  · subst h; rw [c2]; exact b

/-- Clamping changes neither a detected colour nor its widening to 4 bands. -/
theorem detected_clamp_fixed (vips : Vips) (input : VipsImage) (out : isw_color)
    (resized : VipsImage) (bytes : List Nat)
    (h1 : sampled_image vips input = some resized)
    (h2 : vips.image_write_to_memory resized = some bytes)
    (hsize : resized.height.toNat * resized.width.toNat < 2 ^ 32) :
    clamp_color (detect_dominant_color vips input out).out
      = (detect_dominant_color vips input out).out ∧
    clamp_color { (detect_dominant_color vips input out).out.setComp 3 255 with bands := 4 }
      = { (detect_dominant_color vips input out).out.setComp 3 255 with bands := 4 } := by
  have hrange := detected_in_range vips input out resized bytes h1 h2 hsize
  obtain ⟨_, _, hb, _⟩ := detect_dominant_color_of_buffer vips input out resized bytes h1 h2
  generalize (detect_dominant_color vips input out).out = d at hb hrange ⊢
  refine ⟨?_, ?_⟩
  · apply clamp_color_of_mem
    intro i hi
    rw [hb] at hi
    exact hrange i (by exact_mod_cast hi)
  · apply clamp_color_of_mem
    intro i _
    by_cases h3 : i = 3
    · subst h3
      simp only [isw_color.setComp, if_true]
      norm_num
    · have hlt : i.val < 3 := by
        rcases i with ⟨v, hv⟩
        have : v ≠ 3 := fun e => h3 (by subst e; rfl)
        show v < 3
        omega
      simp only [isw_color.setComp, if_neg h3]
      exact hrange i hlt

/-! ## A uniform list with one speckle -/

/-- A list read off a function that is `c` everywhere below `n` except for
`s` at `i0`. -/
theorem map_range_speckle {α : Type} (f : Nat → α) (n i0 : Nat) (c s : α) (hi : i0 < n)
    (hs : f i0 = s) (hc : ∀ i, i < n → i ≠ i0 → f i = c) :
    (List.range n).map f = List.replicate i0 c ++ s :: List.replicate (n - 1 - i0) c := by
  apply List.ext_getElem
  · simp only [List.length_map, List.length_range, List.length_append, List.length_replicate,
      List.length_cons]
    omega
  · intro j h1 h2
    simp only [List.length_map, List.length_range] at h1
    simp only [List.getElem_map, List.getElem_range]
    rcases Nat.lt_trichotomy j i0 with h | h | h
    · rw [List.getElem_append_left (by simpa using h)]
      simp only [List.getElem_replicate]
      exact hc j h1 (by omega)
    · subst h
      rw [List.getElem_append_right (by simp)]
      simp [hs]
    · rw [List.getElem_append_right (by simp; omega)]
      simp only [List.length_replicate]
      have hj : j - i0 = (j - i0 - 1) + 1 := by omega
      rw [List.getElem_cons]
      have hne : ¬ (j - i0 = 0) := by omega
      simp only [hne, dite_false, List.getElem_replicate]
      exact hc j h1 (by omega)

/-- Every pixel is counted when no pixel of a 4-band buffer has alpha below 8. -/
theorem counted_pixels_all (bytes : List Nat) (bands : Int) (n : Nat)
    (h : bands = 4 → ∀ i, i < n → 8 ≤ pixel_alpha bytes i) :
    counted_pixels bytes bands n = (List.range n).map (pixel_rgb bytes bands) := by
  unfold counted_pixels
  congr 1
  rw [List.filter_eq_self]
  intro i hi
  rw [List.mem_range] at hi
  by_cases hb : bands = 4
  · subst hb
    rw [pixel_counted_four]
    exact decide_eq_true (h rfl i hi)
  · exact pixel_counted_of_ne_four bytes bands i hb

/-- The bucket `k` of a uniform list with one speckle: its length and sums. -/
theorem speckle_bucket (a b : Nat) (c s : Nat × Nat × Nat) (k : Nat) :
    (in_bucket (List.replicate a c ++ s :: List.replicate b c) k).length
      = (if pixel_key c = k then a + b else 0) + (if pixel_key s = k then 1 else 0) ∧
    sum_r (in_bucket (List.replicate a c ++ s :: List.replicate b c) k)
      = (if pixel_key c = k then (a + b) * c.1 else 0) + (if pixel_key s = k then s.1 else 0) ∧
    sum_g (in_bucket (List.replicate a c ++ s :: List.replicate b c) k)
      = (if pixel_key c = k then (a + b) * c.2.1 else 0)
        + (if pixel_key s = k then s.2.1 else 0) ∧
    sum_b (in_bucket (List.replicate a c ++ s :: List.replicate b c) k)
      = (if pixel_key c = k then (a + b) * c.2.2 else 0)
        + (if pixel_key s = k then s.2.2 else 0) := by
  unfold in_bucket sum_r sum_g sum_b
  by_cases hc : pixel_key c = k <;> by_cases hs : pixel_key s = k <;>
    simp [List.filter_append, List.filter_cons, List.filter_replicate, hc, hs]
  all_goals refine ⟨?_, ?_, ?_, ?_⟩ <;> ring

/-- The winning bucket of a uniform list with one speckle, of three pixels or
more, is the bucket of the uniform colour. -/
theorem speckle_winner (a b : Nat) (c s : Nat × Nat × Nat) (hab : 2 ≤ a + b) (bstar : Nat)
    (hmax : ∀ k, (in_bucket (List.replicate a c ++ s :: List.replicate b c) k).length
      ≤ (in_bucket (List.replicate a c ++ s :: List.replicate b c) bstar).length) :
    bstar = pixel_key c := by
  by_contra hb
  have hb2 : ¬ pixel_key c = bstar := fun h => hb h.symm
  have h1 := (speckle_bucket a b c s bstar).1
  have h2 := (speckle_bucket a b c s (pixel_key c)).1
  have h3 := hmax (pixel_key c)
  rw [h1, h2] at h3
  simp only [if_neg hb2, if_true] at h3
  split_ifs at h3 <;> omega

/-- A mean of `m` values `x` and one value `y` within 15 of `x` is within
`15 / (m + 1)` of `x`. -/
theorem speckle_mean_near (m x y : Nat) (hxy : x ≤ y + 15) (hyx : y ≤ x + 15) :
    |((m * x + y : Nat) : ℚ) / ((m + 1 : Nat) : ℚ) - (x : ℚ)| ≤ 15 / ((m + 1 : Nat) : ℚ) := by
  have hpos : (0 : ℚ) < ((m + 1 : Nat) : ℚ) := by exact_mod_cast Nat.succ_pos m
  have e : ((m * x + y : Nat) : ℚ) / ((m + 1 : Nat) : ℚ) - (x : ℚ)
      = ((y : ℚ) - (x : ℚ)) / ((m + 1 : Nat) : ℚ) := by
    field_simp
    ring
  rw [e, abs_div, abs_of_pos hpos]
  apply div_le_div_of_nonneg_right _ (le_of_lt hpos)
  rw [abs_le]
  have h1 : (x : ℚ) ≤ (y : ℚ) + 15 := by exact_mod_cast hxy
  have h2 : (y : ℚ) ≤ (x : ℚ) + 15 := by exact_mod_cast hyx
  constructor <;> linarith

/-- Two bytes with the same top 4 bits are within 15 of each other. -/
theorem same_cell_near (x y : Nat) (h : x / 16 = y / 16) : x ≤ y + 15 ∧ y ≤ x + 15 := by
  omega

/-- The mean of the bucket of the uniform colour `c` in a uniform list with
one speckle `s`: the colour `c` itself when the speckle lies in another bucket,
and within `15 / n` of it in each component otherwise, `n` being the length of
the list. -/
theorem speckle_mean (a b : Nat) (c s : Nat × Nat × Nat) (hab : 2 ≤ a + b)
    (hc : c.1 < 256 ∧ c.2.1 < 256 ∧ c.2.2 < 256) (hs : s.1 < 256 ∧ s.2.1 < 256 ∧ s.2.2 < 256) :
    (pixel_key s ≠ pixel_key c →
      mean_rgb (in_bucket (List.replicate a c ++ s :: List.replicate b c) (pixel_key c))
        = ((c.1 : ℚ), (c.2.1 : ℚ), (c.2.2 : ℚ))) ∧
    (pixel_key s = pixel_key c →
      |(mean_rgb (in_bucket (List.replicate a c ++ s :: List.replicate b c) (pixel_key c))).1
        - (c.1 : ℚ)| ≤ 15 / ((a + b + 1 : Nat) : ℚ) ∧
      |(mean_rgb (in_bucket (List.replicate a c ++ s :: List.replicate b c) (pixel_key c))).2.1
        - (c.2.1 : ℚ)| ≤ 15 / ((a + b + 1 : Nat) : ℚ) ∧
      |(mean_rgb (in_bucket (List.replicate a c ++ s :: List.replicate b c) (pixel_key c))).2.2
        - (c.2.2 : ℚ)| ≤ 15 / ((a + b + 1 : Nat) : ℚ)) := by
  obtain ⟨hl, hr, hg, hb⟩ := speckle_bucket a b c s (pixel_key c)
  refine ⟨?_, ?_⟩
  · intro hk
    unfold mean_rgb
    rw [hl, hr, hg, hb]
    simp only [if_true, if_neg hk, add_zero]
    have hpos : ((a + b : Nat) : ℚ) ≠ 0 := by
      have : a + b ≠ 0 := by omega
      exact_mod_cast this
    refine Prod.ext ?_ (Prod.ext ?_ ?_)
    · show (((a + b) * c.1 : Nat) : ℚ) / ((a + b : Nat) : ℚ) = (c.1 : ℚ)
      rw [Nat.cast_mul]
      exact mul_div_cancel_left₀ _ hpos
    · show (((a + b) * c.2.1 : Nat) : ℚ) / ((a + b : Nat) : ℚ) = (c.2.1 : ℚ)
      rw [Nat.cast_mul]
      exact mul_div_cancel_left₀ _ hpos
    · show (((a + b) * c.2.2 : Nat) : ℚ) / ((a + b : Nat) : ℚ) = (c.2.2 : ℚ)
      rw [Nat.cast_mul]
      exact mul_div_cancel_left₀ _ hpos
  · intro hk
    have hkey : bucket_key s.1 s.2.1 s.2.2 = bucket_key c.1 c.2.1 c.2.2 := hk
    rw [bucket_key_eq _ _ _ hs.2.1 hs.2.2, bucket_key_eq _ _ _ hc.2.1 hc.2.2] at hkey
    have d1 : c.1 / 16 = s.1 / 16 := by omega
    have d2 : c.2.1 / 16 = s.2.1 / 16 := by omega
    have d3 : c.2.2 / 16 = s.2.2 / 16 := by omega
    unfold mean_rgb
    rw [hl, hr, hg, hb]
    simp only [if_true, if_pos hk]
    exact ⟨speckle_mean_near (a + b) c.1 s.1 (same_cell_near _ _ d1).1 (same_cell_near _ _ d1).2,
      speckle_mean_near (a + b) c.2.1 s.2.1 (same_cell_near _ _ d2).1 (same_cell_near _ _ d2).2,
      speckle_mean_near (a + b) c.2.2 s.2.2 (same_cell_near _ _ d3).1 (same_cell_near _ _ d3).2⟩

/-- The colour computed for a buffer with sides of at most 160 and three
pixels or more, none skipped for its alpha, all of the colour `c` except the
one at position `i0`, of the colour `s`: the colour `c` when `s` lies in
another bucket, and otherwise the mean of all the pixels, which lies in the
cell of `c` and within `15 / n` of `c` in each component. -/
theorem dominant_rgb_speckle (bytes : List Nat) (rbands width_r height_r : Int)
    (c s : Nat × Nat × Nat) (i0 : Nat)
    (hw : width_r ≤ 160) (hh : height_r ≤ 160)
    (hn : 3 ≤ height_r.toNat * width_r.toNat)
    (hop : rbands = 4 → ∀ i, i < height_r.toNat * width_r.toNat → 8 ≤ pixel_alpha bytes i)
    (hi0 : i0 < height_r.toNat * width_r.toNat)
    (hs : pixel_rgb bytes rbands i0 = s)
    (hc : ∀ i, i < height_r.toNat * width_r.toNat → i ≠ i0 → pixel_rgb bytes rbands i = c) :
    (c.1 < 256 ∧ c.2.1 < 256 ∧ c.2.2 < 256) ∧
    (pixel_key s ≠ pixel_key c →
      dominant_rgb bytes rbands width_r height_r = ((c.1 : ℚ), (c.2.1 : ℚ), (c.2.2 : ℚ))) ∧
    (pixel_key s = pixel_key c →
      dominant_rgb bytes rbands width_r height_r
        = ((((height_r.toNat * width_r.toNat - 1) * c.1 + s.1 : Nat) : ℚ)
            / ((height_r.toNat * width_r.toNat : Nat) : ℚ),
          (((height_r.toNat * width_r.toNat - 1) * c.2.1 + s.2.1 : Nat) : ℚ)
            / ((height_r.toNat * width_r.toNat : Nat) : ℚ),
          (((height_r.toNat * width_r.toNat - 1) * c.2.2 + s.2.2 : Nat) : ℚ)
            / ((height_r.toNat * width_r.toNat : Nat) : ℚ)) ∧
      (((16 * (c.1 / 16) : Nat) : ℚ) ≤ (dominant_rgb bytes rbands width_r height_r).1 ∧
        (dominant_rgb bytes rbands width_r height_r).1 ≤ ((16 * (c.1 / 16) + 15 : Nat) : ℚ) ∧
        |(dominant_rgb bytes rbands width_r height_r).1 - (c.1 : ℚ)|
          ≤ 15 / ((height_r.toNat * width_r.toNat : Nat) : ℚ)) ∧
      (((16 * (c.2.1 / 16) : Nat) : ℚ) ≤ (dominant_rgb bytes rbands width_r height_r).2.1 ∧
        (dominant_rgb bytes rbands width_r height_r).2.1
          ≤ ((16 * (c.2.1 / 16) + 15 : Nat) : ℚ) ∧
        |(dominant_rgb bytes rbands width_r height_r).2.1 - (c.2.1 : ℚ)|
          ≤ 15 / ((height_r.toNat * width_r.toNat : Nat) : ℚ)) ∧
      (((16 * (c.2.2 / 16) : Nat) : ℚ) ≤ (dominant_rgb bytes rbands width_r height_r).2.2 ∧
        (dominant_rgb bytes rbands width_r height_r).2.2
          ≤ ((16 * (c.2.2 / 16) + 15 : Nat) : ℚ) ∧
        |(dominant_rgb bytes rbands width_r height_r).2.2 - (c.2.2 : ℚ)|
          ≤ 15 / ((height_r.toNat * width_r.toNat : Nat) : ℚ))) := by
  have hsize : height_r.toNat * width_r.toNat < 2 ^ 32 := by
    have e1 : height_r.toNat ≤ 160 := by omega
    have e2 : width_r.toNat ≤ 160 := by omega
    calc height_r.toNat * width_r.toNat ≤ 160 * 160 := Nat.mul_le_mul e1 e2
      _ < 2 ^ 32 := by norm_num
  have hP : counted_pixels bytes rbands (height_r.toNat * width_r.toNat)
      = List.replicate i0 c
        ++ s :: List.replicate (height_r.toNat * width_r.toNat - 1 - i0) c := by
    rw [counted_pixels_all bytes rbands _ hop]
    exact map_range_speckle _ _ i0 c s hi0 hs hc
  have hne : counted_pixels bytes rbands (height_r.toNat * width_r.toNat) ≠ [] := by
    rw [hP]; simp
  obtain ⟨k, _, _, hmax, _, hm⟩ :=
    dominant_rgb_of_pixels bytes rbands width_r height_r hne
      (lt_of_le_of_lt (counted_pixels_length_le _ _ _) hsize)
  have hcl : c.1 < 256 ∧ c.2.1 < 256 ∧ c.2.2 < 256 := by
    have hj : ∃ j, j < height_r.toNat * width_r.toNat ∧ j ≠ i0 := by
      by_cases h0 : i0 = 0
      · exact ⟨1, by omega, by omega⟩
      · exact ⟨0, by omega, fun e => h0 e.symm⟩
    obtain ⟨j, hj1, hj2⟩ := hj
    rw [← hc j hj1 hj2]
    exact pixel_rgb_lt _ _ _
  have hsl : s.1 < 256 ∧ s.2.1 < 256 ∧ s.2.2 < 256 := by
    rw [← hs]
    exact pixel_rgb_lt _ _ _
  have hab : 2 ≤ i0 + (height_r.toNat * width_r.toNat - 1 - i0) := by omega
  have hnn : i0 + (height_r.toNat * width_r.toNat - 1 - i0) + 1
      = height_r.toNat * width_r.toNat := by omega
  have hn1 : i0 + (height_r.toNat * width_r.toNat - 1 - i0)
      = height_r.toNat * width_r.toNat - 1 := by omega
  rw [hP] at hm hmax
  have hk := speckle_winner i0 _ c s hab k hmax
  subst hk
  obtain ⟨hdiff, hsame⟩ := speckle_mean i0
    (height_r.toNat * width_r.toNat - 1 - i0) c s hab hcl hsl
  rw [hnn] at hsame
  refine ⟨hcl, ?_, ?_⟩
  · intro hkey
    rw [hm, hdiff hkey]
  · intro hkey
    obtain ⟨n0, n1, n2⟩ := hsame hkey
    obtain ⟨hl, hr, hg, hb⟩ := speckle_bucket i0
      (height_r.toNat * width_r.toNat - 1 - i0) c s (pixel_key c)
    simp only [if_true, if_pos hkey] at hl hr hg hb
    rw [hn1] at hr hg hb
    rw [hnn] at hl
    have hin : in_bucket (List.replicate i0 c
        ++ s :: List.replicate (height_r.toNat * width_r.toNat - 1 - i0) c)
          (pixel_key c) ≠ [] := by
      intro he
      rw [he] at hl
      simp only [List.length_nil] at hl
      omega
    have hall : ∀ p ∈ List.replicate i0 c
        ++ s :: List.replicate (height_r.toNat * width_r.toNat - 1 - i0) c,
        p.1 < 256 ∧ p.2.1 < 256 ∧ p.2.2 < 256 := by
      intro p hp
      rw [← hP] at hp
      exact counted_pixels_lt _ _ _ p hp
    obtain ⟨⟨r1, r2⟩, ⟨g1, g2⟩, ⟨b1, b2⟩⟩ := mean_rgb_cell _ (pixel_key c) hall hin
    have hkc : pixel_key c = 256 * (c.1 / 16) + 16 * (c.2.1 / 16) + c.2.2 / 16 :=
      bucket_key_eq _ _ _ hcl.2.1 hcl.2.2
    have k1 : pixel_key c / 256 = c.1 / 16 := by omega
    have k2 : pixel_key c / 16 % 16 = c.2.1 / 16 := by omega
    have k3 : pixel_key c % 16 = c.2.2 / 16 := by omega
    rw [k1] at r1 r2
    rw [k2] at g1 g2
    rw [k3] at b1 b2
    refine ⟨?_, ?_, ?_, ?_⟩
    · rw [hm]
      unfold mean_rgb
      rw [hl, hr, hg, hb]
    · rw [hm]; exact ⟨r1, r2, n0⟩
    · rw [hm]; exact ⟨g1, g2, n1⟩
    · rw [hm]; exact ⟨b1, b2, n2⟩

/-! ## The detector depends on the counted pixels only -/

/-- The result of `detect_dominant_color` when its libvips calls succeed. -/
theorem detect_dominant_color_eq (vips : Vips) (input : VipsImage) (out : isw_color)
    (resized : VipsImage) (bytes : List Nat)
    (h1 : sampled_image vips input = some resized)
    (h2 : vips.image_write_to_memory resized = some bytes) :
    detect_dominant_color vips input out =
      ⟨0, ((({ out with bands := 3 }).setComp 0
          (dominant_rgb bytes resized.bands resized.width resized.height).1).setComp 1
          (dominant_rgb bytes resized.bands resized.width resized.height).2.1).setComp 2
          (dominant_rgb bytes resized.bands resized.width resized.height).2.2, none⟩ := by
  unfold detect_dominant_color
  rw [h1]
  dsimp only
  rw [h2]

/-- Two buffers with the same counted pixels give the same colour. -/
theorem dominant_rgb_congr (b1 b2 : List Nat) (rb1 rb2 w1 h1 w2 h2 : Int)
    (h : counted_pixels b1 rb1 (h1.toNat * w1.toNat) = counted_pixels b2 rb2 (h2.toNat * w2.toNat)) :
    dominant_rgb b1 rb1 w1 h1 = dominant_rgb b2 rb2 w2 h2 := by
  rw [dominant_rgb_eq, dominant_rgb_eq, sample_pixels_eq, sample_pixels_eq, h]

/-- The colour of a pixel of a 4-band buffer. -/
theorem pixel_rgb_four (bytes : List Nat) (i : Nat) :
    pixel_rgb bytes 4 i = (byteAt bytes (i * 4), byteAt bytes (i * 4 + 1), byteAt bytes (i * 4 + 2)) := by
  unfold pixel_rgb
  have e : (4 : Int).toNat = 4 := rfl
  have g1 : (4 : Int) > 1 := by decide
  have g2 : (4 : Int) > 2 := by decide
  rw [e, if_pos g1, if_pos g2]

/-- Two 4-band buffers that agree on the colour of the pixels with alpha of 8
or more, and have alpha below 8 at the same positions, have the same counted
pixels. -/
theorem counted_pixels_agree (b1 b2 : List Nat) (n : Nat)
    (h : ∀ i, i < n →
      (8 ≤ pixel_alpha b1 i ∧ 8 ≤ pixel_alpha b2 i ∧ pixel_rgb b1 4 i = pixel_rgb b2 4 i) ∨
      (pixel_alpha b1 i < 8 ∧ pixel_alpha b2 i < 8)) :
    counted_pixels b1 4 n = counted_pixels b2 4 n := by
  unfold counted_pixels
  have hf : (List.range n).filter (pixel_counted b1 4) = (List.range n).filter (pixel_counted b2 4) := by
    apply List.filter_congr
    intro i hi
    rw [List.mem_range] at hi
    rw [pixel_counted_four, pixel_counted_four]
    rcases h i hi with ⟨h1, h2, _⟩ | ⟨h1, h2⟩
    · rw [decide_eq_true h1, decide_eq_true h2]
    · rw [decide_eq_false (by omega), decide_eq_false (by omega)]
  rw [hf]
  apply List.map_congr_left
  intro i hi
  rw [List.mem_filter, List.mem_range, pixel_counted_four, decide_eq_true_eq] at hi
  rcases h i hi.1 with ⟨_, _, h3⟩ | ⟨_, h2⟩
  · exact h3
  · omega

theorem byteAt_cons (a : Nat) (l : List Nat) (k : Nat) : byteAt (a :: l) (k + 1) = byteAt l k := by
  unfold byteAt
  simp

/-- The counted pixels of a buffer laid out from a list of pixels. -/
theorem counted_pixels_buffer_of (l : List (Nat × Nat × Nat × Nat))
    (hl : ∀ p ∈ l, p.1 < 256 ∧ p.2.1 < 256 ∧ p.2.2.1 < 256 ∧ p.2.2.2 < 256) :
    counted_pixels (buffer_of l) 4 l.length
      = (l.filter fun p => decide (8 ≤ p.2.2.2)).map fun p => (p.1, p.2.1, p.2.2.1) := by
  induction l with
  | nil => rfl
  | cons p ps ih =>
    have ih2 := ih (fun q hq => hl q (List.mem_cons_of_mem _ hq))
    obtain ⟨p1, p2, p3, p4⟩ := hl p (List.mem_cons_self _ _)
    have hshift : ∀ i j, j < 4 →
        byteAt (buffer_of (p :: ps)) ((i + 1) * 4 + j) = byteAt (buffer_of ps) (i * 4 + j) := by
      intro i j _
      have e : (i + 1) * 4 + j = (i * 4 + j) + 1 + 1 + 1 + 1 := by ring
      rw [e]
      show byteAt (p.1 :: p.2.1 :: p.2.2.1 :: p.2.2.2 :: buffer_of ps) _ = _
      rw [byteAt_cons, byteAt_cons, byteAt_cons, byteAt_cons]
    have hc : ∀ i, pixel_counted (buffer_of (p :: ps)) 4 (i + 1)
        = pixel_counted (buffer_of ps) 4 i := by
      intro i
      rw [pixel_counted_four, pixel_counted_four]
      unfold pixel_alpha
      rw [hshift i 3 (by omega)]
    have hr : ∀ i, pixel_rgb (buffer_of (p :: ps)) 4 (i + 1) = pixel_rgb (buffer_of ps) 4 i := by
      intro i
      rw [pixel_rgb_four, pixel_rgb_four]
      have h0 := hshift i 0 (by omega)
      rw [hshift i 1 (by omega), hshift i 2 (by omega)]
      simp only [add_zero] at h0
      rw [h0]
    have h00 : byteAt (buffer_of (p :: ps)) 0 = p.1 := by
      show p.1 % 256 = p.1
      exact Nat.mod_eq_of_lt p1
    have h01 : byteAt (buffer_of (p :: ps)) 1 = p.2.1 := by
      show p.2.1 % 256 = p.2.1
      exact Nat.mod_eq_of_lt p2
    have h02 : byteAt (buffer_of (p :: ps)) 2 = p.2.2.1 := by
      show p.2.2.1 % 256 = p.2.2.1
      exact Nat.mod_eq_of_lt p3
    have h03 : byteAt (buffer_of (p :: ps)) 3 = p.2.2.2 := by
      show p.2.2.2 % 256 = p.2.2.2
      exact Nat.mod_eq_of_lt p4
    have hc0 : pixel_counted (buffer_of (p :: ps)) 4 0 = decide (8 ≤ p.2.2.2) := by
      rw [pixel_counted_four]
      unfold pixel_alpha
      simp only [Nat.zero_mul, Nat.zero_add]
      rw [h03]
    have hr0 : pixel_rgb (buffer_of (p :: ps)) 4 0 = (p.1, p.2.1, p.2.2.1) := by
      rw [pixel_rgb_four]
      simp only [Nat.zero_mul, Nat.zero_add]
      rw [h00, h01, h02]
    have hrest : ((List.map Nat.succ (List.range ps.length)).filter
          (pixel_counted (buffer_of (p :: ps)) 4)).map (pixel_rgb (buffer_of (p :: ps)) 4)
        = counted_pixels (buffer_of ps) 4 ps.length := by
      unfold counted_pixels
      rw [List.filter_map, List.map_map]
      have e1 : (pixel_counted (buffer_of (p :: ps)) 4 ∘ Nat.succ)
          = pixel_counted (buffer_of ps) 4 := funext hc
      have e2 : (pixel_rgb (buffer_of (p :: ps)) 4 ∘ Nat.succ)
          = pixel_rgb (buffer_of ps) 4 := funext hr
      rw [e1, e2]
    conv_lhs => unfold counted_pixels
    rw [List.length_cons, List.range_succ_eq_map, List.filter_cons, hc0]
    by_cases h8 : 8 ≤ p.2.2.2
    · rw [decide_eq_true h8]
      simp only [if_true, List.map_cons, List.filter_cons, decide_eq_true h8]
      rw [hr0, hrest, ih2]
    · rw [decide_eq_false h8]
      simp only [Bool.false_eq_true, if_false, List.filter_cons, decide_eq_false h8]
      rw [hrest, ih2]

/-- Removing the pixels with alpha below 8 from a 4-band buffer leaves its
counted pixels as they were. -/
theorem counted_pixels_opaque (bytes : List Nat) (n : Nat) :
    counted_pixels (buffer_of (opaque_pixels bytes n)) 4 (opaque_pixels bytes n).length
      = counted_pixels bytes 4 n := by
  rw [counted_pixels_buffer_of]
  · unfold opaque_pixels counted_pixels
    have hall : ∀ l : List Nat, (∀ i ∈ l, 8 ≤ pixel_alpha bytes i) →
        ((l.map fun i => (byteAt bytes (i * 4), byteAt bytes (i * 4 + 1),
            byteAt bytes (i * 4 + 2), pixel_alpha bytes i)).filter
              fun p => decide (8 ≤ p.2.2.2)).map (fun p => (p.1, p.2.1, p.2.2.1))
          = l.map (pixel_rgb bytes 4) := by
      intro l hl
      induction l with
      | nil => rfl
      | cons a as ih =>
        have ha : 8 ≤ pixel_alpha bytes a := hl a (List.mem_cons_self _ _)
        rw [List.map_cons, List.filter_cons]
        simp only [decide_eq_true ha, if_true, List.map_cons]
        rw [ih (fun i hi => hl i (List.mem_cons_of_mem _ hi)), pixel_rgb_four]
    have hfe : (List.range n).filter (pixel_counted bytes 4)
        = (List.range n).filter fun i => decide (8 ≤ pixel_alpha bytes i) := by
      apply List.filter_congr
      intro i _
      exact pixel_counted_four bytes i
    rw [hfe]
    apply hall
    intro i hi
    rw [List.mem_filter, decide_eq_true_eq] at hi
    exact hi.2
  · intro p hp
    unfold opaque_pixels at hp
    rw [List.mem_map] at hp
    obtain ⟨i, _, rfl⟩ := hp
    exact ⟨byteAt_lt _ _, byteAt_lt _ _, byteAt_lt _ _, byteAt_lt _ _⟩

/-! ## Lemmas about the command line -/

/-- The model of `strcmp` returns 0 exactly when the two C strings are equal. -/
theorem strcmp_eq_zero_iff (s t : List Char) : strcmp s t = 0 ↔ cstr s = cstr t := by
  have hnul : NUL.toNat = 0 := by decide
  have hne : ∀ c : Char, c ≠ NUL → c.toNat ≠ 0 := by
    intro c hc h0
    exact hc (char_toNat_inj c NUL (by rw [h0, hnul]))
  induction s generalizing t with
  | nil =>
    cases t with
    | nil => simp [strcmp]
    | cons b bs =>
      simp only [strcmp, cstr_nil, cstr_cons]
      by_cases hb : b = NUL
      · simp [hb]
      · have := hne b hb
        simp only [if_neg hb]
        constructor
        · intro h; omega
        · intro h; cases h
  | cons a as ih =>
    cases t with
    | nil =>
      simp only [strcmp, cstr_nil, cstr_cons]
      by_cases ha : a = NUL
      · simp [ha]
      · have := hne a ha
        simp only [if_neg ha]
        constructor
        · intro h; omega
        · intro h; cases h
    | cons b bs =>
      simp only [strcmp, cstr_cons]
      by_cases hab : a = b
      · subst hab
        by_cases ha : a = NUL
        · simp [ha]
        · simp only [ne_eq, not_true_eq_false, if_false, if_neg ha, List.cons.injEq, true_and]
          exact ih bs
      · have hn : a.toNat ≠ b.toNat := fun h => hab (char_toNat_inj a b h)
        simp only [ne_eq, hab, not_false_eq_true, if_true]
        constructor
        · intro h; omega
        · intro h
          exfalso
          by_cases ha : a = NUL
          · by_cases hb : b = NUL
            · exact hab (by rw [ha, hb])
            · simp [ha, hb] at h
          · by_cases hb : b = NUL
            · simp [ha, hb] at h
            · simp [ha, hb] at h
              exact hab h.1

/-- An extension is supported exactly when it is one of the nine names. -/
theorem is_supported_extension_iff (e : List Char) :
    is_supported_extension (some e) = true ↔ cstr e ∈ supported := by
  unfold is_supported_extension supported
  simp only [List.any_cons, List.any_nil, Bool.or_false, Bool.or_eq_true, decide_eq_true_eq,
    strcmp_eq_zero_iff, List.mem_cons, List.mem_singleton, List.not_mem_nil, or_false]
  have h1 : cstr "jpg".toList = "jpg".toList := by decide
  have h2 : cstr "jpeg".toList = "jpeg".toList := by decide
  have h3 : cstr "png".toList = "png".toList := by decide
  have h4 : cstr "webp".toList = "webp".toList := by decide
  have h5 : cstr "heic".toList = "heic".toList := by decide
  have h6 : cstr "heif".toList = "heif".toList := by decide
  have h7 : cstr "tif".toList = "tif".toList := by decide
  have h8 : cstr "tiff".toList = "tiff".toList := by decide
  have h9 : cstr "avif".toList = "avif".toList := by decide
  rw [h1, h2, h3, h4, h5, h6, h7, h8, h9]

/-- An extension supports alpha exactly when it is one of the seven names. -/
theorem extension_supports_alpha_iff (e : List Char) :
    extension_supports_alpha (some e) = true ↔ cstr e ∈ alpha_exts := by
  unfold extension_supports_alpha alpha_exts
  simp only [List.any_cons, List.any_nil, Bool.or_false, Bool.or_eq_true, decide_eq_true_eq,
    strcmp_eq_zero_iff, List.mem_cons, List.mem_singleton, List.not_mem_nil, or_false]
  have h3 : cstr "png".toList = "png".toList := by decide
  have h4 : cstr "webp".toList = "webp".toList := by decide
  have h5 : cstr "heic".toList = "heic".toList := by decide
  have h6 : cstr "heif".toList = "heif".toList := by decide
  have h7 : cstr "tif".toList = "tif".toList := by decide
  have h8 : cstr "tiff".toList = "tiff".toList := by decide
  have h9 : cstr "avif".toList = "avif".toList := by decide
  rw [h3, h4, h5, h6, h7, h8, h9]

/-- The alpha-capable names are the supported names other than jpg and jpeg. -/
theorem alpha_exts_iff (x : List Char) :
    x ∈ alpha_exts ↔ x ∈ supported ∧ x ≠ "jpg".toList ∧ x ≠ "jpeg".toList := by
  constructor
  · intro h
    refine ⟨?_, ?_, ?_⟩
    · unfold alpha_exts at h
      unfold supported
      simp only [List.mem_cons, List.mem_singleton, List.not_mem_nil, or_false] at h ⊢
      tauto
    · intro hx
      rw [hx] at h
      revert h
      decide
    · intro hx
      rw [hx] at h
      revert h
      decide
  · rintro ⟨h, h1, h2⟩
    unfold supported at h
    unfold alpha_exts
    simp only [List.mem_cons, List.mem_singleton, List.not_mem_nil, or_false] at h ⊢
    tauto

/-! ## The colour is stored only on success -/

/-- A failed `parse_hex_triplet` leaves the caller's colour alone. -/
theorem parse_hex_triplet_frame (spec : List Char) (out : isw_color)
    (h : (parse_hex_triplet spec out).ret = false) : (parse_hex_triplet spec out).out = out := by
  unfold parse_hex_triplet at h ⊢
  dsimp only at h ⊢
  by_cases hl : strlen spec ≠ 4 ∧ strlen spec ≠ 5 ∧ strlen spec ≠ 7 ∧ strlen spec ≠ 9
  · rw [if_pos hl]
  · rw [if_neg hl] at h ⊢
    generalize parse_hex_loop spec (if strlen spec = 4 ∨ strlen spec = 5 then 1 else 2) 0
        (if strlen spec = 4 ∨ strlen spec = 7 then 3 else 4) = res at h ⊢
    cases res with
    | none => rfl
    | some comps => cases h

/-- A failed `parse_csv` leaves the caller's colour alone. -/
theorem parse_csv_frame (strtod : List Char → StrtodResult) (spec : List Char) (out : isw_color)
    (h : (parse_csv strtod spec out).ret = false) : (parse_csv strtod spec out).out = out := by
  unfold parse_csv at h ⊢
  generalize parse_csv_loop strtod 4 spec [] = res at h ⊢
  cases res with
  | error e => rfl
  | ok comps =>
    dsimp only at h ⊢
    by_cases hc : comps.length ≠ 3 ∧ comps.length ≠ 4
    · rw [if_pos hc]
    · rw [if_neg hc] at h
      cases h

/-! ## Lemmas about rounding to a double -/

theorem round_half_even_cases (y : ℚ) :
    (round_half_even y = ⌊y⌋ ∧ y - ⌊y⌋ ≤ 1 / 2) ∨
    (round_half_even y = ⌊y⌋ + 1 ∧ 1 / 2 ≤ y - ⌊y⌋) := by
  unfold round_half_even
  split_ifs with h1 h2 h3
  · exact Or.inl ⟨rfl, le_of_lt h1⟩
  · exact Or.inr ⟨rfl, le_of_lt h2⟩
  · exact Or.inl ⟨rfl, not_lt.mp h2⟩
  · exact Or.inr ⟨rfl, not_lt.mp h1⟩

/-- Rounding stays between the integers that enclose the number. -/
theorem round_half_even_mem (y : ℚ) (a b : Int) (ha : (a : ℚ) ≤ y) (hb : y ≤ (b : ℚ)) :
    a ≤ round_half_even y ∧ round_half_even y ≤ b := by
  have hfa : a ≤ ⌊y⌋ := Int.le_floor.mpr ha
  have hfb : ⌊y⌋ ≤ b := by
    have : (⌊y⌋ : ℚ) ≤ (b : ℚ) := le_trans (Int.floor_le y) hb
    exact_mod_cast this
  rcases round_half_even_cases y with ⟨h, _⟩ | ⟨h, hf⟩
  · rw [h]; exact ⟨hfa, hfb⟩
  · rw [h]
    refine ⟨by omega, ?_⟩
    have hlt : (⌊y⌋ : ℚ) < (b : ℚ) := by linarith
    have : ⌊y⌋ < b := by exact_mod_cast hlt
    omega

/-- Rounding moves a number by at most one half. -/
theorem round_half_even_near (y : ℚ) : |(round_half_even y : ℚ) - y| ≤ 1 / 2 := by
  have h1 := Int.floor_le y
  have h2 := Int.lt_floor_add_one y
  rw [abs_le]
  rcases round_half_even_cases y with ⟨h, hf⟩ | ⟨h, hf⟩
  · rw [h]; constructor <;> linarith
  · rw [h]; push_cast; constructor <;> linarith

/-- The exponent `to_double` uses for a positive number below `2 ^ (n + 1)`
is at most `n`, for `n` from -1022 on. -/
theorem double_exponent_le (x : ℚ) (hx : 0 < x) (n : Int) (hn : -1022 ≤ n)
    (hlt : x < 2 ^ (n + 1)) : max (Int.log 2 x) (-1022) ≤ n := by
  have hlog : Int.log 2 x < n + 1 := by
    have h := (Int.lt_zpow_iff_log_lt (R := ℚ) (b := 2) (by norm_num) hx (x := n + 1)).mp
      (by exact_mod_cast hlt)
    exact h
  exact max_le (by omega) hn

/-- A number between two natural numbers below `2 ^ 53` rounds to a double
between them. -/
theorem to_double_mem (x : ℚ) (a b : Nat) (hb : b < 2 ^ 53) (hax : (a : ℚ) ≤ x)
    (hxb : x ≤ (b : ℚ)) : (a : ℚ) ≤ to_double x ∧ to_double x ≤ (b : ℚ) := by
  unfold to_double
  by_cases h0 : x = 0
  · rw [if_pos h0]
    rw [h0] at hax hxb
    exact ⟨hax, hxb⟩
  · rw [if_neg h0]
    have ha0 : (0 : ℚ) ≤ (a : ℚ) := Nat.cast_nonneg a
    have hx : 0 < x := lt_of_le_of_ne (le_trans ha0 hax) (Ne.symm h0)
    have hb53 : (b : ℚ) < 2 ^ ((52 : Int) + 1) := by
      have : (b : ℚ) < (2 ^ 53 : Nat) := by exact_mod_cast hb
      norm_num at this ⊢
      exact this
    have he : max (Int.log 2 x) (-1022) ≤ 52 :=
      double_exponent_le x hx 52 (by norm_num) (lt_of_le_of_lt hxb hb53)
    rw [abs_of_pos hx]
    dsimp only
    generalize max (Int.log 2 x) (-1022) = e at he ⊢
    obtain ⟨k, hk⟩ : ∃ k : Nat, e - 52 = -(k : Int) := ⟨(52 - e).toNat, by omega⟩
    rw [hk, zpow_neg, zpow_natCast]
    have hpos : (0 : ℚ) < 2 ^ k := by positivity
    have hy : x / (2 ^ k)⁻¹ = x * 2 ^ k := by field_simp
    rw [hy]
    have hA : (((a * 2 ^ k : Nat) : Int) : ℚ) ≤ x * 2 ^ k := by
      push_cast
      exact mul_le_mul_of_nonneg_right hax (le_of_lt hpos)
    have hB : x * 2 ^ k ≤ (((b * 2 ^ k : Nat) : Int) : ℚ) := by
      push_cast
      exact mul_le_mul_of_nonneg_right hxb (le_of_lt hpos)
    obtain ⟨r1, r2⟩ := round_half_even_mem _ _ _ hA hB
    have q1 : (((a * 2 ^ k : Nat) : Int) : ℚ) ≤ (round_half_even (x * 2 ^ k) : ℚ) := by
      exact_mod_cast r1
    have q2 : (round_half_even (x * 2 ^ k) : ℚ) ≤ (((b * 2 ^ k : Nat) : Int) : ℚ) := by
      exact_mod_cast r2
    push_cast at q1 q2
    constructor
    · rw [le_mul_inv_iff₀ hpos]
      exact q1
    · rw [mul_inv_le_iff₀ hpos]
      exact q2

/-- A natural number below `2 ^ 53` is a double. -/
theorem to_double_natCast (n : Nat) (hn : n < 2 ^ 53) : to_double (n : ℚ) = (n : ℚ) := by
  obtain ⟨h1, h2⟩ := to_double_mem (n : ℚ) n n hn le_rfl le_rfl
  exact le_antisymm h2 h1

/-- Rounding a number from 0 up to 256 to a double moves it by at most
`2 ^ (-46)`. -/
theorem to_double_near (x : ℚ) (h0 : 0 ≤ x) (hx : x < 256) :
    |to_double x - x| ≤ 1 / 2 ^ 46 := by
  unfold to_double
  by_cases hz : x = 0
  · rw [if_pos hz, hz]
    norm_num
  · rw [if_neg hz]
    have hpos : 0 < x := lt_of_le_of_ne h0 (Ne.symm hz)
    have hlt : x < 2 ^ ((7 : Int) + 1) := by norm_num; exact hx
    have he : max (Int.log 2 x) (-1022) ≤ 7 := double_exponent_le x hpos 7 (by norm_num) hlt
    rw [abs_of_pos hpos]
    dsimp only
    generalize max (Int.log 2 x) (-1022) = e at he ⊢
    have hu : (0 : ℚ) < 2 ^ (e - 52) := zpow_pos (by norm_num) _
    have hu2 : (2 : ℚ) ^ (e - 52) ≤ 2 ^ ((7 : Int) - 52) :=
      zpow_le_zpow_right₀ (by norm_num) (by omega)
    have hu3 : (2 : ℚ) ^ ((7 : Int) - 52) = 1 / 2 ^ 45 := by norm_num
    have hy := round_half_even_near (x / 2 ^ (e - 52))
    have heq : (round_half_even (x / 2 ^ (e - 52)) : ℚ) * 2 ^ (e - 52) - x
        = ((round_half_even (x / 2 ^ (e - 52)) : ℚ) - x / 2 ^ (e - 52)) * 2 ^ (e - 52) := by
      field_simp
    rw [heq, abs_mul, abs_of_pos hu]
    calc |(round_half_even (x / 2 ^ (e - 52)) : ℚ) - x / 2 ^ (e - 52)| * 2 ^ (e - 52)
        ≤ 1 / 2 * 2 ^ (e - 52) := mul_le_mul_of_nonneg_right hy (le_of_lt hu)
      _ ≤ 1 / 2 * (1 / 2 ^ 45) := by
          rw [← hu3]
          exact mul_le_mul_of_nonneg_left hu2 (by norm_num)
      _ = 1 / 2 ^ 46 := by norm_num

/-- The double a positive number rounds to when it lies above the middle of
two neighbouring doubles. -/
theorem to_double_up (x : ℚ) (e q : Int) (he : -1022 ≤ e) (h1 : 2 ^ e ≤ x) (h2 : x < 2 ^ (e + 1))
    (hq1 : (q : ℚ) + 1 / 2 < x / 2 ^ (e - 52)) (hq2 : x / 2 ^ (e - 52) < (q : ℚ) + 1) :
    to_double x = ((q : ℚ) + 1) * 2 ^ (e - 52) := by
  have hx : 0 < x := lt_of_lt_of_le (zpow_pos (by norm_num) e) h1
  have hlog : Int.log 2 x = e := by
    have a1 : e ≤ Int.log 2 x :=
      (Int.zpow_le_iff_le_log (R := ℚ) (b := 2) (by norm_num) hx).mp (by exact_mod_cast h1)
    have a2 : Int.log 2 x < e + 1 :=
      (Int.lt_zpow_iff_log_lt (R := ℚ) (b := 2) (by norm_num) hx).mp (by exact_mod_cast h2)
    omega
  unfold to_double
  rw [if_neg (ne_of_gt hx), abs_of_pos hx, hlog, max_eq_left he]
  dsimp only
  have hfl : ⌊x / 2 ^ (e - 52)⌋ = q := by
    rw [Int.floor_eq_iff]
    exact ⟨by linarith, hq2⟩
  have hr : round_half_even (x / 2 ^ (e - 52)) = q + 1 := by
    unfold round_half_even
    rw [hfl]
    have c1 : ¬ (x / 2 ^ (e - 52) - (q : ℚ) < 1 / 2) := by linarith
    have c2 : 1 / 2 < x / 2 ^ (e - 52) - (q : ℚ) := by linarith
    rw [if_neg c1, if_pos c2]
  rw [hr]
  push_cast
  rfl

/-- A positive number that is a multiple of the spacing of the doubles around
it is a double. -/
theorem to_double_exact (x : ℚ) (e m : Int) (he : -1022 ≤ e) (h1 : 2 ^ e ≤ x)
    (h2 : x < 2 ^ (e + 1)) (hm : x / 2 ^ (e - 52) = (m : ℚ)) : to_double x = x := by
  have hx : 0 < x := lt_of_lt_of_le (zpow_pos (by norm_num) e) h1
  have hlog : Int.log 2 x = e := by
    have a1 : e ≤ Int.log 2 x :=
      (Int.zpow_le_iff_le_log (R := ℚ) (b := 2) (by norm_num) hx).mp (by exact_mod_cast h1)
    have a2 : Int.log 2 x < e + 1 :=
      (Int.lt_zpow_iff_log_lt (R := ℚ) (b := 2) (by norm_num) hx).mp (by exact_mod_cast h2)
    omega
  unfold to_double
  rw [if_neg (ne_of_gt hx), abs_of_pos hx, hlog, max_eq_left he]
  dsimp only
  have hr : round_half_even (x / 2 ^ (e - 52)) = m := by
    unfold round_half_even
    rw [hm, Int.floor_intCast]
    have c1 : ((m : ℚ) - (m : ℚ) < 1 / 2) := by norm_num
    rw [if_pos c1]
  have hu : (2 : ℚ) ^ (e - 52) ≠ 0 := ne_of_gt (zpow_pos (by norm_num) _)
  rw [hr, ← hm]
  field_simp

/-! ## Lemmas about the detector and the resolver in double arithmetic -/

/-- The colour computed in double arithmetic is the colour computed exactly,
rounded to a double component by component. -/
theorem dominant_rgb_ieee_eq (bytes : List Nat) (rbands width_r height_r : Int) :
    dominant_rgb_ieee bytes rbands width_r height_r =
      (to_double (dominant_rgb bytes rbands width_r height_r).1,
        to_double (dominant_rgb bytes rbands width_r height_r).2.1,
        to_double (dominant_rgb bytes rbands width_r height_r).2.2) := by
  have h128 : to_double 128 = 128 := by
    have h := to_double_natCast 128 (by norm_num)
    norm_num at h
    exact h
  unfold dominant_rgb_ieee dominant_rgb
  dsimp only
  split_ifs with hc
  · simp only [h128]
  · rfl

/-- The result of `detect_dominant_color` in double arithmetic when its
libvips calls succeed. -/
theorem detect_dominant_color_ieee_of_buffer (vips : Vips) (input : VipsImage)
    (out : isw_color_ieee) (resized : VipsImage) (bytes : List Nat)
    (h1 : sampled_image vips input = some resized)
    (h2 : vips.image_write_to_memory resized = some bytes) :
    (detect_dominant_color_ieee vips input out).ret = 0 ∧
    (detect_dominant_color_ieee vips input out).err_msg = none ∧
    (detect_dominant_color_ieee vips input out).out.bands = 3 ∧
    (detect_dominant_color_ieee vips input out).out.comps 0
      = .finite (to_double (dominant_rgb bytes resized.bands resized.width resized.height).1) ∧
    (detect_dominant_color_ieee vips input out).out.comps 1
      = .finite (to_double (dominant_rgb bytes resized.bands resized.width resized.height).2.1) ∧
    (detect_dominant_color_ieee vips input out).out.comps 2
      = .finite (to_double (dominant_rgb bytes resized.bands resized.width resized.height).2.2) ∧
    (detect_dominant_color_ieee vips input out).out.comps 3 = out.comps 3 := by
  have hd : detect_dominant_color_ieee vips input out =
      ⟨0, ((({ out with bands := 3 }).setComp 0
          (.finite (dominant_rgb_ieee bytes resized.bands resized.width resized.height).1)).setComp
          1 (.finite (dominant_rgb_ieee bytes resized.bands resized.width resized.height).2.1)).setComp
          2 (.finite (dominant_rgb_ieee bytes resized.bands resized.width resized.height).2.2),
        none⟩ := by
    unfold detect_dominant_color_ieee
    rw [h1]
    dsimp only
    rw [h2]
  rw [hd, dominant_rgb_ieee_eq]
  generalize dominant_rgb bytes resized.bands resized.width resized.height = rgb
  refine ⟨rfl, rfl, rfl, ?_, ?_, ?_, ?_⟩ <;> simp [isw_color_ieee.setComp]

/-- A successful detection started from the zero colour stores no NaN and no
infinity. -/
theorem detect_dominant_color_ieee_finite (vips : Vips) (input : VipsImage)
    (h : (detect_dominant_color_ieee vips input isw_color_ieee.zero).ret = 0) (i : Fin 4) :
    ∃ q, (detect_dominant_color_ieee vips input isw_color_ieee.zero).out.comps i = .finite q := by
  unfold detect_dominant_color_ieee at h ⊢
  cases h1 : sampled_image vips input with
  | none => rw [h1] at h; simp at h
  | some resized =>
    rw [h1] at h
    dsimp only at h ⊢
    cases h2 : vips.image_write_to_memory resized with
    | none => rw [h2] at h; simp at h
    | some bytes =>
      dsimp only
      simp only [isw_color_ieee.setComp, isw_color_ieee.zero]
      split_ifs <;> exact ⟨_, rfl⟩

theorem clamp_component_ieee_nan : clamp_component_ieee .nan = .nan := rfl

theorem clamp_component_ieee_inf (negative : Bool) :
    clamp_component_ieee (.inf negative) = .finite (if negative then 0 else 255) := by
  cases negative <;> rfl

/-- On a finite double `clamp_color` acts as on the number it holds. -/
theorem clamp_component_ieee_finite (q : ℚ) :
    clamp_component_ieee (.finite q) = .finite (clamp_component q) := by
  unfold clamp_component_ieee clamp_component
  by_cases h0 : q < 0
  · have h255 : ¬ ((255 : ℚ) < 0) := by norm_num
    simp [double.lt, h0, h255]
  · by_cases h1 : 255 < q
    · simp [double.lt, h0, h1]
    · simp [double.lt, h0, h1]

/-- A clamped component is a NaN, when the component was one, or a number
from 0 to 255. -/
theorem clamp_component_ieee_cases (x : double) :
    (x = .nan ∧ clamp_component_ieee x = .nan) ∨
    (x ≠ .nan ∧ ∃ q, clamp_component_ieee x = .finite q ∧ 0 ≤ q ∧ q ≤ 255) := by
  cases x with
  | nan => exact Or.inl ⟨rfl, rfl⟩
  | inf negative =>
    right
    refine ⟨(fun h => by cases h), _, clamp_component_ieee_inf negative, ?_, ?_⟩
    · cases negative <;> norm_num
    · cases negative <;> norm_num
  | finite q =>
    right
    exact ⟨(fun h => by cases h), _, clamp_component_ieee_finite q,
      (clamp_component_mem q).1, (clamp_component_mem q).2⟩

theorem clamp_color_ieee_comps (c : isw_color_ieee) (i : Fin 4) :
    (clamp_color_ieee c).comps i =
      if (i.val : Int) < c.bands then clamp_component_ieee (c.comps i) else c.comps i := rfl

/-- Every colour the resolver section returns is a clamped colour; in
automatic and in transparent mode it is the clamped form of a colour without
NaN, and in manual mode of the manual colour, widened with the opacity 255 or
not. -/
theorem resolve_background_ieee_clamped (vips : Vips) (opts : isw_options_ieee)
    (prepared img : VipsImage) (bg : isw_color_ieee)
    (h : resolve_background_ieee vips opts prepared = .ok (bg, img)) :
    ∃ c, bg = clamp_color_ieee c ∧
      ∀ i, c.comps i = .nan →
        opts.background_mode = .ISW_BG_MANUAL ∧ opts.manual_color.comps i = .nan := by
  unfold resolve_background_ieee select_background_ieee at h
  cases hm : opts.background_mode with
  | ISW_BG_TRANSPARENT =>
    simp only [hm, true_and] at h
    split at h
    · cases h
    · simp only [Except.ok.injEq, Prod.mk.injEq] at h
      refine ⟨_, h.1.symm, ?_⟩
      intro i hi
      exfalso
      simp only [isw_color_ieee.setComp, isw_color_ieee.zero] at hi
      split_ifs at hi
  | ISW_BG_MANUAL =>
    simp only [hm] at h
    have hne : ¬ (isw_background_mode.ISW_BG_MANUAL = .ISW_BG_TRANSPARENT ∧
        ¬ prepared.hasalpha = true) := fun h2 => by cases h2.1
    simp only [if_neg hne] at h
    split_ifs at h
    · split at h
      · cases h
      · simp only [Except.ok.injEq, Prod.mk.injEq] at h
        exact ⟨_, h.1.symm, fun i hi => ⟨rfl, hi⟩⟩
    · simp only [Except.ok.injEq, Prod.mk.injEq] at h
      refine ⟨_, h.1.symm, ?_⟩
      intro i hi
      simp only [isw_color_ieee.setComp] at hi
      split_ifs at hi
      exact ⟨rfl, hi⟩
    · simp only [Except.ok.injEq, Prod.mk.injEq] at h
      exact ⟨_, h.1.symm, fun i hi => ⟨rfl, hi⟩⟩
  | ISW_BG_AUTO =>
    simp only [hm] at h
    have hne : ¬ (isw_background_mode.ISW_BG_AUTO = .ISW_BG_TRANSPARENT ∧
        ¬ prepared.hasalpha = true) := fun h2 => by cases h2.1
    by_cases hd : (detect_dominant_color_ieee vips prepared isw_color_ieee.zero).ret = 0
    · have hd2 : ¬ (detect_dominant_color_ieee vips prepared isw_color_ieee.zero).ret ≠ 0 :=
        fun h => h hd
      simp only [if_neg hd2, if_neg hne] at h
      split_ifs at h
      · simp only [Except.ok.injEq, Prod.mk.injEq] at h
        refine ⟨_, h.1.symm, ?_⟩
        intro i hi
        exfalso
        simp only [isw_color_ieee.setComp] at hi
        split_ifs at hi
        obtain ⟨q, hq⟩ := detect_dominant_color_ieee_finite vips prepared hd i
        rw [hq] at hi
        cases hi
      · simp only [Except.ok.injEq, Prod.mk.injEq] at h
        refine ⟨_, h.1.symm, ?_⟩
        intro i hi
        exfalso
        obtain ⟨q, hq⟩ := detect_dominant_color_ieee_finite vips prepared hd i
        rw [hq] at hi
        cases hi
    · simp only [if_pos hd] at h
      cases h

/-! ## The model `strtod_fraction` on the numbers of the spec "1.5,2,3" -/

/-- The model `strtod_fraction` reads "1.5" as the number 3/2. -/
theorem strtod_fraction_reads_one_half :
    ReadsNumber strtod_fraction "1.5".toList ∧
    (strtod_fraction "1.5".toList).val = 3 / 2 ∧ (strtod_fraction "1.5".toList).errno = 0 := by
  have hx : ((decimalValue "1".toList : ℚ) + (decimalValue "5".toList : ℚ) / 10 ^ 1)
      = 3 / 2 := by
    have e1 : decimalValue "1".toList = 1 := by decide
    have e5 : decimalValue "5".toList = 5 := by decide
    rw [e1, e5]
    norm_num
  have hval : (strtod_fraction "1.5".toList).val = 3 / 2 := by
    show to_double ((decimalValue "1".toList : ℚ) + (decimalValue "5".toList : ℚ) / 10 ^ 1)
      = 3 / 2
    rw [hx]
    exact to_double_exact (3 / 2) 0 (3 * 2 ^ 51) (by norm_num) (by norm_num) (by norm_num)
      (by norm_num)
  have herr : (strtod_fraction "1.5".toList).errno = 0 := by
    show (if (DBL_OVERFLOW : ℚ) ≤ (decimalValue "1".toList : ℚ)
      + (decimalValue "5".toList : ℚ) / 10 ^ 1 then ERANGE else 0) = 0
    rw [hx]
    have hno : ¬ ((DBL_OVERFLOW : ℚ) ≤ 3 / 2) := by
      have h := DBL_OVERFLOW_gt
      have h2 : (255 : ℚ) < (DBL_OVERFLOW : ℚ) := by exact_mod_cast h
      intro h3
      linarith
    rw [if_neg hno]
  refine ⟨⟨by decide, by decide, ?_⟩, hval, herr⟩
  intro rest hrest
  rcases hrest with rfl | ⟨u, rfl⟩
  · exact ⟨rfl, rfl, rfl⟩
  · exact ⟨rfl, rfl, rfl⟩

/-- The model `strtod_fraction` reads a literal made of one digit as its
value. -/
theorem strtod_fraction_reads_digit (d : Char) (n : Nat) (hd : d.isDigit = true)
    (hn : decimalValue [d] = n) (hlt : n < 10) :
    ReadsNumber strtod_fraction [d] ∧
    (strtod_fraction [d]).val = (n : ℚ) ∧ (strtod_fraction [d]).errno = 0 := by
  have hdash : d ≠ '-' := by
    rintro rfl
    exact absurd hd (by decide)
  have hnul : d ≠ NUL := by
    rintro rfl
    exact absurd hd (by decide)
  have hneg : ∀ r : List Char, isNegative (d :: r) = false := by
    intro r
    unfold isNegative
    simp only [List.head?_cons, Option.some.injEq, decide_eq_false_iff_not]
    exact hdash
  have hx0 : (n : ℚ) + ((0 : Nat) : ℚ) / 10 ^ 0 = (n : ℚ) := by norm_num
  have hno : ¬ ((DBL_OVERFLOW : ℚ) ≤ (n : ℚ) + ((0 : Nat) : ℚ) / 10 ^ 0) := by
    have h := DBL_OVERFLOW_gt
    have h3 : (n : ℚ) < (DBL_OVERFLOW : ℚ) := by
      have : n < DBL_OVERFLOW := by omega
      exact_mod_cast this
    rw [hx0, not_le]
    exact h3
  have hx : (n : ℚ) + ((0 : Nat) : ℚ) / 10 ^ 0 = (n : ℚ) := by norm_num
  have hform : ∀ rest : List Char, (rest = [] ∨ ∃ u, rest = ',' :: u) →
      strtod_fraction ([d] ++ rest) = ⟨to_double ((n : ℚ) + ((0 : Nat) : ℚ) / 10 ^ 0), 1,
        if (DBL_OVERFLOW : ℚ) ≤ (n : ℚ) + ((0 : Nat) : ℚ) / 10 ^ 0 then ERANGE else 0⟩ := by
    intro rest hrest
    rcases hrest with rfl | ⟨u, rfl⟩
    · unfold strtod_fraction digitsOf
      rw [List.append_nil, hneg]
      simp only [Bool.false_eq_true, if_false, List.takeWhile, hd,
        List.length_singleton, List.drop_succ_cons, List.drop_zero, List.head?_nil,
        decide_False, List.length_nil, hn]
      simp [decimalValue]
    · unfold strtod_fraction digitsOf
      rw [List.singleton_append, hneg]
      have hc : Char.isDigit ',' = false := isDigit_ne_comma
      have hcp : ¬ (',' = '.') := by decide
      simp only [Bool.false_eq_true, if_false, List.takeWhile, hd, hc, List.length_singleton,
        List.drop_succ_cons, List.drop_zero, List.head?_cons, Option.some.injEq, hcp,
        decide_False, List.length_nil, hn]
      simp [decimalValue]
  have h0 := hform [] (Or.inl rfl)
  rw [List.append_nil] at h0
  refine ⟨⟨by simp, ?_, ?_⟩, ?_, ?_⟩
  · intro c hc
    rw [List.mem_singleton] at hc
    rw [hc]
    exact hnul
  · intro rest hrest
    rw [hform rest hrest, h0]
    exact ⟨rfl, rfl, rfl⟩
  · rw [h0]
    show to_double ((n : ℚ) + ((0 : Nat) : ℚ) / 10 ^ 0) = (n : ℚ)
    rw [hx]
    exact to_double_natCast n (by omega)
  · rw [h0]
    exact if_neg hno

/-- For the model `strtod_decimal`, a decimal integer literal is read without a
range error and with a value in 0..255 exactly when the integer is in 0..255. -/
theorem strtod_decimal_inRange (t : List Char) (ht : isNumeral t) :
    ValueInRange strtod_decimal t ↔ 0 ≤ numeralValue t ∧ numeralValue t ≤ 255 := by
  obtain ⟨_, hval, herr⟩ := strtod_decimal_reads t ht
  unfold ValueInRange
  rw [hval]
  constructor
  · rintro ⟨_, h0, h255⟩
    exact ⟨by exact_mod_cast h0, by exact_mod_cast h255⟩
  · rintro ⟨h0, h255⟩
    refine ⟨?_, by exact_mod_cast h0, by exact_mod_cast h255⟩
    by_contra hne
    have h1 := herr.mp hne
    have h2 := numeralValue_natAbs t
    have h3 := DBL_OVERFLOW_gt
    omega
/-- What the model `strtod_fraction` returns on a decimal number followed by the
end of the string or a comma: it consumes the number and no more, and the
value depends on the number only. -/
theorem strtod_fraction_form (sign ip fp rest : List Char) (point : Bool)
    (hsign : sign = [] ∨ sign = ['-'])
    (hip : ∀ c ∈ ip, c.isDigit = true) (hfp : ∀ c ∈ fp, c.isDigit = true)
    (hpt : point = false → fp = []) (hne : ip ≠ [] ∨ fp ≠ [])
    (hrest : rest = [] ∨ ∃ u, rest = ',' :: u) :
    strtod_fraction (sign ++ ip ++ (if point then '.' :: fp else []) ++ rest) =
      ⟨to_double (if sign = ['-'] then
            -((decimalValue ip : ℚ) + (decimalValue fp : ℚ) / 10 ^ fp.length)
          else (decimalValue ip : ℚ) + (decimalValue fp : ℚ) / 10 ^ fp.length),
        sign.length + ip.length + (if point then 1 + fp.length else 0),
        if (DBL_OVERFLOW : ℚ) ≤ (decimalValue ip : ℚ) + (decimalValue fp : ℚ) / 10 ^ fp.length
          then ERANGE else 0⟩ := by
  have hrest_tw : rest.takeWhile Char.isDigit = [] := by
    rcases hrest with rfl | ⟨u, rfl⟩
    · rfl
    · exact List.takeWhile_cons_of_neg (by simp [isDigit_ne_comma])
  have hrest_head : rest.head? ≠ some '.' ∧ rest.head? ≠ some '-' := by
    rcases hrest with rfl | ⟨u, rfl⟩
    · exact ⟨by simp, by simp⟩
    · exact ⟨by simp, by simp⟩
  have hdot : Char.isDigit '.' = false := by decide
  -- the part after the integer digits
  have hA : ((if point then '.' :: fp else []) ++ rest).takeWhile Char.isDigit = [] := by
    cases point with
    | true => exact List.takeWhile_cons_of_neg (by simp [hdot])
    | false => simpa using hrest_tw
  have hB : decide (((if point then '.' :: fp else []) ++ rest).head? = some '.') = point := by
    cases point with
    | true => simp
    | false => simpa using hrest_head.1
  have hC : point = true →
      (((if point then '.' :: fp else []) ++ rest).drop 1).takeWhile Char.isDigit = fp := by
    intro hp
    subst hp
    simp only [if_true, List.cons_append, List.drop_succ_cons, List.drop_zero]
    rw [List.takeWhile_append_of_pos hfp, hrest_tw, List.append_nil]
  have hD : ((if point then '.' :: fp else []) ++ rest).head? ≠ some '-' := by
    cases point with
    | true => simp
    | false => simpa using hrest_head.2
  have hbody_head : (ip ++ ((if point then '.' :: fp else []) ++ rest)).head? ≠ some '-' := by
    cases ip with
    | nil => simpa using hD
    | cons d ds =>
      have hd := hip d (by simp)
      simp only [List.cons_append, List.head?_cons, ne_eq, Option.some.injEq]
      rintro rfl
      exact absurd hd (by decide)
  have htw : (ip ++ ((if point then '.' :: fp else []) ++ rest)).takeWhile Char.isDigit = ip := by
    rw [List.takeWhile_append_of_pos hip, hA, List.append_nil]
  have hdrop : (ip ++ ((if point then '.' :: fp else []) ++ rest)).drop ip.length
      = (if point then '.' :: fp else []) ++ rest := List.drop_left _ _
  have hneg : isNegative (sign ++ ip ++ (if point then '.' :: fp else []) ++ rest)
      = decide (sign = ['-']) := by
    rcases hsign with rfl | rfl
    · unfold isNegative
      rw [List.nil_append, List.append_assoc]
      simp only [hbody_head, decide_False]
      decide
    · rfl
  have hdig : digitsOf (sign ++ ip ++ (if point then '.' :: fp else []) ++ rest)
      = ip ++ ((if point then '.' :: fp else []) ++ rest) := by
    unfold digitsOf
    rw [hneg]
    rcases hsign with rfl | rfl
    · simp
    · simp
  have hfp2 : (if point = true then
      (((if point then '.' :: fp else []) ++ rest).drop 1).takeWhile Char.isDigit else []) = fp := by
    cases hp : point with
    | true => rw [if_pos rfl]; rw [hp] at hC; exact hC rfl
    | false => rw [if_neg (by simp)]; exact (hpt hp).symm
  have hnone : ¬ (ip = [] ∧ fp = []) := by
    rintro ⟨h1, h2⟩
    rcases hne with h | h
    · exact h h1
    · exact h h2
  unfold strtod_fraction
  simp only [hdig, htw, hdrop, hB, hfp2, hneg, if_neg hnone]
  rcases hsign with rfl | rfl
  · simp
  · simp [Nat.add_comm]

/-- A decimal number is not empty and holds no NUL. -/
theorem isDecimalNumber_nonempty (t : List Char) (ht : isDecimalNumber t) :
    t ≠ [] ∧ ∀ c ∈ t, c ≠ NUL := by
  obtain ⟨sign, ip, fp, point, rfl, hsign, hip, hfp, hpt, hne⟩ := ht
  have hdig : ∀ l : List Char, (∀ c ∈ l, c.isDigit = true) → ∀ c ∈ l, c ≠ NUL := by
    intro l hl c hc hn
    have := hl c hc
    rw [hn] at this
    exact absurd this (by decide)
  constructor
  · intro h
    simp only [List.append_eq_nil] at h
    obtain ⟨⟨_, h1⟩, h2⟩ := h
    cases point with
    | true => simp at h2
    | false =>
      rcases hne with h | h
      · exact h h1
      · exact h (hpt rfl)
  · intro c hc
    simp only [List.mem_append] at hc
    rcases hc with (hc | hc) | hc
    · rcases hsign with rfl | rfl
      · simp at hc
      · simp only [List.mem_singleton] at hc
        rw [hc]
        decide
    · exact hdig ip hip c hc
    · cases point with
      | true =>
        simp only [if_true, List.mem_cons] at hc
        rcases hc with rfl | hc
        · decide
        · exact hdig fp hfp c hc
      | false => simp at hc

/-- The model `strtod_fraction` reads every decimal number as a number. -/
theorem strtod_fraction_reads (t : List Char) (ht : isDecimalNumber t) :
    ReadsNumber strtod_fraction t := by
  obtain ⟨hne0, hnul⟩ := isDecimalNumber_nonempty t ht
  obtain ⟨sign, ip, fp, point, rfl, hsign, hip, hfp, hpt, hne⟩ := ht
  refine ⟨hne0, hnul, ?_⟩
  intro rest hrest
  have h1 := strtod_fraction_form sign ip fp rest point hsign hip hfp hpt hne hrest
  have h0 := strtod_fraction_form sign ip fp [] point hsign hip hfp hpt hne (Or.inl rfl)
  rw [List.append_nil] at h0
  rw [h1, h0]
  refine ⟨?_, rfl, rfl⟩
  cases point with
  | true => simp; omega
  | false => simp

/-! ## The claims about the ColorSpec parser -/

/-- C1. Every spec `#` followed by 3, 4, 6 or 8 hexadecimal digits (either
case) is accepted by `isw_color_parse`: it returns true with no message, sets
the transparent flag to false, gives 3 bands for 3 or 6 digits and 4 bands for
4 or 8 digits, and each channel below `bands` is 17 times its digit when there
is one digit per channel and 16 times the high digit plus the low digit when
there are two. -/
theorem C1_hex_spec_parsed (strtod : List Char → StrtodResult) (ds : List Char)
    (out : isw_color) (flag : Bool)
    (hhex : ∀ c ∈ ds, isHexDigit c)
    (hlen : ds.length = 3 ∨ ds.length = 4 ∨ ds.length = 6 ∨ ds.length = 8) :
    ∃ c : isw_color,
      isw_color_parse strtod (some ('#' :: ds)) (some out) (some flag)
        = ⟨true, some c, some false, none⟩ ∧
      c.bands = (if ds.length = 3 ∨ ds.length = 6 then 3 else 4) ∧
      ∀ i : Fin 4, (i.val : Int) < c.bands →
        c.comps i =
          if ds.length ≤ 4 then ((17 * hexDigitValue (ds.getD i.val NUL) : Nat) : ℚ)
          else ((16 * hexDigitValue (ds.getD (i.val * 2) NUL)
            + hexDigitValue (ds.getD (i.val * 2 + 1) NUL) : Nat) : ℚ) := by
  have hnn : ∀ c ∈ '#' :: ds, c ≠ NUL := by
    intro c hc
    rcases List.mem_cons.mp hc with rfl | hc
    · decide
    · exact (hex_digit_cases c (hhex c hc)).2.2
  have hsl : strlen ('#' :: ds) = ds.length + 1 := by
    rw [strlen_of_no_NUL _ hnn, List.length_cons]
  have hget : ∀ i, charAt ('#' :: ds) (1 + i) = ds.getD i NUL := by
    intro i; rw [Nat.add_comm]; rfl
  have hall : ∀ i, 1 ≤ i → i < strlen ('#' :: ds) → isHexDigit (charAt ('#' :: ds) i) := by
    intro i h1 h2
    obtain ⟨j, rfl⟩ : ∃ j, i = 1 + j := ⟨i - 1, by omega⟩
    rw [hget]
    have hj : j < ds.length := by omega
    rw [List.getD_eq_getElem _ _ hj]
    exact hhex _ (List.getElem_mem hj)
  obtain ⟨c, hc, hb, hv⟩ := parse_hex_triplet_ok ('#' :: ds) out (by omega) hall
  refine ⟨c, ?_, ?_, ?_⟩
  · rw [isw_color_parse_hash strtod _ out (some flag) (by rfl), hc]; rfl
  · rw [hb, hsl]; split_ifs <;> first | rfl | omega
  · intro i hi
    rw [hv i hi, hsl, hget, hget]
    have : 1 + i.val * 2 + 1 = 1 + (i.val * 2 + 1) := by omega
    rw [this, hget]
    split_ifs <;> first | rfl | omega

/-- C1 at the specs "#0f0" and "#00ff0080": the first gives the 3-band colour
0, 255, 0 and the second the 4-band colour 0, 255, 0, 128. -/
theorem C1_hex_spec_parsed_witness :
    (∃ c : isw_color,
      isw_color_parse strtod_decimal (some "#0f0".toList) (some isw_color.zero) (some true)
        = ⟨true, some c, some false, none⟩ ∧
      c.bands = 3 ∧ c.comps 0 = 0 ∧ c.comps 1 = 255 ∧ c.comps 2 = 0) ∧
    (∃ c : isw_color,
      isw_color_parse strtod_decimal (some "#00ff0080".toList) (some isw_color.zero) (some true)
        = ⟨true, some c, some false, none⟩ ∧
      c.bands = 4 ∧ c.comps 0 = 0 ∧ c.comps 1 = 255 ∧ c.comps 2 = 0 ∧ c.comps 3 = 128) := by
  constructor
  · obtain ⟨c, h, hb, hv⟩ := C1_hex_spec_parsed strtod_decimal "0f0".toList isw_color.zero true
      (by decide) (by decide)
    have hb3 : c.bands = 3 := hb
    refine ⟨c, h, hb3, ?_, ?_, ?_⟩
    · rw [hv 0 (by rw [hb3]; decide)]; decide
    · rw [hv 1 (by rw [hb3]; decide)]; decide
    · rw [hv 2 (by rw [hb3]; decide)]; decide
  · obtain ⟨c, h, hb, hv⟩ := C1_hex_spec_parsed strtod_decimal "00ff0080".toList isw_color.zero
      true (by decide) (by decide)
    have hb4 : c.bands = 4 := hb
    refine ⟨c, h, hb4, ?_, ?_, ?_, ?_⟩
    · rw [hv 0 (by rw [hb4]; decide)]; decide
    · rw [hv 1 (by rw [hb4]; decide)]; decide
    · rw [hv 2 (by rw [hb4]; decide)]; decide
    · rw [hv 3 (by rw [hb4]; decide)]; decide

/-- C2. A spec whose first character is `#` is accepted by `isw_color_parse`
exactly when its length is 4, 5, 7 or 9 and every character after the `#` is a
hexadecimal digit; with any other length it fails with the invalid-hex-length
message, and with an accepted length and a character that is not a hexadecimal
digit it fails with the invalid-hex-digit message. -/
theorem C2_hash_spec_accepted_iff (strtod : List Char → StrtodResult) (spec : List Char)
    (out : isw_color) (flag : Bool) (h : charAt spec 0 = '#') :
    ((isw_color_parse strtod (some spec) (some out) (some flag)).ret = true ↔
      (strlen spec = 4 ∨ strlen spec = 5 ∨ strlen spec = 7 ∨ strlen spec = 9) ∧
      ∀ i, 1 ≤ i → i < strlen spec → isHexDigit (charAt spec i)) ∧
    (¬ (strlen spec = 4 ∨ strlen spec = 5 ∨ strlen spec = 7 ∨ strlen spec = 9) →
      isw_color_parse strtod (some spec) (some out) (some flag)
        = ⟨false, some out, some false, some .InvalidHexLength⟩) ∧
    ((strlen spec = 4 ∨ strlen spec = 5 ∨ strlen spec = 7 ∨ strlen spec = 9) →
      (∃ i, 1 ≤ i ∧ i < strlen spec ∧ ¬ isHexDigit (charAt spec i)) →
      isw_color_parse strtod (some spec) (some out) (some flag)
        = ⟨false, some out, some false, some .InvalidHexDigit⟩) := by
  rw [isw_color_parse_hash strtod spec out (some flag) h]
  have hlenbad : ¬ (strlen spec = 4 ∨ strlen spec = 5 ∨ strlen spec = 7 ∨ strlen spec = 9) →
      parse_hex_triplet spec out = ⟨false, out, some .InvalidHexLength⟩ := fun hl =>
    parse_hex_triplet_bad_len spec out (by omega)
  refine ⟨?_, ?_, ?_⟩
  · constructor
    · intro hr
      by_cases hl : strlen spec = 4 ∨ strlen spec = 5 ∨ strlen spec = 7 ∨ strlen spec = 9
      · refine ⟨hl, ?_⟩
        by_contra hall
        push_neg at hall
        obtain ⟨i, h1, h2, h3⟩ := hall
        rw [parse_hex_triplet_bad_digit spec out hl ⟨i, h1, h2, h3⟩] at hr
        cases hr
      · rw [hlenbad hl] at hr; cases hr
    · rintro ⟨hl, hall⟩
      obtain ⟨c, hc, _⟩ := parse_hex_triplet_ok spec out hl hall
      rw [hc]
  · intro hl; rw [hlenbad hl]; rfl
  · intro hl hbad; rw [parse_hex_triplet_bad_digit spec out hl hbad]; rfl

/-- C2 at the specs "#12" (length 3, rejected for its length), "#12g" (length
4 with the character `g`, rejected for its digit) and "#fff" (accepted). -/
theorem C2_hash_spec_accepted_iff_witness :
    charAt "#12".toList 0 = '#' ∧
    isw_color_parse strtod_decimal (some "#12".toList) (some isw_color.zero) (some true)
      = ⟨false, some isw_color.zero, some false, some .InvalidHexLength⟩ ∧
    isw_color_parse strtod_decimal (some "#12g".toList) (some isw_color.zero) (some true)
      = ⟨false, some isw_color.zero, some false, some .InvalidHexDigit⟩ ∧
    (isw_color_parse strtod_decimal (some "#fff".toList) (some isw_color.zero)
      (some true)).ret = true :=
  ⟨by decide,
    (C2_hash_spec_accepted_iff strtod_decimal "#12".toList isw_color.zero true
      (by decide)).2.1 (by decide),
    (C2_hash_spec_accepted_iff strtod_decimal "#12g".toList isw_color.zero true
      (by decide)).2.2 (by decide) ⟨3, by decide, by decide, by decide⟩,
    (C2_hash_spec_accepted_iff strtod_decimal "#fff".toList isw_color.zero true
      (by decide)).1.mpr ⟨by decide, fun i h1 h2 => by
        have h3 : i < 4 := h2
        interval_cases i <;> decide⟩⟩

/-- C3 (amended). Take a spec made of `n` numbers joined by single commas that
does not start with '#' and is not the word "transparent"; a number is a
string that `strtod` reads in full, as it does every decimal number.
`isw_color_parse` succeeds exactly when `n` is 3 or 4 and every number is read
without a range error and has a value in 0..255, and then `bands = n` and the
components are the values in order.  With every number so in range it fails
with the component-count message when `n < 3` and with the
too-many-components message when `n > 4`.  When some number is not in range
and the first such number is at position `k` (from 0), it fails with the
too-many-components message if `k > 4`, and otherwise with the invalid-number
message if `strtod` reports a range error for that number and with the
out-of-range message if it does not. -/
theorem C3_decimal_list_parsed (strtod : List Char → StrtodResult)
    (toks : List (List Char)) (out : isw_color) (flag : Bool)
    (hread : ∀ t ∈ toks, ReadsNumber strtod t)
    (hhash : charAt (commaJoin toks) 0 ≠ '#')
    (hword : ¬ isTransparentWord (commaJoin toks)) :
    ((isw_color_parse strtod (some (commaJoin toks)) (some out) (some flag)).ret = true ↔
      (toks.length = 3 ∨ toks.length = 4) ∧ ∀ t ∈ toks, ValueInRange strtod t) ∧
    ((toks.length = 3 ∨ toks.length = 4) → (∀ t ∈ toks, ValueInRange strtod t) →
      ∃ c : isw_color,
        isw_color_parse strtod (some (commaJoin toks)) (some out) (some flag)
          = ⟨true, some c, some false, none⟩ ∧
        c.bands = (toks.length : Int) ∧
        ∀ i : Fin 4, i.val < toks.length →
          c.comps i = (strtod (toks.getD i.val [])).val) ∧
    (toks.length < 3 → (∀ t ∈ toks, ValueInRange strtod t) →
      isw_color_parse strtod (some (commaJoin toks)) (some out) (some flag)
        = ⟨false, some out, some false, some .ComponentCount⟩) ∧
    (4 < toks.length → (∀ t ∈ toks, ValueInRange strtod t) →
      isw_color_parse strtod (some (commaJoin toks)) (some out) (some flag)
        = ⟨false, some out, some false, some .TooManyComponents⟩) ∧
    (∀ k, k < toks.length →
      (∀ j, j < k → ValueInRange strtod (toks.getD j [])) →
      ¬ ValueInRange strtod (toks.getD k []) →
      isw_color_parse strtod (some (commaJoin toks)) (some out) (some flag)
        = ⟨false, some out, some false,
            some (if 4 < k then .TooManyComponents
              else if (strtod (toks.getD k [])).errno ≠ 0 then .InvalidNumber
              else .OutOfRange)⟩) := by
  have hparse := isw_color_parse_csv strtod (commaJoin toks) hhash hword out (some flag)
  have hcsv := parse_csv_commaJoin strtod toks hread out
  have hgetD : ∀ j, (toks.map strtod).getD j (strtod []) = strtod (toks.getD j []) := by
    intro j
    rw [List.getD_map]
  -- success
  have hok : (toks.length = 3 ∨ toks.length = 4) → (∀ t ∈ toks, ValueInRange strtod t) →
      parse_csv strtod (commaJoin toks) out
        = ⟨true, store_color out ((toks.map strtod).map fun r => r.val), none⟩ := by
    intro hl hall
    rw [hcsv, csv_outcome_in_range strtod toks hall (by omega)]
    have : ¬ (((toks.map strtod).map fun r => r.val).length ≠ 3 ∧
        ((toks.map strtod).map fun r => r.val).length ≠ 4) := by
      simp only [List.length_map]; omega
    simp only [if_neg this]
  -- too few
  have hfew : toks.length < 3 → (∀ t ∈ toks, ValueInRange strtod t) →
      parse_csv strtod (commaJoin toks) out = ⟨false, out, some .ComponentCount⟩ := by
    intro hl hall
    rw [hcsv, csv_outcome_in_range strtod toks hall (by omega)]
    have : ((toks.map strtod).map fun r => r.val).length ≠ 3 ∧
        ((toks.map strtod).map fun r => r.val).length ≠ 4 := by
      simp only [List.length_map]; omega
    simp only [if_pos this]
  -- too many
  have hmany : 4 < toks.length → (∀ t ∈ toks, ValueInRange strtod t) →
      parse_csv strtod (commaJoin toks) out = ⟨false, out, some .TooManyComponents⟩ := by
    intro hl hall
    have hmem : ∀ r ∈ toks.map strtod, r.errno = 0 ∧ 0 ≤ r.val ∧ r.val ≤ 255 := by
      intro r hr
      obtain ⟨t, ht, rfl⟩ := List.mem_map.mp hr
      exact hall t ht
    rw [hcsv, csv_outcome_too_many 4 (toks.map strtod) [] hmem (by simpa using hl)]
  -- a number that is not in range
  have hbad : ∀ k, k < toks.length →
      (∀ j, j < k → ValueInRange strtod (toks.getD j [])) →
      ¬ ValueInRange strtod (toks.getD k []) →
      parse_csv strtod (commaJoin toks) out = ⟨false, out,
        some (if 4 < k then .TooManyComponents
          else if (strtod (toks.getD k [])).errno ≠ 0 then .InvalidNumber
          else .OutOfRange)⟩ := by
    intro k hk hpre hb
    rw [hcsv, csv_outcome_first_bad 4 (toks.map strtod) [] k (strtod []) (by simpa using hk)
      (fun j hj => by rw [hgetD]; exact hpre j hj) (by rw [hgetD]; exact hb), hgetD]
  refine ⟨?_, ?_, ?_, ?_, ?_⟩
  · rw [hparse]
    constructor
    · intro hr
      by_cases hall : ∀ t ∈ toks, ValueInRange strtod t
      · refine ⟨?_, hall⟩
        by_contra hl
        rcases Nat.lt_or_ge toks.length 3 with h3 | h3
        · rw [hfew h3 hall] at hr; cases hr
        · rw [hmany (by omega) hall] at hr; cases hr
      · exfalso
        have hex : ∃ k, k < toks.length ∧ ¬ ValueInRange strtod (toks.getD k []) := by
          by_contra hne
          apply hall
          intro t ht
          obtain ⟨k, hk, rfl⟩ := List.getElem_of_mem ht
          by_contra hgt
          exact hne ⟨k, hk, by rw [List.getD_eq_getElem _ _ hk]; exact hgt⟩
        classical
        have hmin : ∀ m, m < Nat.find hex →
            ¬ (m < toks.length ∧ ¬ ValueInRange strtod (toks.getD m [])) :=
          fun m hm => Nat.find_min hex hm
        obtain ⟨hk, hb⟩ := Nat.find_spec hex
        have hpre : ∀ j, j < Nat.find hex → ValueInRange strtod (toks.getD j []) := by
          intro j hj
          by_contra hgt
          exact hmin j hj ⟨by omega, hgt⟩
        rw [hbad _ hk hpre hb] at hr
        cases hr
    · rintro ⟨hl, hall⟩
      rw [hok hl hall]
  · intro hl hall
    refine ⟨_, by rw [hparse, hok hl hall]; rfl, by simp [store_color], ?_⟩
    intro i hi
    simp only [store_color, List.length_map, if_pos hi]
    have hi2 : i.val < ((toks.map strtod).map fun r => r.val).length := by
      simpa using hi
    rw [List.getD_eq_getElem _ _ hi2, List.getD_eq_getElem _ _ hi]
    simp only [List.getElem_map]
  · intro hl hall; rw [hparse, hfew hl hall]; rfl
  · intro hl hall; rw [hparse, hmany hl hall]; rfl
  · intro k hk hpre hb; rw [hparse, hbad k hk hpre hb]; rfl

/-- C3 at the specs "300,0,0" (out of range), "1,2" (too few numbers) and
"10,20,30" (accepted with 3 bands) with the model `strtod_decimal`, and at the
spec "1.5,2,3" with the model `strtod_fraction`: accepted as the 3-band colour
3/2, 2, 3. -/
theorem C3_decimal_list_parsed_witness :
    isw_color_parse strtod_decimal (some "300,0,0".toList) (some isw_color.zero) (some true)
      = ⟨false, some isw_color.zero, some false, some .OutOfRange⟩ ∧
    isw_color_parse strtod_decimal (some "1,2".toList) (some isw_color.zero) (some true)
      = ⟨false, some isw_color.zero, some false, some .ComponentCount⟩ ∧
    (isw_color_parse strtod_decimal (some "10,20,30".toList) (some isw_color.zero)
      (some true)).ret = true ∧
    ∃ c : isw_color,
      isw_color_parse strtod_fraction (some "1.5,2,3".toList) (some isw_color.zero) (some true)
        = ⟨true, some c, some false, none⟩ ∧
      c.bands = 3 ∧ c.comps 0 = 3 / 2 ∧ c.comps 1 = 2 ∧ c.comps 2 = 3 := by
  have hnum : ∀ t ∈ ["300".toList, "0".toList, "1".toList, "2".toList, "10".toList,
      "20".toList, "30".toList], isNumeral t := by decide
  have hdec : ∀ t ∈ ["300".toList, "0".toList, "1".toList, "2".toList, "10".toList,
      "20".toList, "30".toList], ReadsNumber strtod_decimal t :=
    fun t ht => (strtod_decimal_reads t (hnum t ht)).1
  have hin : ∀ t ∈ ["0".toList, "1".toList, "2".toList, "10".toList,
      "20".toList, "30".toList], ValueInRange strtod_decimal t := by
    intro t ht
    have ht2 : t ∈ ["300".toList, "0".toList, "1".toList, "2".toList, "10".toList,
        "20".toList, "30".toList] := List.mem_cons_of_mem _ ht
    rw [strtod_decimal_inRange t (hnum t ht2)]
    revert t
    decide
  have h300 : ¬ ValueInRange strtod_decimal "300".toList := by
    rw [strtod_decimal_inRange _ (hnum _ (by decide))]
    decide
  have h300e : ¬ ((strtod_decimal "300".toList).errno ≠ 0) := by decide
  have h2 := strtod_fraction_reads_digit '2' 2 (by decide) (by decide) (by decide)
  have h3 := strtod_fraction_reads_digit '3' 3 (by decide) (by decide) (by decide)
  have h15 := strtod_fraction_reads_one_half
  have h2v : (strtod_fraction ['2']).val = 2 := by rw [h2.2.1]; norm_num
  have h3v : (strtod_fraction ['3']).val = 3 := by rw [h3.2.1]; norm_num
  have v15 : ValueInRange strtod_fraction "1.5".toList :=
    ⟨h15.2.2, by rw [h15.2.1]; norm_num, by rw [h15.2.1]; norm_num⟩
  have v2 : ValueInRange strtod_fraction ['2'] :=
    ⟨h2.2.2, by rw [h2v]; norm_num, by rw [h2v]; norm_num⟩
  have v3 : ValueInRange strtod_fraction ['3'] :=
    ⟨h3.2.2, by rw [h3v]; norm_num, by rw [h3v]; norm_num⟩
  have hfr : ∀ t ∈ ["1.5".toList, "2".toList, "3".toList], ReadsNumber strtod_fraction t := by
    intro t ht
    apply strtod_fraction_reads
    simp only [List.mem_cons, List.mem_singleton, List.not_mem_nil, or_false] at ht
    rcases ht with rfl | rfl | rfl
    · exact ⟨[], ['1'], ['5'], true, rfl, Or.inl rfl, by decide, by decide,
        (fun h => by cases h), Or.inl (by decide)⟩
    · exact ⟨[], ['2'], [], false, rfl, Or.inl rfl, by decide, by decide,
        (fun _ => rfl), Or.inl (by decide)⟩
    · exact ⟨[], ['3'], [], false, rfl, Or.inl rfl, by decide, by decide,
        (fun _ => rfl), Or.inl (by decide)⟩
  have hfin : ∀ t ∈ ["1.5".toList, "2".toList, "3".toList], ValueInRange strtod_fraction t := by
    intro t ht
    simp only [List.mem_cons, List.mem_singleton, List.not_mem_nil, or_false] at ht
    rcases ht with rfl | rfl | rfl
    · exact v15
    · exact v2
    · exact v3
  refine ⟨?_, ?_, ?_, ?_⟩
  · have h := (C3_decimal_list_parsed strtod_decimal ["300".toList, "0".toList, "0".toList]
      isw_color.zero true (fun t ht => hdec t (by revert t; decide)) (by decide)
      (by decide)).2.2.2.2 0 (by decide) (fun j hj => absurd hj (Nat.not_lt_zero j)) h300
    rw [if_neg (by decide)] at h
    have he : (if (strtod_decimal (["300".toList, "0".toList, "0".toList].getD 0 [])).errno ≠ 0
        then ParseError.InvalidNumber else ParseError.OutOfRange) = ParseError.OutOfRange :=
      if_neg h300e
    rw [he] at h
    exact h
  · exact (C3_decimal_list_parsed strtod_decimal ["1".toList, "2".toList]
      isw_color.zero true (fun t ht => hdec t (by revert t; decide)) (by decide)
      (by decide)).2.2.1 (by decide) (fun t ht => hin t (by revert t; decide))
  · exact (C3_decimal_list_parsed strtod_decimal ["10".toList, "20".toList, "30".toList]
      isw_color.zero true (fun t ht => hdec t (by revert t; decide)) (by decide)
      (by decide)).1.mpr ⟨by decide, fun t ht => hin t (by revert t; decide)⟩
  · obtain ⟨c, hc, hb, hcomp⟩ := (C3_decimal_list_parsed strtod_fraction
      ["1.5".toList, "2".toList, "3".toList] isw_color.zero true hfr (by decide)
      (by decide)).2.1 (by decide) hfin
    refine ⟨c, hc, hb, ?_, ?_, ?_⟩
    · rw [hcomp 0 (by decide)]
      exact h15.2.1
    · rw [hcomp 1 (by decide)]
      exact h2v
    · rw [hcomp 2 (by decide)]
      exact h3v

/-- C3 as stated fails at the spec "1,2,3,4,5,300": the list contains the
number 300, outside the range 0 to 255, and `isw_color_parse` rejects the spec
with the too-many-components message, not the out-of-range one.  It also fails
at the spec made of a 1 followed by 309 zeros, then ",0,0": the first number
is outside the range 0 to 255, `strtod` reports a range error for it, and
`isw_color_parse` rejects the spec with the invalid-number message. -/
theorem C3_out_of_range_counterexample :
    commaJoin ["1".toList, "2".toList, "3".toList, "4".toList, "5".toList, "300".toList]
      = "1,2,3,4,5,300".toList ∧
    (∃ t ∈ ["1".toList, "2".toList, "3".toList, "4".toList, "5".toList, "300".toList],
      255 < numeralValue t) ∧
    (isw_color_parse strtod_decimal (some "1,2,3,4,5,300".toList) (some isw_color.zero)
      (some true)).ret = false ∧
    (isw_color_parse strtod_decimal (some "1,2,3,4,5,300".toList) (some isw_color.zero)
      (some true)).err_msg = some .TooManyComponents ∧
    (isw_color_parse strtod_decimal (some "1,2,3,4,5,300".toList) (some isw_color.zero)
      (some true)).err_msg ≠ some .OutOfRange ∧
    isNumeral ('1' :: List.replicate 309 '0') ∧
    255 < numeralValue ('1' :: List.replicate 309 '0') ∧
    (isw_color_parse strtod_decimal
      (some (commaJoin ['1' :: List.replicate 309 '0', "0".toList, "0".toList]))
      (some isw_color.zero) (some true)).ret = false ∧
    (isw_color_parse strtod_decimal
      (some (commaJoin ['1' :: List.replicate 309 '0', "0".toList, "0".toList]))
      (some isw_color.zero) (some true)).err_msg = some .InvalidNumber ∧
    (isw_color_parse strtod_decimal
      (some (commaJoin ['1' :: List.replicate 309 '0', "0".toList, "0".toList]))
      (some isw_color.zero) (some true)).err_msg ≠ some .OutOfRange := by
  set_option maxRecDepth 100000 in decide

/-- C4 fails at the spec "1,2,3,": `isw_color_parse` accepts it as the 3-band
colour 1, 2, 3, although a comma follows the last number.  An empty component
at the start or in the middle ("1,,2,3", ",1,2,3") is rejected with the
invalid-number message, and a character other than a comma after a number
("1;2;3") with the malformed-separator message. -/
theorem C4_trailing_comma_accepted :
    (isw_color_parse strtod_decimal (some "1,2,3,".toList) (some isw_color.zero)
      (some true)).ret = true ∧
    (isw_color_parse strtod_decimal (some "1,2,3,".toList) (some isw_color.zero)
      (some true)).err_msg = none ∧
    ((isw_color_parse strtod_decimal (some "1,2,3,".toList) (some isw_color.zero)
      (some true)).out.map fun c => (c.bands, c.comps 0, c.comps 1, c.comps 2))
        = some (3, 1, 2, 3) ∧
    (isw_color_parse strtod_decimal (some "1,,2,3".toList) (some isw_color.zero)
      (some true)).err_msg = some .InvalidNumber ∧
    (isw_color_parse strtod_decimal (some ",1,2,3".toList) (some isw_color.zero)
      (some true)).err_msg = some .InvalidNumber ∧
    (isw_color_parse strtod_decimal (some "1;2;3".toList) (some isw_color.zero)
      (some true)).err_msg = some .MalformedSeparator := by
  decide

/-- C5. A spec that equals "transparent" under ASCII case folding is accepted
by `isw_color_parse` with the transparent marker set to true and the colour
left alone; on every other spec that is accepted the marker is false. -/
theorem C5_transparent_marker (strtod : List Char → StrtodResult) (spec : List Char)
    (out : isw_color) (flag : Bool) :
    (isTransparentWord spec →
      isw_color_parse strtod (some spec) (some out) (some flag)
        = ⟨true, some out, some true, none⟩) ∧
    (¬ isTransparentWord spec →
      (isw_color_parse strtod (some spec) (some out) (some flag)).ret = true →
      (isw_color_parse strtod (some spec) (some out) (some flag)).out_is_transparent
        = some false) := by
  constructor
  · intro h
    have h0 := (strcasecmp_transparent_iff spec).mpr h
    simp only [isw_color_parse, if_pos h0]
    rfl
  · intro h _
    have h0 : ¬ strcasecmp spec "transparent".toList = 0 := fun h1 =>
      h ((strcasecmp_transparent_iff spec).mp h1)
    simp only [isw_color_parse, if_neg h0]
    split_ifs <;> rfl

/-- C5 at the specs "transparent", "TRANSPARENT" and "Transparent", which set
the marker, and at "#0f0", which is accepted and clears it. -/
theorem C5_transparent_marker_witness :
    isw_color_parse strtod_decimal (some "transparent".toList) (some isw_color.zero) (some false)
      = ⟨true, some isw_color.zero, some true, none⟩ ∧
    isw_color_parse strtod_decimal (some "TRANSPARENT".toList) (some isw_color.zero) (some false)
      = ⟨true, some isw_color.zero, some true, none⟩ ∧
    isw_color_parse strtod_decimal (some "Transparent".toList) (some isw_color.zero) (some false)
      = ⟨true, some isw_color.zero, some true, none⟩ ∧
    (isw_color_parse strtod_decimal (some "#0f0".toList) (some isw_color.zero)
      (some true)).out_is_transparent = some false :=
  ⟨(C5_transparent_marker strtod_decimal "transparent".toList isw_color.zero false).1
      (by decide),
    (C5_transparent_marker strtod_decimal "TRANSPARENT".toList isw_color.zero false).1
      (by decide),
    (C5_transparent_marker strtod_decimal "Transparent".toList isw_color.zero false).1
      (by decide),
    (C5_transparent_marker strtod_decimal "#0f0".toList isw_color.zero true).2
      (by decide) (by decide)⟩

/-! ## The claims about the resolver and the layout -/

/-- A call of `vips_embed` made by `isw_process` is one made from its prepared
image. -/
theorem isw_process_embed_call (vips : Vips) (input_path output_path : Option (List Char))
    (opts : Option isw_options) (call : EmbedCall)
    (h : (isw_process vips input_path output_path opts).embed_call = some call) :
    ∃ prepared path o,
      (isw_process_prepared vips prepared path o).embed_call = some call := by
  unfold isw_process at h
  split at h
  · rename_i ip op o
    cases h0 : vips.image_new_from_file ip with
    | none => simp [h0] at h
    | some raw =>
      simp only [h0] at h
      cases h1 : ensure_srgb vips raw with
      | none => simp [h1] at h
      | some work =>
        simp only [h1] at h
        cases h2 : ensure_u8 vips work with
        | none => simp [h2] at h
        | some casted =>
          simp only [h2] at h
          cases h3 : ensure_three_or_four_bands vips casted with
          | none => simp [h3] at h
          | some prepared =>
            simp only [h3] at h
            exact ⟨prepared, op, o, h⟩
  · cases h

theorem floor_half (n : Int) (hn : 0 ≤ n) : n.tdiv 2 = ⌊((n : Int) : ℚ) / 2⌋ := by
  rw [Int.tdiv_eq_ediv hn (by decide)]
  have := Rat.floor_intCast_div_natCast n 2
  simpa using this.symm

/-- C6. In every run of `isw_process` that reaches the compositor with an
image of positive width and height (sizes for which the C `int` arithmetic
does not overflow), the canvas is `target` by `target` with
`target = max(width, height)`, and the offsets are
`left = floor((target - width) / 2)` and `top = floor((target - height) / 2)`. -/
theorem C6_square_layout (vips : Vips) (input_path output_path : Option (List Char))
    (opts : Option isw_options) (call : EmbedCall)
    (hcall : (isw_process vips input_path output_path opts).embed_call = some call)
    (_hw : 0 < call.image.width) (_hh : 0 < call.image.height) :
    call.width = max call.image.width call.image.height ∧
    call.height = call.width ∧
    call.x = ⌊((call.width - call.image.width : Int) : ℚ) / 2⌋ ∧
    call.y = ⌊((call.width - call.image.height : Int) : ℚ) / 2⌋ := by
  obtain ⟨prepared, path, o, h⟩ := isw_process_embed_call vips input_path output_path opts call hcall
  obtain ⟨_, hwd, hht, hx, hy⟩ := embed_call_of_prepared vips prepared path o call h
  have hmax : call.width = max call.image.width call.image.height := by
    rw [hwd]
    split_ifs with hc
    · exact (max_eq_left (le_of_lt hc)).symm
    · exact (max_eq_right (not_lt.mp hc)).symm
  refine ⟨hmax, hht, ?_, ?_⟩
  · rw [hx]; exact floor_half _ (by rw [hmax]; have := le_max_left call.image.width call.image.height; omega)
  · rw [hy]; exact floor_half _ (by rw [hmax]; have := le_max_right call.image.width call.image.height; omega)

/-- C6 on images of 100 by 60, 3 by 2 and 200 by 100 pixels: the compositor
gets the canvases 100, 3 and 200 with the offsets (0, 20), (0, 0) and (0, 50). -/
theorem C6_square_layout_witness :
    (∃ call : EmbedCall,
      (isw_process (vips_plain (blank_image 100 60 3)) (some "in.png".toList)
        (some "out.png".toList) (some (opts_manual3 1 2 3))).embed_call = some call ∧
      call.image.width = 100 ∧ call.image.height = 60 ∧
      call.width = 100 ∧ call.height = 100 ∧ call.x = 0 ∧ call.y = 20) ∧
    (∃ call : EmbedCall,
      (isw_process (vips_plain (blank_image 3 2 3)) (some "in.png".toList)
        (some "out.png".toList) (some (opts_manual3 1 2 3))).embed_call = some call ∧
      call.image.width = 3 ∧ call.image.height = 2 ∧
      call.width = 3 ∧ call.height = 3 ∧ call.x = 0 ∧ call.y = 0) ∧
    (∃ call : EmbedCall,
      (isw_process (vips_plain (blank_image 200 100 3)) (some "in.png".toList)
        (some "out.png".toList) (some (opts_manual3 1 2 3))).embed_call = some call ∧
      call.image.width = 200 ∧ call.image.height = 100 ∧
      call.width = 200 ∧ call.height = 200 ∧ call.x = 0 ∧ call.y = 50) := by
  refine ⟨?_, ?_, ?_⟩
  · have h := C6_square_layout (vips_plain (blank_image 100 60 3)) (some "in.png".toList)
      (some "out.png".toList) (some (opts_manual3 1 2 3))
      ⟨blank_image 100 60 3, 0, 20, 100, 100, clamp_color (opts_manual3 1 2 3).manual_color⟩
      rfl (by decide) (by decide)
    exact ⟨_, rfl, rfl, rfl, h.1.trans (by decide), h.2.1.trans (h.1.trans (by decide)),
      rfl, rfl⟩
  · have h := C6_square_layout (vips_plain (blank_image 3 2 3)) (some "in.png".toList)
      (some "out.png".toList) (some (opts_manual3 1 2 3))
      ⟨blank_image 3 2 3, 0, 0, 3, 3, clamp_color (opts_manual3 1 2 3).manual_color⟩
      rfl (by decide) (by decide)
    exact ⟨_, rfl, rfl, rfl, h.1.trans (by decide), h.2.1.trans (h.1.trans (by decide)),
      rfl, rfl⟩
  · have h := C6_square_layout (vips_plain (blank_image 200 100 3)) (some "in.png".toList)
      (some "out.png".toList) (some (opts_manual3 1 2 3))
      ⟨blank_image 200 100 3, 0, 50, 200, 200, clamp_color (opts_manual3 1 2 3).manual_color⟩
      rfl (by decide) (by decide)
    exact ⟨_, rfl, rfl, rfl, h.1.trans (by decide), h.2.1.trans (h.1.trans (by decide)),
      rfl, rfl⟩

/-- C7 as stated fails: for an image 5 wide and 4 high `isw_process` hands the
compositor the canvas 5 by 5 with the offsets left 0 and top 0; the top offset
is not 1. -/
theorem C7_layout_5x4_counterexample :
    ∃ call : EmbedCall,
      (isw_process (vips_plain (blank_image 5 4 3)) (some "in.png".toList)
        (some "out.png".toList) (some (opts_manual3 1 2 3))).embed_call = some call ∧
      call.image.width = 5 ∧ call.image.height = 4 ∧
      call.width = 5 ∧ call.height = 5 ∧ call.x = 0 ∧ call.y = 0 ∧ call.y ≠ 1 :=
  ⟨⟨blank_image 5 4 3, 0, 0, 5, 5, clamp_color (opts_manual3 1 2 3).manual_color⟩,
    rfl, rfl, rfl, rfl, rfl, rfl, rfl, by decide⟩

/-- C7 (amended). In every run of `isw_process` that reaches the compositor
with an image 5 wide and 4 high, the canvas is 5 by 5, the left offset is 0
and the top offset is 0. -/
theorem C7_layout_5x4 (vips : Vips) (input_path output_path : Option (List Char))
    (opts : Option isw_options) (call : EmbedCall)
    (hcall : (isw_process vips input_path output_path opts).embed_call = some call)
    (hw : call.image.width = 5) (hh : call.image.height = 4) :
    call.width = 5 ∧ call.height = 5 ∧ call.x = 0 ∧ call.y = 0 := by
  obtain ⟨prepared, path, o, h⟩ := isw_process_embed_call vips input_path output_path opts call hcall
  obtain ⟨_, hwd, hht, hx, hy⟩ := embed_call_of_prepared vips prepared path o call h
  rw [hw, hh] at hwd
  have h5 : call.width = 5 := by rw [hwd]; decide
  rw [h5, hw] at hx
  rw [h5, hh] at hy
  exact ⟨h5, by rw [hht, h5], by rw [hx]; decide, by rw [hy]; decide⟩

/-- C7 (amended) on a run with a 4-band image 5 wide and 4 high. -/
theorem C7_layout_5x4_witness :
    ∃ call : EmbedCall,
      (isw_process (vips_plain (blank_image 5 4 4)) (some "in.png".toList)
        (some "out.png".toList) (some (opts_manual4 9 9 9 9))).embed_call = some call ∧
      call.image.width = 5 ∧ call.image.height = 4 ∧
      (call.width = 5 ∧ call.height = 5 ∧ call.x = 0 ∧ call.y = 0) :=
  ⟨⟨blank_image 5 4 4, 0, 0, 5, 5, clamp_color (opts_manual4 9 9 9 9).manual_color⟩,
    rfl, rfl, rfl,
    C7_layout_5x4 (vips_plain (blank_image 5 4 4)) (some "in.png".toList)
      (some "out.png".toList) (some (opts_manual4 9 9 9 9))
      ⟨blank_image 5 4 4, 0, 0, 5, 5, clamp_color (opts_manual4 9 9 9 9).manual_color⟩
      rfl rfl rfl⟩

/-- C8. In every run of `isw_process` that reaches the compositor with an
image of positive width and height, the image lies inside the canvas, and with
`right = target - width - left` and `bottom = target - height - top` the
margins satisfy `0 ≤ left ≤ right ≤ left + 1` and `0 ≤ top ≤ bottom ≤ top + 1`,
the right (bottom) margin being the larger one exactly when `target - width`
(`target - height`) is odd. -/
theorem C8_odd_margin_right_bottom (vips : Vips) (input_path output_path : Option (List Char))
    (opts : Option isw_options) (call : EmbedCall)
    (hcall : (isw_process vips input_path output_path opts).embed_call = some call)
    (_hw : 0 < call.image.width) (_hh : 0 < call.image.height) :
    (0 ≤ call.x ∧ call.x + call.image.width ≤ call.width) ∧
    (0 ≤ call.y ∧ call.y + call.image.height ≤ call.height) ∧
    (call.x ≤ call.width - call.image.width - call.x ∧
      call.width - call.image.width - call.x ≤ call.x + 1) ∧
    (call.y ≤ call.height - call.image.height - call.y ∧
      call.height - call.image.height - call.y ≤ call.y + 1) ∧
    (call.width - call.image.width - call.x = call.x + 1 ↔
      (call.width - call.image.width) % 2 = 1) ∧
    (call.height - call.image.height - call.y = call.y + 1 ↔
      (call.height - call.image.height) % 2 = 1) := by
  obtain ⟨prepared, path, o, h⟩ := isw_process_embed_call vips input_path output_path opts call hcall
  obtain ⟨_, hwd, hht, hx, hy⟩ := embed_call_of_prepared vips prepared path o call h
  have h1 : call.image.width ≤ call.width := by rw [hwd]; split_ifs <;> omega
  have h2 : call.image.height ≤ call.width := by rw [hwd]; split_ifs <;> omega
  rw [Int.tdiv_eq_ediv (by omega) (by decide)] at hx hy
  rw [hht]
  omega

/-- C8 on a run with a 3 by 2 image: no left or right margin, no top margin,
and the single spare row at the bottom. -/
theorem C8_odd_margin_right_bottom_witness :
    ∃ call : EmbedCall,
      (isw_process (vips_plain (blank_image 3 2 3)) (some "in.png".toList)
        (some "out.png".toList) (some (opts_manual3 1 2 3))).embed_call = some call ∧
      call.x = 0 ∧ call.width - call.image.width - call.x = 0 ∧
      call.y = 0 ∧ call.height - call.image.height - call.y = 1 ∧
      (call.height - call.image.height - call.y = call.y + 1 ↔
        (call.height - call.image.height) % 2 = 1) :=
  ⟨⟨blank_image 3 2 3, 0, 0, 3, 3, clamp_color (opts_manual3 1 2 3).manual_color⟩,
    rfl, rfl, rfl, rfl, rfl,
    (C8_odd_margin_right_bottom (vips_plain (blank_image 3 2 3)) (some "in.png".toList)
      (some "out.png".toList) (some (opts_manual3 1 2 3))
      ⟨blank_image 3 2 3, 0, 0, 3, 3, clamp_color (opts_manual3 1 2 3).manual_color⟩
      rfl (by decide) (by decide)).2.2.2.2.2⟩

theorem vips_plain_addalpha (file img img2 : VipsImage)
    (h : (vips_plain file).addalpha img = some img2) (h3 : img.bands = 3) : img2.bands = 4 := by
  simp only [vips_plain, Option.some.injEq] at h
  rw [← h]
  show img.bands + 1 = 4
  omega

/-- C9. Whenever `isw_process` reaches the compositor from a prepared image
with 3 or 4 bands that has alpha exactly when it has 4 bands, under a toolkit
whose `vips_addalpha` turns 3 bands into 4, and in manual mode with a colour
of 3 or 4 bands, the background colour it hands over has as many bands as the
image it hands over. -/
theorem C9_background_bands_match (vips : Vips) (prepared : VipsImage)
    (output_path : List Char) (opts : isw_options) (call : EmbedCall)
    (hcall : (isw_process_prepared vips prepared output_path opts).embed_call = some call)
    (hbands : prepared.bands = 3 ∨ prepared.bands = 4)
    (_halpha : prepared.hasalpha = true ↔ prepared.bands = 4)
    (hadd : ∀ img img2, vips.addalpha img = some img2 → img.bands = 3 → img2.bands = 4)
    (hmanual : opts.background_mode = .ISW_BG_MANUAL →
      opts.manual_color.bands = 3 ∨ opts.manual_color.bands = 4) :
    call.background.bands = call.image.bands := by
  obtain ⟨hres, _⟩ := embed_call_of_prepared vips prepared output_path opts call hcall
  obtain ⟨bg0, hsel, hcases⟩ := resolve_background_ok vips opts prepared _ _ hres
  obtain ⟨hman, _, hauto⟩ := select_background_bands vips opts prepared bg0 hsel
  rcases hcases with ⟨_, _, _, h⟩ | ⟨_, _, _, h⟩ | ⟨_, _, h3, ha, h⟩ | ⟨_, _, h4, hi, h⟩ |
    ⟨hm, hn43, hn34, hi, h⟩ | ⟨_, h4, hi, h⟩ | ⟨hm, h4, hi, h⟩
  · exact h
  · exact h
  · rw [h, hadd prepared call.image ha h3]
  · rw [h, hi, h4]
  · rw [h, hi]
    have hb := hmanual hm
    rw [← hman hm] at hb
    omega
  · rw [h, hi, h4]
  · rw [h, hi, hauto hm]
    omega

/-- C9 on three runs: a 4-band manual colour on a 3-band image, transparent
mode on a 3-band image, and automatic mode on a 4-band image; each reaches the
compositor with 4 bands in both the colour and the image. -/
theorem C9_background_bands_match_witness :
    (∃ call : EmbedCall,
      (isw_process_prepared (vips_plain (blank_image 4 4 3)) (blank_image 4 4 3)
        "out.png".toList (opts_manual4 1 2 3 4)).embed_call = some call ∧
      call.image.bands = 4 ∧ call.background.bands = call.image.bands) ∧
    (∃ call : EmbedCall,
      (isw_process_prepared (vips_plain (blank_image 4 4 3)) (blank_image 4 4 3)
        "out.png".toList opts_transparent).embed_call = some call ∧
      call.image.bands = 4 ∧ call.background.bands = call.image.bands) ∧
    (∃ call : EmbedCall,
      (isw_process_prepared (vips_plain (blank_image 4 4 4)) (blank_image 4 4 4)
        "out.png".toList opts_auto).embed_call = some call ∧
      call.image.bands = 4 ∧ call.background.bands = call.image.bands) := by
  refine ⟨?_, ?_, ?_⟩
  · have hs : ((isw_process_prepared (vips_plain (blank_image 4 4 3)) (blank_image 4 4 3)
        "out.png".toList (opts_manual4 1 2 3 4)).embed_call.map fun c => c.image.bands)
          = some 4 := by decide
    obtain ⟨call, h, h4⟩ := Option.map_eq_some'.mp hs
    exact ⟨call, h, h4,
      C9_background_bands_match (vips_plain (blank_image 4 4 3)) (blank_image 4 4 3)
        "out.png".toList (opts_manual4 1 2 3 4) call h (by decide) (by decide)
        (vips_plain_addalpha _) (fun _ => Or.inr rfl)⟩
  · have hs : ((isw_process_prepared (vips_plain (blank_image 4 4 3)) (blank_image 4 4 3)
        "out.png".toList opts_transparent).embed_call.map fun c => c.image.bands)
          = some 4 := by decide
    obtain ⟨call, h, h4⟩ := Option.map_eq_some'.mp hs
    exact ⟨call, h, h4,
      C9_background_bands_match (vips_plain (blank_image 4 4 3)) (blank_image 4 4 3)
        "out.png".toList opts_transparent call h (by decide) (by decide)
        (vips_plain_addalpha _) (fun h => by cases h)⟩
  · have hs : ((isw_process_prepared (vips_plain (blank_image 4 4 4)) (blank_image 4 4 4)
        "out.png".toList opts_auto).embed_call.map fun c => c.image.bands)
          = some 4 := by decide
    obtain ⟨call, h, h4⟩ := Option.map_eq_some'.mp hs
    exact ⟨call, h, h4,
      C9_background_bands_match (vips_plain (blank_image 4 4 4)) (blank_image 4 4 4)
        "out.png".toList opts_auto call h (by decide) (by decide)
        (vips_plain_addalpha _) (fun h => by cases h)⟩

/-- C10. Whenever `isw_process` reaches the compositor from a prepared image
with 3 or 4 bands that has alpha exactly when it has 4 bands, under a toolkit
whose `vips_addalpha` turns 3 bands into 4, the image it hands over is the
prepared image itself or the 3-band prepared image with an alpha band added;
it has at least as many bands as the prepared image, and 4 if that has 4. -/
theorem C10_image_bands_not_reduced (vips : Vips) (prepared : VipsImage)
    (output_path : List Char) (opts : isw_options) (call : EmbedCall)
    (hcall : (isw_process_prepared vips prepared output_path opts).embed_call = some call)
    (hbands : prepared.bands = 3 ∨ prepared.bands = 4)
    (halpha : prepared.hasalpha = true ↔ prepared.bands = 4)
    (hadd : ∀ img img2, vips.addalpha img = some img2 → img.bands = 3 → img2.bands = 4) :
    (call.image = prepared ∨
      (vips.addalpha prepared = some call.image ∧ prepared.bands = 3 ∧
        call.image.bands = 4)) ∧
    prepared.bands ≤ call.image.bands ∧
    (prepared.bands = 4 → call.image.bands = 4) := by
  obtain ⟨hres, _⟩ := embed_call_of_prepared vips prepared output_path opts call hcall
  obtain ⟨bg0, _, hcases⟩ := resolve_background_ok vips opts prepared _ _ hres
  have hsame : call.image = prepared →
      (call.image = prepared ∨
        (vips.addalpha prepared = some call.image ∧ prepared.bands = 3 ∧
          call.image.bands = 4)) ∧
      prepared.bands ≤ call.image.bands ∧
      (prepared.bands = 4 → call.image.bands = 4) := by
    intro hi
    refine ⟨Or.inl hi, ?_, ?_⟩
    · rw [hi]
    · rw [hi]; exact id
  have hadded : vips.addalpha prepared = some call.image → prepared.bands = 3 →
      (call.image = prepared ∨
        (vips.addalpha prepared = some call.image ∧ prepared.bands = 3 ∧
          call.image.bands = 4)) ∧
      prepared.bands ≤ call.image.bands ∧
      (prepared.bands = 4 → call.image.bands = 4) := by
    intro ha h3
    have h4 := hadd prepared call.image ha h3
    exact ⟨Or.inr ⟨ha, h3, h4⟩, by omega, fun _ => h4⟩
  rcases hcases with ⟨_, hna, ha, _⟩ | ⟨_, _, hi, _⟩ | ⟨_, _, h3, ha, _⟩ | ⟨_, _, _, hi, _⟩ |
    ⟨_, _, _, hi, _⟩ | ⟨_, _, hi, _⟩ | ⟨_, _, hi, _⟩
  · have h3 : prepared.bands = 3 := by
      rcases hbands with h | h
      · exact h
      · rw [halpha.mpr h] at hna; cases hna
    exact hadded ha h3
  · exact hsame hi
  · exact hadded ha h3
  · exact hsame hi
  · exact hsame hi
  · exact hsame hi
  · exact hsame hi

/-- C10 on two runs in transparent mode: a 3-band image reaches the compositor
with 4 bands, a 4-band image with its 4 bands. -/
theorem C10_image_bands_not_reduced_witness :
    (∃ call : EmbedCall,
      (isw_process_prepared (vips_plain (blank_image 4 4 3)) (blank_image 4 4 3)
        "out.png".toList opts_transparent).embed_call = some call ∧
      call.image.bands = 4 ∧ (blank_image 4 4 3).bands ≤ call.image.bands) ∧
    (∃ call : EmbedCall,
      (isw_process_prepared (vips_plain (blank_image 4 4 4)) (blank_image 4 4 4)
        "out.png".toList opts_transparent).embed_call = some call ∧
      call.image.bands = 4 ∧ (blank_image 4 4 4).bands ≤ call.image.bands) := by
  refine ⟨?_, ?_⟩
  · have hs : ((isw_process_prepared (vips_plain (blank_image 4 4 3)) (blank_image 4 4 3)
        "out.png".toList opts_transparent).embed_call.map fun c => c.image.bands)
          = some 4 := by decide
    obtain ⟨call, h, h4⟩ := Option.map_eq_some'.mp hs
    exact ⟨call, h, h4,
      (C10_image_bands_not_reduced (vips_plain (blank_image 4 4 3)) (blank_image 4 4 3)
        "out.png".toList opts_transparent call h (by decide) (by decide)
        (vips_plain_addalpha _)).2.1⟩
  · have hs : ((isw_process_prepared (vips_plain (blank_image 4 4 4)) (blank_image 4 4 4)
        "out.png".toList opts_transparent).embed_call.map fun c => c.image.bands)
          = some 4 := by decide
    obtain ⟨call, h, h4⟩ := Option.map_eq_some'.mp hs
    exact ⟨call, h, h4,
      (C10_image_bands_not_reduced (vips_plain (blank_image 4 4 4)) (blank_image 4 4 4)
        "out.png".toList opts_transparent call h (by decide) (by decide)
        (vips_plain_addalpha _)).2.1⟩

/-! ## The claims about the dominant-colour detector -/

/-- C15. For 8-bit `r`, `g`, `b` the key of `detect_dominant_color` is
`256 * (r / 16) + 16 * (g / 16) + b / 16`, it is below 4096, the size of the
bucket array, and two pixels have the same key exactly when their three
channels agree in their top 4 bits. -/
theorem C15_bucket_key (r g b : Nat) (hr : r < 256) (hg : g < 256) (hb : b < 256) :
    bucket_key r g b = 256 * (r / 16) + 16 * (g / 16) + b / 16 ∧
    bucket_key r g b < 4096 ∧
    ∀ r2 g2 b2 : Nat, r2 < 256 → g2 < 256 → b2 < 256 →
      (bucket_key r g b = bucket_key r2 g2 b2 ↔
        r / 16 = r2 / 16 ∧ g / 16 = g2 / 16 ∧ b / 16 = b2 / 16) :=
  ⟨bucket_key_eq r g b hg hb, bucket_key_lt r g b hr hg hb,
    fun r2 g2 b2 _ hg2 hb2 => bucket_key_inj r g b r2 g2 b2 hg hb hg2 hb2⟩

/-- C15 at the pixel 200, 100, 50: its key is 3171, and the pixel 207, 111, 63
shares it. -/
theorem C15_bucket_key_witness :
    bucket_key 200 100 50 = 256 * (200 / 16) + 16 * (100 / 16) + 50 / 16 ∧
    bucket_key 200 100 50 = 3171 ∧ bucket_key 200 100 50 < 4096 ∧
    bucket_key 200 100 50 = bucket_key 207 111 63 :=
  ⟨(C15_bucket_key 200 100 50 (by decide) (by decide) (by decide)).1, by decide,
    (C15_bucket_key 200 100 50 (by decide) (by decide) (by decide)).2.1,
    ((C15_bucket_key 200 100 50 (by decide) (by decide) (by decide)).2.2 207 111 63
      (by decide) (by decide) (by decide)).mpr (by decide)⟩

/-- C11. When the libvips calls of `detect_dominant_color` succeed and the
sampled buffer has 4 bands with every alpha below 8, or has no pixel at all,
the detector returns 0 and stores the 3-band colour 128, 128, 128. -/
theorem C11_nothing_counted_gray (vips : Vips) (input : VipsImage) (out : isw_color)
    (resized : VipsImage) (bytes : List Nat)
    (h1 : sampled_image vips input = some resized)
    (h2 : vips.image_write_to_memory resized = some bytes)
    (hnone : (resized.bands = 4 ∧
        ∀ i, i < resized.height.toNat * resized.width.toNat → pixel_alpha bytes i < 8) ∨
      resized.height.toNat * resized.width.toNat = 0) :
    (detect_dominant_color vips input out).ret = 0 ∧
    (detect_dominant_color vips input out).err_msg = none ∧
    (detect_dominant_color vips input out).out.bands = 3 ∧
    (detect_dominant_color vips input out).out.comps 0 = 128 ∧
    (detect_dominant_color vips input out).out.comps 1 = 128 ∧
    (detect_dominant_color vips input out).out.comps 2 = 128 := by
  obtain ⟨hr, he, hb, c0, c1, c2, _⟩ :=
    detect_dominant_color_of_buffer vips input out resized bytes h1 h2
  have hnil : counted_pixels bytes resized.bands
      (resized.height.toNat * resized.width.toNat) = [] := by
    rcases hnone with ⟨h4, ha⟩ | h0
    · apply counted_pixels_eq_nil
      intro i hi
      rw [h4, pixel_counted_four]
      have := ha i hi
      simp only [decide_eq_false_iff_not]
      omega
    · rw [h0]; rfl
  have hg := dominant_rgb_of_nil bytes resized.bands resized.width resized.height hnil
  rw [hg] at c0 c1 c2
  exact ⟨hr, he, hb, c0, c1, c2⟩

/-- C11 on a 2 by 1 image with the alphas 0 and 7, and on an image without
pixels. -/
theorem C11_nothing_counted_gray_witness :
    (detect_dominant_color (vips_plain (blank_image 1 1 4))
        ⟨2, 1, 4, true, true, [10, 20, 30, 0, 200, 100, 50, 7]⟩ isw_color.zero).out.comps 0
      = 128 ∧
    (detect_dominant_color (vips_plain (blank_image 1 1 4))
        ⟨0, 0, 3, true, false, []⟩ isw_color.zero).out.comps 2 = 128 :=
  ⟨(C11_nothing_counted_gray (vips_plain (blank_image 1 1 4))
      ⟨2, 1, 4, true, true, [10, 20, 30, 0, 200, 100, 50, 7]⟩ isw_color.zero
      ⟨2, 1, 4, true, true, [10, 20, 30, 0, 200, 100, 50, 7]⟩
      [10, 20, 30, 0, 200, 100, 50, 7] rfl rfl
      (Or.inl ⟨rfl, by decide⟩)).2.2.2.1,
    (C11_nothing_counted_gray (vips_plain (blank_image 1 1 4))
      ⟨0, 0, 3, true, false, []⟩ isw_color.zero ⟨0, 0, 3, true, false, []⟩ [] rfl rfl
      (Or.inr rfl)).2.2.2.2.2⟩

/-- C20. When the libvips calls of `detect_dominant_color` succeed and the
sampled buffer, of fewer than `2^32` pixels, has at least one counted pixel,
each component of the detected colour lies in the cell of the winning bucket
`bstar`: between `16 * k` and `16 * k + 15` for the bucket's 4-bit value `k`
of that channel.  So each component lies in 0..255, the integer parts of the
components have the key `bstar`, and `clamp_color` changes neither the
detected colour nor its widening to 4 bands with opacity 255. -/
theorem C20_detected_in_cell (vips : Vips) (input : VipsImage) (out : isw_color)
    (resized : VipsImage) (bytes : List Nat)
    (h1 : sampled_image vips input = some resized)
    (h2 : vips.image_write_to_memory resized = some bytes)
    (hP : sampled_pixels bytes resized ≠ [])
    (hsize : resized.height.toNat * resized.width.toNat < 2 ^ 32) :
    ∃ bstar : Nat, bstar < 4096 ∧
      in_bucket (sampled_pixels bytes resized) bstar ≠ [] ∧
      (∀ k, (in_bucket (sampled_pixels bytes resized) k).length
        ≤ (in_bucket (sampled_pixels bytes resized) bstar).length) ∧
      (∀ k, k < bstar → (in_bucket (sampled_pixels bytes resized) k).length
        < (in_bucket (sampled_pixels bytes resized) bstar).length) ∧
      (((16 * (bstar / 256) : Nat) : ℚ) ≤ (detect_dominant_color vips input out).out.comps 0 ∧
        (detect_dominant_color vips input out).out.comps 0
          ≤ ((16 * (bstar / 256) + 15 : Nat) : ℚ)) ∧
      (((16 * (bstar / 16 % 16) : Nat) : ℚ)
          ≤ (detect_dominant_color vips input out).out.comps 1 ∧
        (detect_dominant_color vips input out).out.comps 1
          ≤ ((16 * (bstar / 16 % 16) + 15 : Nat) : ℚ)) ∧
      (((16 * (bstar % 16) : Nat) : ℚ) ≤ (detect_dominant_color vips input out).out.comps 2 ∧
        (detect_dominant_color vips input out).out.comps 2
          ≤ ((16 * (bstar % 16) + 15 : Nat) : ℚ)) ∧
      (∀ i : Fin 4, i.val < 3 →
        0 ≤ (detect_dominant_color vips input out).out.comps i ∧
        (detect_dominant_color vips input out).out.comps i ≤ 255) ∧
      bucket_key ⌊(detect_dominant_color vips input out).out.comps 0⌋.toNat
        ⌊(detect_dominant_color vips input out).out.comps 1⌋.toNat
        ⌊(detect_dominant_color vips input out).out.comps 2⌋.toNat = bstar ∧
      clamp_color (detect_dominant_color vips input out).out
        = (detect_dominant_color vips input out).out ∧
      clamp_color { (detect_dominant_color vips input out).out.setComp 3 255 with bands := 4 }
        = { (detect_dominant_color vips input out).out.setComp 3 255 with bands := 4 } := by
  obtain ⟨_, _, hb, c0, c1, c2, _⟩ :=
    detect_dominant_color_of_buffer vips input out resized bytes h1 h2
  obtain ⟨k, hk, hne, hmax, hmin, hm⟩ :=
    dominant_rgb_of_pixels bytes resized.bands resized.width resized.height hP
      (lt_of_le_of_lt (counted_pixels_length_le _ _ _) hsize)
  obtain ⟨⟨r1, r2⟩, ⟨g1, g2⟩, ⟨b1, b2⟩⟩ := mean_rgb_cell _ k
    (fun p hp => counted_pixels_lt _ _ _ p hp) hne
  rw [hm] at c0 c1 c2
  rw [← c0] at r1 r2
  rw [← c1] at g1 g2
  rw [← c2] at b1 b2
  generalize (detect_dominant_color vips input out).out = d at hb r1 r2 g1 g2 b1 b2 ⊢
  have hrange : ∀ i : Fin 4, i.val < 3 → 0 ≤ d.comps i ∧ d.comps i ≤ 255 := by
    intro i hi
    have e1 : (((16 * (k / 256) + 15 : Nat) : ℚ)) ≤ 255 := by
      have : 16 * (k / 256) + 15 ≤ 255 := by omega
      exact_mod_cast this
    have e2 : (((16 * (k / 16 % 16) + 15 : Nat) : ℚ)) ≤ 255 := by
      have : 16 * (k / 16 % 16) + 15 ≤ 255 := by omega
      exact_mod_cast this
    have e3 : (((16 * (k % 16) + 15 : Nat) : ℚ)) ≤ 255 := by
      have : 16 * (k % 16) + 15 ≤ 255 := by omega
      exact_mod_cast this
    have z1 : (0 : ℚ) ≤ ((16 * (k / 256) : Nat) : ℚ) := Nat.cast_nonneg _
    have z2 : (0 : ℚ) ≤ ((16 * (k / 16 % 16) : Nat) : ℚ) := Nat.cast_nonneg _
    have z3 : (0 : ℚ) ≤ ((16 * (k % 16) : Nat) : ℚ) := Nat.cast_nonneg _
    have hcases : i = 0 ∨ i = 1 ∨ i = 2 := by
      rcases i with ⟨v, hv⟩
      have hv3 : v < 3 := hi
      interval_cases v
      · left; rfl
      · right; left; rfl
      · right; right; rfl
    rcases hcases with rfl | rfl | rfl
    · exact ⟨le_trans z1 r1, le_trans r2 e1⟩
    · exact ⟨le_trans z2 g1, le_trans g2 e2⟩
    · exact ⟨le_trans z3 b1, le_trans b2 e3⟩
  refine ⟨k, hk, hne, hmax, hmin, ⟨r1, r2⟩, ⟨g1, g2⟩, ⟨b1, b2⟩, hrange, ?_, ?_, ?_⟩
  · have f0 := floor_toNat_div _ _ r1 r2
    have f1 := floor_toNat_div _ _ g1 g2
    have f2 := floor_toNat_div _ _ b1 b2
    have l0 : ⌊d.comps 0⌋.toNat < 256 := by omega
    have l1 : ⌊d.comps 1⌋.toNat < 256 := by omega
    have l2 : ⌊d.comps 2⌋.toNat < 256 := by omega
    rw [bucket_key_eq _ _ _ l1 l2, f0, f1, f2]
    omega
  · apply clamp_color_of_mem
    intro i hi
    rw [hb] at hi
    exact hrange i (by exact_mod_cast hi)
  · apply clamp_color_of_mem
    intro i _
    by_cases h3 : i = 3
    · subst h3
      simp only [isw_color.setComp, if_true]
      norm_num
    · have hlt : i.val < 3 := by
        rcases i with ⟨v, hv⟩
        have : v ≠ 3 := fun e => h3 (by subst e; rfl)
        show v < 3
        omega
      simp only [isw_color.setComp, if_neg h3]
      exact hrange i hlt

/-- C20 on a 2 by 2 image with three pixels in one bucket and one in another. -/
theorem C20_detected_in_cell_witness :
    clamp_color (detect_dominant_color (vips_plain (blank_image 1 1 3))
        ⟨2, 2, 3, true, false, [10, 20, 30, 200, 100, 50, 11, 21, 31, 12, 22, 32]⟩
        isw_color.zero).out
      = (detect_dominant_color (vips_plain (blank_image 1 1 3))
        ⟨2, 2, 3, true, false, [10, 20, 30, 200, 100, 50, 11, 21, 31, 12, 22, 32]⟩
        isw_color.zero).out := by
  obtain ⟨_, _, _, _, _, _, _, _, _, _, hc, _⟩ :=
    C20_detected_in_cell (vips_plain (blank_image 1 1 3))
      ⟨2, 2, 3, true, false, [10, 20, 30, 200, 100, 50, 11, 21, 31, 12, 22, 32]⟩
      isw_color.zero
      ⟨2, 2, 3, true, false, [10, 20, 30, 200, 100, 50, 11, 21, 31, 12, 22, 32]⟩
      [10, 20, 30, 200, 100, 50, 11, 21, 31, 12, 22, 32] rfl rfl (by decide) (by decide)
  exact hc

/-- C13 (amended). When the libvips calls of `detect_dominant_color` succeed
and the sampled image has sides of at most 160, as every image sampled without
resizing has, and `n >= 3` pixels, none of them skipped for its alpha, all of
the colour `c` except the one at position `i0`, of whatever colour `s`: when
`s` lies in another bucket than `c` the detected colour is `c`; otherwise each
detected component is the double nearest to the mean of the `n` values of its
channel, a mean within `15 / n` of the component of `c`, and so it lies in the
cell of `c` and within `15 / n + 2 ^ (-46)` of the component of `c`. -/
theorem C13_speckle_ignored (vips : Vips) (input : VipsImage) (out : isw_color_ieee)
    (resized : VipsImage) (bytes : List Nat) (c s : Nat × Nat × Nat) (i0 : Nat)
    (h1 : sampled_image vips input = some resized)
    (h2 : vips.image_write_to_memory resized = some bytes)
    (hw : resized.width ≤ 160) (hh : resized.height ≤ 160)
    (hn : 3 ≤ resized.height.toNat * resized.width.toNat)
    (hop : resized.bands = 4 →
      ∀ i, i < resized.height.toNat * resized.width.toNat → 8 ≤ pixel_alpha bytes i)
    (hi0 : i0 < resized.height.toNat * resized.width.toNat)
    (hs : pixel_rgb bytes resized.bands i0 = s)
    (hc : ∀ i, i < resized.height.toNat * resized.width.toNat → i ≠ i0 →
      pixel_rgb bytes resized.bands i = c) :
    (detect_dominant_color_ieee vips input out).ret = 0 ∧
    (detect_dominant_color_ieee vips input out).out.bands = 3 ∧
    (pixel_key s ≠ pixel_key c →
      (detect_dominant_color_ieee vips input out).out.comps 0 = .finite (c.1 : ℚ) ∧
      (detect_dominant_color_ieee vips input out).out.comps 1 = .finite (c.2.1 : ℚ) ∧
      (detect_dominant_color_ieee vips input out).out.comps 2 = .finite (c.2.2 : ℚ)) ∧
    (pixel_key s = pixel_key c →
      ((detect_dominant_color_ieee vips input out).out.comps 0 = .finite (to_double
          (mean_with_speckle (resized.height.toNat * resized.width.toNat) c.1 s.1)) ∧
        |mean_with_speckle (resized.height.toNat * resized.width.toNat) c.1 s.1 - (c.1 : ℚ)|
          ≤ 15 / ((resized.height.toNat * resized.width.toNat : Nat) : ℚ) ∧
        ((16 * (c.1 / 16) : Nat) : ℚ) ≤ to_double
          (mean_with_speckle (resized.height.toNat * resized.width.toNat) c.1 s.1) ∧
        to_double (mean_with_speckle (resized.height.toNat * resized.width.toNat) c.1 s.1)
          ≤ ((16 * (c.1 / 16) + 15 : Nat) : ℚ) ∧
        |to_double (mean_with_speckle (resized.height.toNat * resized.width.toNat) c.1 s.1)
            - (c.1 : ℚ)|
          ≤ 15 / ((resized.height.toNat * resized.width.toNat : Nat) : ℚ) + 1 / 2 ^ 46) ∧
      ((detect_dominant_color_ieee vips input out).out.comps 1 = .finite (to_double
          (mean_with_speckle (resized.height.toNat * resized.width.toNat) c.2.1 s.2.1)) ∧
        |mean_with_speckle (resized.height.toNat * resized.width.toNat) c.2.1 s.2.1
            - (c.2.1 : ℚ)|
          ≤ 15 / ((resized.height.toNat * resized.width.toNat : Nat) : ℚ) ∧
        ((16 * (c.2.1 / 16) : Nat) : ℚ) ≤ to_double
          (mean_with_speckle (resized.height.toNat * resized.width.toNat) c.2.1 s.2.1) ∧
        to_double (mean_with_speckle (resized.height.toNat * resized.width.toNat) c.2.1 s.2.1)
          ≤ ((16 * (c.2.1 / 16) + 15 : Nat) : ℚ) ∧
        |to_double (mean_with_speckle (resized.height.toNat * resized.width.toNat) c.2.1 s.2.1)
            - (c.2.1 : ℚ)|
          ≤ 15 / ((resized.height.toNat * resized.width.toNat : Nat) : ℚ) + 1 / 2 ^ 46) ∧
      ((detect_dominant_color_ieee vips input out).out.comps 2 = .finite (to_double
          (mean_with_speckle (resized.height.toNat * resized.width.toNat) c.2.2 s.2.2)) ∧
        |mean_with_speckle (resized.height.toNat * resized.width.toNat) c.2.2 s.2.2
            - (c.2.2 : ℚ)|
          ≤ 15 / ((resized.height.toNat * resized.width.toNat : Nat) : ℚ) ∧
        ((16 * (c.2.2 / 16) : Nat) : ℚ) ≤ to_double
          (mean_with_speckle (resized.height.toNat * resized.width.toNat) c.2.2 s.2.2) ∧
        to_double (mean_with_speckle (resized.height.toNat * resized.width.toNat) c.2.2 s.2.2)
          ≤ ((16 * (c.2.2 / 16) + 15 : Nat) : ℚ) ∧
        |to_double (mean_with_speckle (resized.height.toNat * resized.width.toNat) c.2.2 s.2.2)
            - (c.2.2 : ℚ)|
          ≤ 15 / ((resized.height.toNat * resized.width.toNat : Nat) : ℚ) + 1 / 2 ^ 46)) := by
  obtain ⟨hret, _, hb, c0, c1, c2, _⟩ :=
    detect_dominant_color_ieee_of_buffer vips input out resized bytes h1 h2
  obtain ⟨hcl, hdiff, hsame⟩ := dominant_rgb_speckle bytes resized.bands resized.width
    resized.height c s i0 hw hh hn hop hi0 hs hc
  refine ⟨hret, hb, ?_, ?_⟩
  · intro hkey
    rw [hdiff hkey] at c0 c1 c2
    rw [c0, c1, c2]
    dsimp only
    rw [to_double_natCast _ (by omega), to_double_natCast _ (by omega),
      to_double_natCast _ (by omega)]
    exact ⟨rfl, rfl, rfl⟩
  · intro hkey
    obtain ⟨hval, ⟨r1, r2, r3⟩, ⟨g1, g2, g3⟩, ⟨b1, b2, b3⟩⟩ := hsame hkey
    rw [hval] at c0 c1 c2 r1 r2 r3 g1 g2 g3 b1 b2 b3
    dsimp only at c0 c1 c2 r1 r2 r3 g1 g2 g3 b1 b2 b3
    have hfin : ∀ (m : ℚ) (v : Nat), v < 256 → ((16 * (v / 16) : Nat) : ℚ) ≤ m →
        m ≤ ((16 * (v / 16) + 15 : Nat) : ℚ) →
        |m - (v : ℚ)| ≤ 15 / ((resized.height.toNat * resized.width.toNat : Nat) : ℚ) →
        ((16 * (v / 16) : Nat) : ℚ) ≤ to_double m ∧
        to_double m ≤ ((16 * (v / 16) + 15 : Nat) : ℚ) ∧
        |to_double m - (v : ℚ)|
          ≤ 15 / ((resized.height.toNat * resized.width.toNat : Nat) : ℚ) + 1 / 2 ^ 46 := by
      intro m v hv l1 l2 l3
      obtain ⟨t1, t2⟩ := to_double_mem m (16 * (v / 16)) (16 * (v / 16) + 15) (by omega) l1 l2
      refine ⟨t1, t2, ?_⟩
      have hm0 : 0 ≤ m := le_trans (Nat.cast_nonneg _) l1
      have hm1 : m < 256 := by
        have : ((16 * (v / 16) + 15 : Nat) : ℚ) < 256 := by
          have h : 16 * (v / 16) + 15 < 256 := by omega
          exact_mod_cast h
        linarith
      have hnear := to_double_near m hm0 hm1
      calc |to_double m - (v : ℚ)| = |(to_double m - m) + (m - (v : ℚ))| := by ring_nf
        _ ≤ |to_double m - m| + |m - (v : ℚ)| := abs_add _ _
        _ ≤ 1 / 2 ^ 46 + 15 / ((resized.height.toNat * resized.width.toNat : Nat) : ℚ) :=
            add_le_add hnear l3
        _ = 15 / ((resized.height.toNat * resized.width.toNat : Nat) : ℚ) + 1 / 2 ^ 46 :=
            add_comm _ _
    obtain ⟨rr1, rr2, rr3⟩ := hfin _ c.1 hcl.1 r1 r2 r3
    obtain ⟨gg1, gg2, gg3⟩ := hfin _ c.2.1 hcl.2.1 g1 g2 g3
    obtain ⟨bb1, bb2, bb3⟩ := hfin _ c.2.2 hcl.2.2 b1 b2 b3
    exact ⟨⟨c0, r3, rr1, rr2, rr3⟩, ⟨c1, g3, gg1, gg2, gg3⟩, ⟨c2, b3, bb1, bb2, bb3⟩⟩

/-- C13 on two images of 3 by 1 pixels of the colour (200,100,50) whose last
pixel is a speckle: with the speckle (10,20,30), of another bucket, the
detected colour is (200,100,50); with the speckle (207,111,63), of the same
bucket, the first detected component is the double nearest to the mean of 200,
200 and 207 and lies within 15/3 + 2^(-46) of 200. -/
theorem C13_speckle_ignored_witness :
    ((detect_dominant_color_ieee (vips_plain (blank_image 1 1 3))
        ⟨3, 1, 3, true, false, [200, 100, 50, 200, 100, 50, 10, 20, 30]⟩
        isw_color_ieee.zero).out.comps 0 = .finite ((200 : Nat) : ℚ) ∧
      (detect_dominant_color_ieee (vips_plain (blank_image 1 1 3))
        ⟨3, 1, 3, true, false, [200, 100, 50, 200, 100, 50, 10, 20, 30]⟩
        isw_color_ieee.zero).out.comps 1 = .finite ((100 : Nat) : ℚ) ∧
      (detect_dominant_color_ieee (vips_plain (blank_image 1 1 3))
        ⟨3, 1, 3, true, false, [200, 100, 50, 200, 100, 50, 10, 20, 30]⟩
        isw_color_ieee.zero).out.comps 2 = .finite ((50 : Nat) : ℚ)) ∧
    ((detect_dominant_color_ieee (vips_plain (blank_image 1 1 3))
        ⟨3, 1, 3, true, false, [200, 100, 50, 200, 100, 50, 207, 111, 63]⟩
        isw_color_ieee.zero).out.comps 0
        = .finite (to_double (mean_with_speckle 3 200 207)) ∧
      |to_double (mean_with_speckle 3 200 207) - ((200 : Nat) : ℚ)|
        ≤ 15 / ((3 : Nat) : ℚ) + 1 / 2 ^ 46) := by
  obtain ⟨_, _, hd, _⟩ :=
    C13_speckle_ignored (vips_plain (blank_image 1 1 3))
      ⟨3, 1, 3, true, false, [200, 100, 50, 200, 100, 50, 10, 20, 30]⟩ isw_color_ieee.zero
      ⟨3, 1, 3, true, false, [200, 100, 50, 200, 100, 50, 10, 20, 30]⟩
      [200, 100, 50, 200, 100, 50, 10, 20, 30] (200, 100, 50) (10, 20, 30) 2 rfl rfl
      (by decide) (by decide) (by decide) (fun h => absurd h (by decide)) (by decide)
      (by decide) (by decide)
  obtain ⟨_, _, _, hn⟩ :=
    C13_speckle_ignored (vips_plain (blank_image 1 1 3))
      ⟨3, 1, 3, true, false, [200, 100, 50, 200, 100, 50, 207, 111, 63]⟩ isw_color_ieee.zero
      ⟨3, 1, 3, true, false, [200, 100, 50, 200, 100, 50, 207, 111, 63]⟩
      [200, 100, 50, 200, 100, 50, 207, 111, 63] (200, 100, 50) (207, 111, 63) 2 rfl rfl
      (by decide) (by decide) (by decide) (fun h => absurd h (by decide)) (by decide)
      (by decide) (by decide)
  obtain ⟨d0, d1, d2⟩ := hd (by decide)
  obtain ⟨⟨n0, _, _, _, n4⟩, _, _⟩ := hn (by decide)
  exact ⟨⟨d0, d1, d2⟩, n0, n4⟩

/-- C13 as stated fails on the code at an image of 11 by 1 pixels, ten of
the gray 192 and one of the gray 207, which lies in the same bucket: the mean
of each channel is 2127/11, exactly 15/11 above 192, and the quotient the code
stores is the double nearest to it, 6803378130267788 / 2^45, which is more
than 15/11 above 192. -/
theorem C13_rounded_mean_counterexample :
    pixel_key (207, 207, 207) = pixel_key (192, 192, 192) ∧
    (detect_dominant_color_ieee (vips_plain (blank_image 1 1 3))
        ⟨11, 1, 3, true, false, List.replicate 30 192 ++ [207, 207, 207]⟩
        isw_color_ieee.zero).out.comps 0
      = .finite (6803378130267788 / 2 ^ 45) ∧
    (15 : ℚ) / 11 < 6803378130267788 / 2 ^ 45 - 192 := by
  obtain ⟨_, _, _, c0, _⟩ :=
    detect_dominant_color_ieee_of_buffer (vips_plain (blank_image 1 1 3))
      ⟨11, 1, 3, true, false, List.replicate 30 192 ++ [207, 207, 207]⟩ isw_color_ieee.zero
      ⟨11, 1, 3, true, false, List.replicate 30 192 ++ [207, 207, 207]⟩
      (List.replicate 30 192 ++ [207, 207, 207]) rfl rfl
  obtain ⟨_, _, hsame⟩ := dominant_rgb_speckle (List.replicate 30 192 ++ [207, 207, 207])
    3 11 1 (192, 192, 192) (207, 207, 207) 10 (by decide) (by decide) (by decide)
    (fun h => absurd h (by decide)) (by decide) (by decide) (by decide)
  obtain ⟨hval, _⟩ := hsame (by decide)
  have hx : (dominant_rgb (List.replicate 30 192 ++ [207, 207, 207]) 3 11 1).1
      = 2127 / 11 := by
    rw [hval]
    have e1 : (1 : Int).toNat * (11 : Int).toNat = 11 := by decide
    dsimp only
    rw [e1]
    norm_num
  have hup : to_double (2127 / 11) = ((6803378130267787 : Int) + 1 : ℚ) * 2 ^ ((7 : Int) - 52) :=
    to_double_up (2127 / 11) 7 6803378130267787 (by norm_num) (by norm_num) (by norm_num)
      (by norm_num) (by norm_num)
  refine ⟨by decide, ?_, by norm_num⟩
  rw [c0]
  show double.finite (to_double
    (dominant_rgb (List.replicate 30 192 ++ [207, 207, 207]) 3 11 1).1) = _
  rw [hx, hup]
  norm_num

/-- C14. Take three runs of `detect_dominant_color` whose libvips calls
succeed on 4-band sampled images.  The first two buffers have the same number
of pixels, and at each position either both have alpha of 8 or more and the
same R, G, B, or both have alpha below 8, with whatever R, G, B.  The third
buffer is the first with its pixels of alpha below 8 removed.  Then the three
runs return the same result.  In a 4-band buffer the loop body counts a pixel
with alpha 8, adding it to its bucket and to `samples`, and leaves the
histogram alone at a pixel with alpha below 8. -/
theorem C14_transparent_pixels_ignored (vips : Vips) (in1 in2 in3 : VipsImage)
    (out : isw_color) (r1 r2 r3 : VipsImage) (b1 b2 : List Nat)
    (h1 : sampled_image vips in1 = some r1) (h2 : vips.image_write_to_memory r1 = some b1)
    (h3 : sampled_image vips in2 = some r2) (h4 : vips.image_write_to_memory r2 = some b2)
    (h5 : sampled_image vips in3 = some r3)
    (h6 : vips.image_write_to_memory r3
      = some (buffer_of (opaque_pixels b1 (r1.height.toNat * r1.width.toNat))))
    (hb1 : r1.bands = 4) (hb2 : r2.bands = 4) (hb3 : r3.bands = 4)
    (hsz : r2.height.toNat * r2.width.toNat = r1.height.toNat * r1.width.toNat)
    (hsz3 : r3.height.toNat * r3.width.toNat
      = (opaque_pixels b1 (r1.height.toNat * r1.width.toNat)).length)
    (hagree : ∀ i, i < r1.height.toNat * r1.width.toNat →
      (8 ≤ pixel_alpha b1 i ∧ 8 ≤ pixel_alpha b2 i ∧ pixel_rgb b1 4 i = pixel_rgb b2 4 i) ∨
      (pixel_alpha b1 i < 8 ∧ pixel_alpha b2 i < 8)) :
    detect_dominant_color vips in2 out = detect_dominant_color vips in1 out ∧
    detect_dominant_color vips in3 out = detect_dominant_color vips in1 out ∧
    (∀ (bytes : List Nat) (width_r : Int) (h : Histogram) (y x : Nat),
      (pixel_alpha bytes (y * width_r.toNat + x) = 8 →
        sample_pixel bytes 4 width_r h y x
          = add_sample h (pixel_rgb bytes 4 (y * width_r.toNat + x))) ∧
      (pixel_alpha bytes (y * width_r.toNat + x) < 8 →
        sample_pixel bytes 4 width_r h y x = h)) := by
  refine ⟨?_, ?_, ?_⟩
  · rw [detect_dominant_color_eq vips in1 out r1 b1 h1 h2,
      detect_dominant_color_eq vips in2 out r2 b2 h3 h4, hb1, hb2,
      dominant_rgb_congr b2 b1 4 4 r2.width r2.height r1.width r1.height
        (by rw [hsz]; exact (counted_pixels_agree b1 b2 _ hagree).symm)]
  · rw [detect_dominant_color_eq vips in1 out r1 b1 h1 h2,
      detect_dominant_color_eq vips in3 out r3 _ h5 h6, hb1, hb3,
      dominant_rgb_congr _ b1 4 4 r3.width r3.height r1.width r1.height
        (by rw [hsz3]; exact counted_pixels_opaque b1 _)]
  · intro bytes width_r h y x
    rw [sample_pixel_eq, pixel_counted_four]
    refine ⟨?_, ?_⟩
    · intro h8
      rw [decide_eq_true (by omega), if_pos rfl]
    · intro h8
      rw [decide_eq_false (by omega)]
      rfl

/-- C14 on three images: two of 2 by 1 pixels that share the pixel
(10,20,30,255) and differ in a second pixel of alpha 3 and 0, and the image of
that one shared pixel alone; the detector returns the same for all three. -/
theorem C14_transparent_pixels_ignored_witness :
    detect_dominant_color (vips_plain (blank_image 1 1 4))
        ⟨2, 1, 4, true, true, [10, 20, 30, 255, 1, 2, 3, 0]⟩ isw_color.zero
      = detect_dominant_color (vips_plain (blank_image 1 1 4))
        ⟨2, 1, 4, true, true, [10, 20, 30, 255, 99, 98, 97, 3]⟩ isw_color.zero ∧
    detect_dominant_color (vips_plain (blank_image 1 1 4))
        ⟨1, 1, 4, true, true, [10, 20, 30, 255]⟩ isw_color.zero
      = detect_dominant_color (vips_plain (blank_image 1 1 4))
        ⟨2, 1, 4, true, true, [10, 20, 30, 255, 99, 98, 97, 3]⟩ isw_color.zero ∧
    sample_pixel [200, 100, 50, 8] 4 1 Histogram.empty 0 0
      = add_sample Histogram.empty (200, 100, 50) :=
  have h := C14_transparent_pixels_ignored (vips_plain (blank_image 1 1 4))
    ⟨2, 1, 4, true, true, [10, 20, 30, 255, 99, 98, 97, 3]⟩
    ⟨2, 1, 4, true, true, [10, 20, 30, 255, 1, 2, 3, 0]⟩
    ⟨1, 1, 4, true, true, [10, 20, 30, 255]⟩ isw_color.zero
    ⟨2, 1, 4, true, true, [10, 20, 30, 255, 99, 98, 97, 3]⟩
    ⟨2, 1, 4, true, true, [10, 20, 30, 255, 1, 2, 3, 0]⟩
    ⟨1, 1, 4, true, true, [10, 20, 30, 255]⟩
    [10, 20, 30, 255, 99, 98, 97, 3] [10, 20, 30, 255, 1, 2, 3, 0]
    rfl rfl rfl rfl rfl rfl rfl rfl rfl rfl rfl (by decide)
  ⟨h.1, h.2.1, (h.2.2 [200, 100, 50, 8] 1 Histogram.empty 0 0).1 (by decide)⟩

/-! ## The claims about the resolver's modes and about clamping -/

/-- C16. In transparent mode, on a prepared image with 3 or 4 bands that has
alpha exactly when it has 4 bands, under a toolkit whose `vips_addalpha` turns
3 bands into 4: a 4-band image comes back itself with the 4-band colour
{0,0,0,0}; a 3-band image comes back as the image `vips_addalpha` made of it,
which has 4 bands, with the same colour, and the resolver fails there only when
`vips_addalpha` does; and whatever the resolver returns is that colour with a
4-band image. -/
theorem C16_transparent_resolved (vips : Vips) (opts : isw_options) (prepared : VipsImage)
    (hm : opts.background_mode = .ISW_BG_TRANSPARENT)
    (hbands : prepared.bands = 3 ∨ prepared.bands = 4)
    (halpha : prepared.hasalpha = true ↔ prepared.bands = 4)
    (hadd : ∀ img img2, vips.addalpha img = some img2 → img.bands = 3 → img2.bands = 4) :
    (prepared.bands = 4 →
      resolve_background vips opts prepared = .ok (⟨fun _ => 0, 4⟩, prepared)) ∧
    (prepared.bands = 3 → ∀ with_alpha, vips.addalpha prepared = some with_alpha →
      with_alpha.bands = 4 ∧
      resolve_background vips opts prepared = .ok (⟨fun _ => 0, 4⟩, with_alpha)) ∧
    (prepared.bands = 3 → vips.addalpha prepared = none →
      resolve_background vips opts prepared = .error .VipsFailure) ∧
    (∀ bg img, resolve_background vips opts prepared = .ok (bg, img) →
      bg = ⟨fun _ => 0, 4⟩ ∧ img.bands = 4 ∧
      (prepared.bands = 4 ∧ img = prepared ∨
        prepared.bands = 3 ∧ vips.addalpha prepared = some img)) := by
  have hres := resolve_background_transparent vips opts prepared hm
  have h3 : prepared.bands = 3 → ¬ prepared.hasalpha = true := by
    intro h3 ha
    have := halpha.mp ha
    omega
  refine ⟨?_, ?_, ?_, ?_⟩
  · intro h4
    rw [hres, if_pos (halpha.mpr h4)]
    dsimp only
    rw [h4]
  · intro hb3 with_alpha ha
    have hb4 := hadd prepared with_alpha ha hb3
    refine ⟨hb4, ?_⟩
    rw [hres, if_neg (h3 hb3), ha]
    dsimp only
    rw [hb4]
  · intro hb3 ha
    rw [hres, if_neg (h3 hb3), ha]
  · intro bg img h
    rw [hres] at h
    rcases hbands with hb3 | hb4
    · rw [if_neg (h3 hb3)] at h
      cases ha : vips.addalpha prepared with
      | none => rw [ha] at h; cases h
      | some wa =>
        rw [ha] at h
        simp only [Except.ok.injEq, Prod.mk.injEq] at h
        have hb4 := hadd prepared wa ha hb3
        rw [hb4] at h
        exact ⟨h.1.symm, by rw [← h.2]; exact hb4, Or.inr ⟨hb3, by rw [← h.2]⟩⟩
    · rw [if_pos (halpha.mpr hb4)] at h
      simp only [Except.ok.injEq, Prod.mk.injEq] at h
      rw [hb4] at h
      exact ⟨h.1.symm, by rw [← h.2]; exact hb4, Or.inl ⟨hb4, h.2.symm⟩⟩

/-- C16 on a 4-band and on a 3-band image of 4 by 4 pixels: the first comes
back itself, the second with 4 bands, both with the colour {0,0,0,0}. -/
theorem C16_transparent_resolved_witness :
    resolve_background (vips_plain (blank_image 4 4 4)) opts_transparent (blank_image 4 4 4)
      = .ok (⟨fun _ => 0, 4⟩, blank_image 4 4 4) ∧
    resolve_background (vips_plain (blank_image 4 4 3)) opts_transparent (blank_image 4 4 3)
      = .ok (⟨fun _ => 0, 4⟩, ⟨4, 4, 4, true, true, []⟩) :=
  ⟨(C16_transparent_resolved (vips_plain (blank_image 4 4 4)) opts_transparent
      (blank_image 4 4 4) rfl (by decide) (by decide) (vips_plain_addalpha _)).1 (by decide),
    ((C16_transparent_resolved (vips_plain (blank_image 4 4 3)) opts_transparent
      (blank_image 4 4 3) rfl (by decide) (by decide) (vips_plain_addalpha _)).2.1
        (by decide) ⟨4, 4, 4, true, true, []⟩ rfl).2⟩

/-- C17 fails for a manual colour with a component above 255: the 3-band
colour {300,0,0} comes back from the resolver with first component 255, both on
a 3-band image, where the band counts match, and on a 4-band image, where the
colour is widened. -/
theorem C17_manual_out_of_range_counterexample :
    (∃ bg, resolve_background (vips_plain (blank_image 2 2 3)) (opts_manual3 300 0 0)
        (blank_image 2 2 3) = .ok (bg, blank_image 2 2 3) ∧
      (opts_manual3 300 0 0).manual_color.bands = (blank_image 2 2 3).bands ∧
      (opts_manual3 300 0 0).manual_color.comps 0 = 300 ∧ bg.comps 0 = 255 ∧
      bg ≠ (opts_manual3 300 0 0).manual_color) ∧
    (∃ bg, resolve_background (vips_plain (blank_image 2 2 4)) (opts_manual3 300 0 0)
        (blank_image 2 2 4) = .ok (bg, blank_image 2 2 4) ∧
      (opts_manual3 300 0 0).manual_color.bands = 3 ∧ (blank_image 2 2 4).bands = 4 ∧
      (opts_manual3 300 0 0).manual_color.comps 0 = 300 ∧ bg.comps 0 = 255 ∧
      bg.comps 0 ≠ (opts_manual3 300 0 0).manual_color.comps 0) := by
  have h300 : clamp_component 300 = 255 := clamp_component_of_gt 300 (by norm_num)
  refine ⟨⟨clamp_color (opts_manual3 300 0 0).manual_color, ?_, rfl, rfl, ?_, ?_⟩,
    ⟨clamp_color { (opts_manual3 300 0 0).manual_color.setComp 3 255 with bands := 4 },
      ?_, rfl, rfl, rfl, ?_, ?_⟩⟩
  · rw [resolve_background_manual _ _ _ rfl]
    rfl
  · rw [clamp_color_comps]
    exact h300
  · intro h
    have h0 := congrArg (fun c => c.comps 0) h
    simp only [clamp_color_comps] at h0
    have e : (opts_manual3 300 0 0).manual_color.comps 0 = 300 := rfl
    have hb : ((0 : Fin 4).val : Int) < (opts_manual3 300 0 0).manual_color.bands := by decide
    rw [if_pos hb, e, h300] at h0
    norm_num at h0
  · rw [resolve_background_manual _ _ _ rfl]
    rfl
  · rw [clamp_color_comps]
    exact h300
  · rw [clamp_color_comps]
    have e : (opts_manual3 300 0 0).manual_color.comps 0 = 300 := rfl
    have e2 : ({ (opts_manual3 300 0 0).manual_color.setComp 3 255 with bands := 4 } :
      isw_color).comps 0 = 300 := rfl
    have hb : ((0 : Fin 4).val : Int) < ({ (opts_manual3 300 0 0).manual_color.setComp 3 255
      with bands := 4 } : isw_color).bands := by decide
    rw [if_pos hb, e, e2, h300]
    norm_num

/-- C17, for manual colours whose components lie in 0..255.  In manual mode
with such a colour: a 3-band colour on a 4-band image comes back with 4 bands,
its first three components kept and the fourth 255, with the image itself; a
4-band colour on a 3-band image comes back itself with the image
`vips_addalpha` made; with equal band counts colour and image come back
themselves.  In automatic mode, when the libvips calls of the detector succeed
on a sampled buffer of fewer than `2^32` pixels: the detected 3-band colour
comes back widened in the same way on a 4-band image and itself on a 3-band
image, with the image itself. -/
theorem C17_band_reconciliation (vips : Vips) (opts : isw_options) (prepared : VipsImage) :
    (opts.background_mode = .ISW_BG_MANUAL →
      (∀ i : Fin 4, (i.val : Int) < opts.manual_color.bands →
        0 ≤ opts.manual_color.comps i ∧ opts.manual_color.comps i ≤ 255) →
      (opts.manual_color.bands = 3 → prepared.bands = 4 →
        resolve_background vips opts prepared
          = .ok ({ opts.manual_color.setComp 3 255 with bands := 4 }, prepared)) ∧
      (opts.manual_color.bands = 4 → prepared.bands = 3 →
        ∀ with_alpha, vips.addalpha prepared = some with_alpha →
          resolve_background vips opts prepared = .ok (opts.manual_color, with_alpha)) ∧
      (opts.manual_color.bands = prepared.bands →
        resolve_background vips opts prepared = .ok (opts.manual_color, prepared))) ∧
    (opts.background_mode = .ISW_BG_AUTO →
      ∀ resized bytes, sampled_image vips prepared = some resized →
        vips.image_write_to_memory resized = some bytes →
        resized.height.toNat * resized.width.toNat < 2 ^ 32 →
      (detect_dominant_color vips prepared isw_color.zero).out.bands = 3 ∧
      (prepared.bands = 4 →
        resolve_background vips opts prepared
          = .ok ({ (detect_dominant_color vips prepared isw_color.zero).out.setComp 3 255
              with bands := 4 }, prepared)) ∧
      (prepared.bands = 3 →
        resolve_background vips opts prepared
          = .ok ((detect_dominant_color vips prepared isw_color.zero).out, prepared))) := by
  refine ⟨?_, ?_⟩
  · intro hm hrange
    have hres := resolve_background_manual vips opts prepared hm
    refine ⟨?_, ?_, ?_⟩
    · intro hc hp
      have hn : ¬ (opts.manual_color.bands = 4 ∧ prepared.bands = 3) := by omega
      rw [hres, if_neg hn, if_pos ⟨hc, hp⟩, clamp_color_of_mem]
      intro i _
      by_cases h3 : i = 3
      · subst h3
        simp only [isw_color.setComp, if_true]
        norm_num
      · have hlt : (i.val : Int) < opts.manual_color.bands := by
          rcases i with ⟨v, hv⟩
          have : v ≠ 3 := fun e => h3 (by subst e; rfl)
          rw [hc]
          show (v : Int) < 3
          omega
        simp only [isw_color.setComp, if_neg h3]
        exact hrange i hlt
    · intro hc hp with_alpha ha
      rw [hres, if_pos ⟨hc, hp⟩, ha, clamp_color_of_mem _ hrange]
    · intro heq
      have hn1 : ¬ (opts.manual_color.bands = 4 ∧ prepared.bands = 3) := by omega
      have hn2 : ¬ (opts.manual_color.bands = 3 ∧ prepared.bands = 4) := by omega
      rw [hres, if_neg hn1, if_neg hn2, clamp_color_of_mem _ hrange]
  · intro hm resized bytes h1 h2 hsize
    obtain ⟨hret, _, hb, _⟩ :=
      detect_dominant_color_of_buffer vips prepared isw_color.zero resized bytes h1 h2
    obtain ⟨hc3, hc4⟩ := detected_clamp_fixed vips prepared isw_color.zero resized bytes h1 h2 hsize
    have hres := resolve_background_auto vips opts prepared hm hret
    refine ⟨hb, ?_, ?_⟩
    · intro hp
      rw [hres, if_pos hp, hc4]
    · intro hp
      have hn : ¬ prepared.bands = 4 := by omega
      rw [hres, if_neg hn, hc3]

/-- C17 on three runs: the manual colour {10,20,30} on a 4-band image comes
back as {10,20,30,255}; the manual colour {1,2,3,4} on a 3-band image comes
back itself with the image given an alpha band; in automatic mode a 3-band
image of one pixel comes back itself with the detected colour. -/
theorem C17_band_reconciliation_witness :
    resolve_background (vips_plain (blank_image 2 2 4)) (opts_manual3 10 20 30)
        (blank_image 2 2 4)
      = .ok ({ (opts_manual3 10 20 30).manual_color.setComp 3 255 with bands := 4 },
          blank_image 2 2 4) ∧
    resolve_background (vips_plain (blank_image 2 2 3)) (opts_manual4 1 2 3 4)
        (blank_image 2 2 3)
      = .ok ((opts_manual4 1 2 3 4).manual_color, ⟨2, 2, 4, true, true, []⟩) ∧
    resolve_background (vips_plain (blank_image 1 1 3)) opts_auto
        ⟨1, 1, 3, true, false, [200, 100, 50]⟩
      = .ok ((detect_dominant_color (vips_plain (blank_image 1 1 3))
          ⟨1, 1, 3, true, false, [200, 100, 50]⟩ isw_color.zero).out,
          ⟨1, 1, 3, true, false, [200, 100, 50]⟩) := by
  have r3 : ∀ i : Fin 4, (i.val : Int) < (opts_manual3 10 20 30).manual_color.bands →
      0 ≤ (opts_manual3 10 20 30).manual_color.comps i ∧
        (opts_manual3 10 20 30).manual_color.comps i ≤ 255 := by
    intro i _
    fin_cases i <;> simp [opts_manual3] <;> norm_num
  have r4 : ∀ i : Fin 4, (i.val : Int) < (opts_manual4 1 2 3 4).manual_color.bands →
      0 ≤ (opts_manual4 1 2 3 4).manual_color.comps i ∧
        (opts_manual4 1 2 3 4).manual_color.comps i ≤ 255 := by
    intro i _
    fin_cases i <;> simp [opts_manual4] <;> norm_num
  exact ⟨((C17_band_reconciliation (vips_plain (blank_image 2 2 4)) (opts_manual3 10 20 30)
      (blank_image 2 2 4)).1 rfl r3).1 rfl rfl,
    ((C17_band_reconciliation (vips_plain (blank_image 2 2 3)) (opts_manual4 1 2 3 4)
      (blank_image 2 2 3)).1 rfl r4).2.1 rfl rfl ⟨2, 2, 4, true, true, []⟩ rfl,
    ((C17_band_reconciliation (vips_plain (blank_image 1 1 3)) opts_auto
      ⟨1, 1, 3, true, false, [200, 100, 50]⟩).2 rfl
        ⟨1, 1, 3, true, false, [200, 100, 50]⟩ [200, 100, 50] rfl rfl (by decide)).2.2 rfl⟩

/-- C18 fails on the code for a manual colour with a NaN component.  In double
arithmetic both tests of `clamp_color` are false for a NaN, so the resolver
hands the colour of `--rcb nan,0,0` to the compositor with its first component
still a NaN, which is no number of 0..255.  Every other component comes out
as the claim says: each of the first `bands` components of the colour the
resolver returns is a number of 0..255 unless it is a NaN of the manual
colour; `clamp_color` turns a component below 0 into 0 and one above 255 into
255, the infinities included, keeps a component of 0..255, and applying it
twice is the same as applying it once. -/
theorem C18_nan_not_clamped :
    (∃ bg, resolve_background_ieee (vips_plain (blank_image 4 4 3)) opts_manual_nan
        (blank_image 4 4 3) = .ok (bg, blank_image 4 4 3) ∧
      bg.bands = 3 ∧ bg.comps 0 = .nan ∧
      ¬ ∃ q : ℚ, bg.comps 0 = .finite q ∧ 0 ≤ q ∧ q ≤ 255) ∧
    (∀ (vips : Vips) (opts : isw_options_ieee) (prepared img : VipsImage) (bg : isw_color_ieee),
      resolve_background_ieee vips opts prepared = .ok (bg, img) →
      ∀ i : Fin 4, (i.val : Int) < bg.bands →
        (bg.comps i = .nan ∧ opts.background_mode = .ISW_BG_MANUAL ∧
          opts.manual_color.comps i = .nan) ∨
        (∃ q : ℚ, bg.comps i = .finite q ∧ 0 ≤ q ∧ q ≤ 255)) ∧
    (∀ (c : isw_color_ieee) (i : Fin 4), (i.val : Int) < c.bands →
      (double.lt (c.comps i) (.finite 0) = true → (clamp_color_ieee c).comps i = .finite 0) ∧
      (double.lt (.finite 255) (c.comps i) = true →
        (clamp_color_ieee c).comps i = .finite 255) ∧
      (∀ q : ℚ, c.comps i = .finite q → 0 ≤ q → q ≤ 255 →
        (clamp_color_ieee c).comps i = .finite q) ∧
      (c.comps i = .nan → (clamp_color_ieee c).comps i = .nan)) ∧
    (∀ c : isw_color_ieee, clamp_color_ieee (clamp_color_ieee c) = clamp_color_ieee c) := by
  have hidem : ∀ x : double, clamp_component_ieee (clamp_component_ieee x)
      = clamp_component_ieee x := by
    intro x
    rcases clamp_component_ieee_cases x with ⟨_, h⟩ | ⟨_, q, h, h0, h1⟩
    · rw [h]; rfl
    · rw [h, clamp_component_ieee_finite, clamp_component_of_mem q h0 h1]
  refine ⟨⟨clamp_color_ieee opts_manual_nan.manual_color, rfl, rfl, rfl, ?_⟩, ?_, ?_, ?_⟩
  · rintro ⟨q, hq, _⟩
    have hn : (clamp_color_ieee opts_manual_nan.manual_color).comps 0 = .nan := rfl
    rw [hn] at hq
    cases hq
  · intro vips opts prepared img bg h i hi
    obtain ⟨c, hc, hnan⟩ := resolve_background_ieee_clamped vips opts prepared img bg h
    rw [hc] at hi ⊢
    have hi2 : (i.val : Int) < c.bands := hi
    rw [clamp_color_ieee_comps, if_pos hi2]
    rcases clamp_component_ieee_cases (c.comps i) with ⟨hx, h⟩ | ⟨_, q, h, h0, h1⟩
    · exact Or.inl ⟨h, hnan i hx⟩
    · exact Or.inr ⟨q, h, h0, h1⟩
  · intro c i hi
    rw [clamp_color_ieee_comps, if_pos hi]
    refine ⟨?_, ?_, ?_, ?_⟩
    · intro hlt
      cases hx : c.comps i with
      | nan => rw [hx] at hlt; cases hlt
      | inf negative =>
        rw [hx] at hlt
        cases negative
        · cases hlt
        · rfl
      | finite q =>
        rw [hx] at hlt
        have hq : q < 0 := by simpa [double.lt] using hlt
        rw [clamp_component_ieee_finite, clamp_component_of_neg q hq]
    · intro hgt
      cases hx : c.comps i with
      | nan => rw [hx] at hgt; cases hgt
      | inf negative =>
        rw [hx] at hgt
        cases negative
        · rfl
        · cases hgt
      | finite q =>
        rw [hx] at hgt
        have hq : 255 < q := by simpa [double.lt] using hgt
        rw [clamp_component_ieee_finite, clamp_component_of_gt q hq]
    · intro q hx h0 h1
      rw [hx, clamp_component_ieee_finite, clamp_component_of_mem q h0 h1]
    · intro hx
      rw [hx]
      rfl
  · intro c
    cases c with
    | mk comps bands =>
      unfold clamp_color_ieee
      congr 1
      funext i
      by_cases hi : (i.val : Int) < bands
      · simp only [if_pos hi]
        exact hidem _
      · simp only [if_neg hi]

/-! ## The claim about the output formats -/

/-- C19. An extension supports alpha exactly when it is supported and is
neither "jpg" nor "jpeg".  And when the options `main` has read ask for a
transparent background or a manual colour of 4 bands, and the extension
`extract_extension` takes from the output path is "jpg" or "jpeg", `main`
exits with `EXIT_FAILURE` without calling `isw_process`: with the message
about the input extension if that is unsupported, otherwise with the message
that the background needs an alpha-capable output format. -/
theorem C19_alpha_needs_capable_output :
    (∀ e : List Char, extension_supports_alpha (some e) = true ↔
      (is_supported_extension (some e) = true ∧ cstr e ≠ "jpg".toList ∧
        cstr e ≠ "jpeg".toList)) ∧
    (∀ (strtod : List Char → StrtodResult) (vips : Vips) (vips_init : Int)
      (background_spec : Option (List Char)) (opts : isw_options)
      (input_path output_path e : List Char),
      main_options strtod background_spec = some opts →
      (opts.background_mode = .ISW_BG_TRANSPARENT ∨
        (opts.background_mode = .ISW_BG_MANUAL ∧ opts.manual_color.bands = 4)) →
      extract_extension (some output_path) 16 = some e →
      (e = "jpg".toList ∨ e = "jpeg".toList) →
      (main strtod vips vips_init background_spec [input_path, output_path]).status
        = EXIT_FAILURE ∧
      (main strtod vips vips_init background_spec [input_path, output_path]).process_call
        = none ∧
      ((main strtod vips vips_init background_spec [input_path, output_path]).error
          = some .InputExtension ∨
        (opts.background_mode = .ISW_BG_TRANSPARENT ∧
          (main strtod vips vips_init background_spec [input_path, output_path]).error
            = some .TransparentNeedsAlpha) ∨
        (opts.background_mode = .ISW_BG_MANUAL ∧
          (main strtod vips vips_init background_spec [input_path, output_path]).error
            = some .FourComponentsNeedAlpha))) := by
  refine ⟨?_, ?_⟩
  · intro e
    rw [extension_supports_alpha_iff, is_supported_extension_iff]
    exact alpha_exts_iff (cstr e)
  · intro strtod vips vips_init background_spec opts input_path output_path e hopts hbg hext he
    have hsup : is_supported_extension (some e) = true := by
      rcases he with h | h <;> rw [h] <;> decide
    have halpha : extension_supports_alpha (some e) = false := by
      rcases he with h | h <;> rw [h] <;> decide
    have hrest : (match extract_extension (some output_path) 16 with
        | none => (⟨EXIT_FAILURE, some .OutputExtension, none⟩ : MainRun)
        | some output_ext =>
          if ¬ is_supported_extension (some output_ext) then
            ⟨EXIT_FAILURE, some .OutputExtension, none⟩
          else if opts.background_mode = isw_background_mode.ISW_BG_TRANSPARENT ∧
              ¬ extension_supports_alpha (some output_ext) then
            ⟨EXIT_FAILURE, some .TransparentNeedsAlpha, none⟩
          else if opts.background_mode = isw_background_mode.ISW_BG_MANUAL ∧ opts.manual_color.bands = 4 ∧
              ¬ extension_supports_alpha (some output_ext) then
            ⟨EXIT_FAILURE, some .FourComponentsNeedAlpha, none⟩
          else if vips_init ≠ 0 then ⟨EXIT_FAILURE, some .VipsInit, none⟩
          else
            if (isw_process vips (some input_path) (some output_path) (some opts)).ret ≠ 0 then
              ⟨EXIT_FAILURE, some .Processing, some (input_path, output_path, opts)⟩
            else ⟨EXIT_SUCCESS, none, some (input_path, output_path, opts)⟩)
        = if opts.background_mode = isw_background_mode.ISW_BG_TRANSPARENT then
            ⟨EXIT_FAILURE, some .TransparentNeedsAlpha, none⟩
          else ⟨EXIT_FAILURE, some .FourComponentsNeedAlpha, none⟩ := by
      rw [hext]
      dsimp only
      rw [hsup, halpha]
      have hs : ¬ ¬ (true = true) := fun h => h rfl
      rw [if_neg hs]
      rcases hbg with ht | ⟨hm, h4⟩
      · have hc : opts.background_mode = .ISW_BG_TRANSPARENT ∧ ¬ (false = true) :=
          ⟨ht, Bool.false_ne_true⟩
        rw [if_pos hc, if_pos ht]
      · have hnt0 : ¬ opts.background_mode = .ISW_BG_TRANSPARENT := by
          rw [hm]
          intro h
          cases h
        have hnt : ¬ (opts.background_mode = .ISW_BG_TRANSPARENT ∧ ¬ (false = true)) :=
          fun h => hnt0 h.1
        have hc : opts.background_mode = .ISW_BG_MANUAL ∧ opts.manual_color.bands = 4 ∧
            ¬ (false = true) := ⟨hm, h4, Bool.false_ne_true⟩
        rw [if_neg hnt, if_pos hc, if_neg hnt0]
    unfold main
    rw [hopts]
    dsimp only
    rw [hrest]
    have hmode : opts.background_mode = .ISW_BG_TRANSPARENT ∨
        opts.background_mode = .ISW_BG_MANUAL := by
      rcases hbg with ht | ⟨hm, _⟩
      · exact Or.inl ht
      · exact Or.inr hm
    by_cases hin : (match extract_extension (some input_path) 16 with
        | none => false
        | some input_ext => is_supported_extension (some input_ext)) = true
    · have hn : ¬ ¬ (match extract_extension (some input_path) 16 with
          | none => false
          | some input_ext => is_supported_extension (some input_ext)) = true := fun h => h hin
      rw [if_neg hn]
      by_cases ht : opts.background_mode = .ISW_BG_TRANSPARENT
      · rw [if_pos ht]
        exact ⟨rfl, rfl, Or.inr (Or.inl ⟨ht, rfl⟩)⟩
      · rw [if_neg ht]
        rcases hmode with h | h
        · exact absurd h ht
        · exact ⟨rfl, rfl, Or.inr (Or.inr ⟨h, rfl⟩)⟩
    · rw [if_pos hin]
      exact ⟨rfl, rfl, Or.inl rfl⟩

/-- C19 on three command lines: `--rcb transparent in.png out.jpg` and
`--rcb #11223344 in.png OUT.JPEG` end with `EXIT_FAILURE` and no call of
`isw_process`, and `--rcb transparent in.png out.png` calls it. -/
theorem C19_alpha_needs_capable_output_witness :
    ((main strtod_decimal (vips_plain (blank_image 4 4 3)) 0 (some "transparent".toList)
        ["in.png".toList, "out.jpg".toList]).status = EXIT_FAILURE ∧
      (main strtod_decimal (vips_plain (blank_image 4 4 3)) 0 (some "transparent".toList)
        ["in.png".toList, "out.jpg".toList]).process_call = none) ∧
    ((main strtod_decimal (vips_plain (blank_image 4 4 3)) 0 (some "#11223344".toList)
        ["in.png".toList, "OUT.JPEG".toList]).status = EXIT_FAILURE ∧
      (main strtod_decimal (vips_plain (blank_image 4 4 3)) 0 (some "#11223344".toList)
        ["in.png".toList, "OUT.JPEG".toList]).process_call = none) ∧
    ((main strtod_decimal (vips_plain (blank_image 4 4 3)) 0 (some "transparent".toList)
        ["in.png".toList, "out.png".toList]).process_call.map fun c => (c.1, c.2.1))
      = some ("in.png".toList, "out.png".toList) := by
  have h1 := C19_alpha_needs_capable_output.2 strtod_decimal (vips_plain (blank_image 4 4 3)) 0
    (some "transparent".toList) opts_transparent "in.png".toList "out.jpg".toList "jpg".toList
    rfl (Or.inl rfl) (by decide) (Or.inl rfl)
  have h2 := C19_alpha_needs_capable_output.2 strtod_decimal (vips_plain (blank_image 4 4 3)) 0
    (some "#11223344".toList)
    ⟨.ISW_BG_MANUAL, (parse_hex_triplet "#11223344".toList isw_color.zero).out⟩
    "in.png".toList "OUT.JPEG".toList "jpeg".toList
    rfl (Or.inr ⟨rfl, by decide⟩) (by decide) (Or.inr rfl)
  exact ⟨⟨h1.1, h1.2.1⟩, ⟨h2.1, h2.2.1⟩, by decide⟩

/-! ## The claim about what a failed parse leaves behind -/

/-- C21 (amended). `isw_color_parse` leaves the colour behind `out` as it was
whenever it returns false, and whenever it returns true for the word
"transparent", which is whenever it returns true with the marker set.  So a
colour that changed comes from a call that returned true with the marker not
set.  A call that passes a spec, a colour and a marker and returns false
leaves the marker false.  A call with a null spec or a null `out` returns
false and leaves the marker as the caller had it. -/
theorem C21_colour_stored_only_on_success (strtod : List Char → StrtodResult)
    (spec : Option (List Char)) (out : Option isw_color) (flag : Option Bool) :
    ((isw_color_parse strtod spec out flag).ret = false →
      (isw_color_parse strtod spec out flag).out = out) ∧
    ((isw_color_parse strtod spec out flag).ret = true →
      (isw_color_parse strtod spec out flag).out_is_transparent = some true →
      (isw_color_parse strtod spec out flag).out = out) ∧
    (∀ s, spec = some s → isTransparentWord s →
      (isw_color_parse strtod spec out flag).out = out) ∧
    ((isw_color_parse strtod spec out flag).out ≠ out →
      (isw_color_parse strtod spec out flag).ret = true ∧
      (isw_color_parse strtod spec out flag).out_is_transparent ≠ some true) ∧
    (∀ s o b, spec = some s → out = some o → flag = some b →
      (isw_color_parse strtod spec out flag).ret = false →
      (isw_color_parse strtod spec out flag).out_is_transparent = some false) ∧
    ((spec = none ∨ out = none) →
      (isw_color_parse strtod spec out flag).ret = false ∧
      (isw_color_parse strtod spec out flag).out_is_transparent = flag) := by
  have hfail : (isw_color_parse strtod spec out flag).ret = false →
      (isw_color_parse strtod spec out flag).out = out := by
    intro h
    cases spec with
    | none => rfl
    | some s =>
      cases out with
      | none => rfl
      | some o =>
        simp only [isw_color_parse] at h ⊢
        split_ifs at h ⊢ with h1 h2
        · exact congrArg some (parse_hex_triplet_frame s o h)
        · exact congrArg some (parse_csv_frame strtod s o h)
  have hword : ∀ s, spec = some s → isTransparentWord s →
      (isw_color_parse strtod spec out flag).out = out := by
    intro s hs hw
    subst hs
    cases out with
    | none => rfl
    | some o =>
      have h0 := (strcasecmp_transparent_iff s).mpr hw
      simp only [isw_color_parse, if_pos h0]
  have hmark : (isw_color_parse strtod spec out flag).ret = true →
      (isw_color_parse strtod spec out flag).out_is_transparent = some true →
      (isw_color_parse strtod spec out flag).out = out := by
    intro hr hm
    cases spec with
    | none => rfl
    | some s =>
      cases out with
      | none => rfl
      | some o =>
        by_cases hw : isTransparentWord s
        · exact hword s rfl hw
        · exfalso
          have h0 : ¬ strcasecmp s "transparent".toList = 0 := fun h1 =>
            hw ((strcasecmp_transparent_iff s).mp h1)
          simp only [isw_color_parse, if_neg h0] at hm
          cases flag with
          | none => split_ifs at hm <;> cases hm
          | some b => split_ifs at hm <;> cases hm
  refine ⟨hfail, hmark, hword, ?_, ?_, ?_⟩
  · intro hne
    have hr : (isw_color_parse strtod spec out flag).ret = true := by
      cases hret : (isw_color_parse strtod spec out flag).ret with
      | true => rfl
      | false => exact absurd (hfail hret) hne
    exact ⟨hr, fun hm => hne (hmark hr hm)⟩
  · intro s o b hs ho hb hr
    subst hs ho hb
    by_cases hw : isTransparentWord s
    · exfalso
      have h0 := (strcasecmp_transparent_iff s).mpr hw
      simp only [isw_color_parse, if_pos h0] at hr
      cases hr
    · have h0 : ¬ strcasecmp s "transparent".toList = 0 := fun h1 =>
        hw ((strcasecmp_transparent_iff s).mp h1)
      simp only [isw_color_parse, if_neg h0]
      split_ifs <;> rfl
  · intro hnull
    cases spec with
    | none => exact ⟨rfl, rfl⟩
    | some s =>
      cases out with
      | none => exact ⟨rfl, rfl⟩
      | some o => rcases hnull with h | h <;> cases h

/-- C21 on calls that pass the colour {9,8,7,6} and a marker that is true: the
specs "#12", "#12g", "x", "1,2,300", "1;2;3" and "1,2" fail, one for each
message, and leave the colour as it was and the marker false; "Transparent"
succeeds and leaves the colour as it was; "#0f0" succeeds and stores a colour
of 3 bands. -/
theorem C21_colour_stored_only_on_success_witness :
    (isw_color_parse strtod_decimal (some "#12".toList)
        (some (opts_manual4 9 8 7 6).manual_color) (some true)).out
      = some (opts_manual4 9 8 7 6).manual_color ∧
    (isw_color_parse strtod_decimal (some "#12".toList)
        (some (opts_manual4 9 8 7 6).manual_color) (some true)).out_is_transparent
      = some false ∧
    (isw_color_parse strtod_decimal (some "#12g".toList)
        (some (opts_manual4 9 8 7 6).manual_color) (some true)).out
      = some (opts_manual4 9 8 7 6).manual_color ∧
    (isw_color_parse strtod_decimal (some "x".toList)
        (some (opts_manual4 9 8 7 6).manual_color) (some true)).out
      = some (opts_manual4 9 8 7 6).manual_color ∧
    (isw_color_parse strtod_decimal (some "1,2,300".toList)
        (some (opts_manual4 9 8 7 6).manual_color) (some true)).out
      = some (opts_manual4 9 8 7 6).manual_color ∧
    (isw_color_parse strtod_decimal (some "1,2,300".toList)
        (some (opts_manual4 9 8 7 6).manual_color) (some true)).out_is_transparent
      = some false ∧
    (isw_color_parse strtod_decimal (some "1;2;3".toList)
        (some (opts_manual4 9 8 7 6).manual_color) (some true)).out
      = some (opts_manual4 9 8 7 6).manual_color ∧
    (isw_color_parse strtod_decimal (some "1,2".toList)
        (some (opts_manual4 9 8 7 6).manual_color) (some true)).out
      = some (opts_manual4 9 8 7 6).manual_color ∧
    (isw_color_parse strtod_decimal (some "Transparent".toList)
        (some (opts_manual4 9 8 7 6).manual_color) (some true)).out
      = some (opts_manual4 9 8 7 6).manual_color ∧
    ((isw_color_parse strtod_decimal (some "#0f0".toList)
        (some (opts_manual4 9 8 7 6).manual_color) (some true)).out.map fun c => c.bands)
      = some 3 :=
  ⟨(C21_colour_stored_only_on_success strtod_decimal (some "#12".toList)
      (some (opts_manual4 9 8 7 6).manual_color) (some true)).1 (by decide),
    (C21_colour_stored_only_on_success strtod_decimal (some "#12".toList)
      (some (opts_manual4 9 8 7 6).manual_color) (some true)).2.2.2.2.1 _ _ _ rfl rfl rfl
        (by decide),
    (C21_colour_stored_only_on_success strtod_decimal (some "#12g".toList)
      (some (opts_manual4 9 8 7 6).manual_color) (some true)).1 (by decide),
    (C21_colour_stored_only_on_success strtod_decimal (some "x".toList)
      (some (opts_manual4 9 8 7 6).manual_color) (some true)).1 (by decide),
    (C21_colour_stored_only_on_success strtod_decimal (some "1,2,300".toList)
      (some (opts_manual4 9 8 7 6).manual_color) (some true)).1 (by decide),
    (C21_colour_stored_only_on_success strtod_decimal (some "1,2,300".toList)
      (some (opts_manual4 9 8 7 6).manual_color) (some true)).2.2.2.2.1 _ _ _ rfl rfl rfl
        (by decide),
    (C21_colour_stored_only_on_success strtod_decimal (some "1;2;3".toList)
      (some (opts_manual4 9 8 7 6).manual_color) (some true)).1 (by decide),
    (C21_colour_stored_only_on_success strtod_decimal (some "1,2".toList)
      (some (opts_manual4 9 8 7 6).manual_color) (some true)).1 (by decide),
    (C21_colour_stored_only_on_success strtod_decimal (some "Transparent".toList)
      (some (opts_manual4 9 8 7 6).manual_color) (some true)).2.2.1 _ rfl (by decide),
    by decide⟩

/-- C21 as stated fails at a call with the spec "1,2,3", a null `out` and a
marker that is true: the call returns false with the message for a missing
specification and the marker is still true. -/
theorem C21_null_out_counterexample :
    (isw_color_parse strtod_decimal (some "1,2,3".toList) none (some true)).ret = false ∧
    (isw_color_parse strtod_decimal (some "1,2,3".toList) none (some true)).err_msg
      = some .MissingSpec ∧
    (isw_color_parse strtod_decimal (some "1,2,3".toList) none (some true)).out_is_transparent
      = some true ∧
    (isw_color_parse strtod_decimal (some "1,2,3".toList) none (some true)).out_is_transparent
      ≠ some false := by
  decide

end ISW
